import Mathlib

/-!
# Gelox lexer: token model and lexer engine

A shallow embedding of `token/token.go` and `lexer/lexer.go`.

* A Go `byte` is a natural number (a well-formed byte is below 256); a Go `string` is the
  list of its bytes, so `len` is `List.length` and `s[i]` is the `i`-th element.
* The cursors `position` and `readPosition` are Go `int`s. The first embedding (`Lexer`,
  `readChar`, ..., `NextToken`) has them as natural numbers; `readPosition` grows by one
  per `readChar`, so it stays below `2^63` in every run of fewer than
  `2^63 - len(input) - 4` calls (see `run_readPosition_le`). The second embedding
  (`IntLexer`, `readCharInt`, ..., `NextTokenInt`) has them as wrapping `int`s; the two
  agree as long as no cursor has wrapped around (`NextTokenInt_stateAt`, `runInt_eq`), and
  the second one shows what happens after that (`overflow_on_empty`).
* An index out of range and a slice with bad bounds abort a Go program; the operations
  that index or slice return `Option`, `none` standing for the abort.
* The three `for` loops are recursions on a fuel counter that the wrapper functions set to
  `len(input) + 2`; running out of fuel is `none` as well.
-/

namespace Gelox

/-! ## Bytes and strings -/

/-- The bytes of an ASCII string literal (every character of the literals used in this
file is below 128, where the code point is the byte). -/
def ascii (s : String) : List Nat := s.toList.map Char.toNat

/-- Go's conversion `string(ch)` of a `byte`: the UTF-8 encoding of the code point `ch`,
one byte below `0x80` and two bytes from `0x80` to `0xFF`. -/
def byteToString (ch : Nat) : List Nat :=
  if ch < 128 then [ch] else [192 + ch / 64, 128 + ch % 64]

/-- Go's `s[i]`, which aborts when `i` is out of range. -/
def byteAt (s : List Nat) (i : Nat) : Option Nat := s[i]?

/-- Go's `s[lo:hi]`, which aborts unless `lo <= hi <= len(s)`. -/
def slice (s : List Nat) (lo hi : Nat) : Option (List Nat) :=
  if lo ≤ hi ∧ hi ≤ s.length then some ((s.drop lo).take (hi - lo)) else none

/-! ## token/token.go -/

/-- The predefined values of `TokenType` (a Go string type whose constants are pairwise
different strings). -/
inductive TokenType where
  | ILLEGAL | EOF
  | IDENT | DOUBLE | BIGINT
  | ASSIGN | PLUS | MINUS | BANG | ASTERISK | SLASH | REMAINDER
  | LT | GT | EQ | NEQ | STR_EQ | STR_NEQ
  | COMMA | SEMICOLON
  | LPAREN | RPAREN | LBRACE | RBRACE
  | FUNCTION | LET | TRUE | FALSE | IF | ELSE | RETURN
  deriving DecidableEq, Repr

open TokenType

/-- The string value of each `TokenType` constant. -/
def TokenType.str : TokenType → List Nat
  | ILLEGAL => ascii "ILLEGAL" | EOF => ascii "EOF"
  | IDENT => ascii "IDENT" | DOUBLE => ascii "DOUBLE" | BIGINT => ascii "BIGINT"
  | ASSIGN => ascii "=" | PLUS => ascii "+" | MINUS => ascii "-" | BANG => ascii "!"
  | ASTERISK => ascii "*" | SLASH => ascii "/" | REMAINDER => ascii "%"
  | LT => ascii "<" | GT => ascii ">" | EQ => ascii "==" | NEQ => ascii "!="
  | STR_EQ => ascii "===" | STR_NEQ => ascii "!=="
  | COMMA => ascii "," | SEMICOLON => ascii ";"
  | LPAREN => ascii "(" | RPAREN => ascii ")" | LBRACE => ascii "\x7b" | RBRACE => ascii "\x7d"
  | FUNCTION => ascii "FUNCTION" | LET => ascii "LET" | TRUE => ascii "TRUE"
  | FALSE => ascii "FALSE" | IF => ascii "IF" | ELSE => ascii "ELSE" | RETURN => ascii "RETURN"

/-- The struct `Token`; the field `Type` of the source is `Typ` (`Type` is reserved). -/
structure Token where
  Typ : TokenType
  Literal : List Nat
  deriving DecidableEq, Repr

/-- The map `keywords`, as its list of entries (the keys are pairwise different). -/
def keywords : List (List Nat × TokenType) :=
  [ (ascii "function", FUNCTION),
    (ascii "let", LET),
    (ascii "true", TRUE),
    (ascii "false", FALSE),
    (ascii "if", IF),
    (ascii "else", ELSE),
    (ascii "return", RETURN) ]

/-- The function `LookupIdent`: the keyword's type when `ident` is a key of `keywords`,
`IDENT` otherwise. -/
def LookupIdent (ident : List Nat) : TokenType :=
  match keywords.lookup ident with
  | some tok => tok
  | none => IDENT

/-! ## lexer/lexer.go -/

/-- The constant `ASCII_NUL`. -/
def ASCII_NUL : Nat := 0

/-- The struct `Lexer`, with the cursors as natural numbers (`IntLexer` below has them as
wrapping `int`s). -/
structure Lexer where
  input : List Nat
  position : Nat
  ch : Nat
  readPosition : Nat
  deriving DecidableEq, Repr

/-- The function `newToken`. -/
def newToken (tokenType : TokenType) (ch : Nat) : Token :=
  { Typ := tokenType, Literal := byteToString ch }

/-- The method `readChar`, with the cursors as natural numbers (`readCharInt` below has
them as wrapping `int`s). -/
def readChar (l : Lexer) : Option Lexer :=
  if l.input.length ≤ l.readPosition then
    some { l with ch := ASCII_NUL, position := l.readPosition, readPosition := l.readPosition + 1 }
  else
    (byteAt l.input l.readPosition).map fun c =>
      { l with ch := c, position := l.readPosition, readPosition := l.readPosition + 1 }

/-- The function `isLetter`. -/
def isLetter (ch : Nat) : Bool :=
  (decide (97 ≤ ch) && decide (ch ≤ 122)) || (decide (65 ≤ ch) && decide (ch ≤ 90))
    || decide (ch = 95)

/-- The function `isDigit`. -/
def isDigit (ch : Nat) : Bool :=
  decide (48 ≤ ch) && decide (ch ≤ 57)

/-- The loop condition of `skipWhitespace`: space, tab, newline or carriage return. -/
def isWhitespace (ch : Nat) : Bool :=
  decide (ch = 32) || decide (ch = 9) || decide (ch = 10) || decide (ch = 13)

/-- The loop of `skipWhitespace`. -/
def skipWhitespaceLoop : Nat → Lexer → Option Lexer
  | 0, _ => none
  | fuel + 1, l =>
    if isWhitespace l.ch then (readChar l).bind (skipWhitespaceLoop fuel) else some l

/-- The method `skipWhitespace`. -/
def skipWhitespace (l : Lexer) : Option Lexer :=
  skipWhitespaceLoop (l.input.length + 2) l

/-- The loop of `readIdentifier`. -/
def readIdentifierLoop : Nat → Lexer → Option Lexer
  | 0, _ => none
  | fuel + 1, l =>
    if isLetter l.ch then (readChar l).bind (readIdentifierLoop fuel) else some l

/-- The method `readIdentifier`: the string it returns and the lexer it leaves. -/
def readIdentifier (l : Lexer) : Option (List Nat × Lexer) :=
  let position := l.position
  (readIdentifierLoop (l.input.length + 2) l).bind fun l1 =>
    (slice l1.input position l1.position).map fun s => (s, l1)

/-- The loop of `readNumber`. -/
def readNumberLoop : Nat → Lexer → Option Lexer
  | 0, _ => none
  | fuel + 1, l =>
    if isDigit l.ch then (readChar l).bind (readNumberLoop fuel) else some l

/-- The method `readNumber`: the string it returns and the lexer it leaves. -/
def readNumber (l : Lexer) : Option (List Nat × Lexer) :=
  let position := l.position
  (readNumberLoop (l.input.length + 2) l).bind fun l1 =>
    (slice l1.input position l1.position).map fun s => (s, l1)

/-- The method `peekCharAt`. -/
def peekCharAt (l : Lexer) (offset : Nat) : Option Nat :=
  let targetPosition := l.readPosition + offset
  if l.input.length ≤ targetPosition then some ASCII_NUL else byteAt l.input targetPosition

/-- The method `peekNextChar`. -/
def peekNextChar (l : Lexer) : Option Nat := peekCharAt l 0

/-- The method `peekNextNextChar`. -/
def peekNextNextChar (l : Lexer) : Option Nat := peekCharAt l 1

/-- The function `New`. -/
def New (input : List Nat) : Option Lexer :=
  readChar { input := input, position := 0, ch := 0, readPosition := 0 }

/-- The end of `NextToken` after the `switch`: `l.readChar()` and `return tok`. -/
def advance (tok : Token) (l : Lexer) : Option (Token × Lexer) :=
  (readChar l).map fun l1 => (tok, l1)

/-- The cases `'='` and `'!'` of `NextToken`, which differ only in the three token types:
`t3` for the three-byte operator, `t2` for the two-byte one and `t1` for the single byte. -/
def operatorCase (t3 t2 t1 : TokenType) (l : Lexer) : Option (Token × Lexer) :=
  (peekNextChar l).bind fun p1 =>
    if p1 = 61 then
      (peekNextNextChar l).bind fun p2 =>
        if p2 = 61 then
          let ch := l.ch
          (readChar l).bind fun l1 =>
            let nch := l1.ch
            (readChar l1).bind fun l2 =>
              let literal := byteToString ch ++ byteToString nch ++ byteToString l2.ch
              advance { Typ := t3, Literal := literal } l2
        else
          let ch := l.ch
          (readChar l).bind fun l1 =>
            let literal := byteToString ch ++ byteToString l1.ch
            advance { Typ := t2, Literal := literal } l1
    else
      advance (newToken t1 l.ch) l

/-- The `switch` of `NextToken` (on the lexer left by `skipWhitespace`) with the final
`readChar`; the byte values are `'='` 61, `'+'` 43, `'-'` 45, `'!'` 33, `'/'` 47, `'*'` 42,
`'<'` 60, `'>'` 62, `','` 44, `';'` 59, `'('` 40, `')'` 41, left brace 123, right brace 125. -/
def dispatch (l : Lexer) : Option (Token × Lexer) :=
  if l.ch = 61 then operatorCase STR_EQ EQ ASSIGN l
  else if l.ch = 43 then advance (newToken PLUS l.ch) l
  else if l.ch = 45 then advance (newToken MINUS l.ch) l
  else if l.ch = 33 then operatorCase STR_NEQ NEQ BANG l
  else if l.ch = 47 then advance (newToken SLASH l.ch) l
  else if l.ch = 42 then advance (newToken ASTERISK l.ch) l
  else if l.ch = 60 then advance (newToken LT l.ch) l
  else if l.ch = 62 then advance (newToken GT l.ch) l
  else if l.ch = 44 then advance (newToken COMMA l.ch) l
  else if l.ch = 59 then advance (newToken SEMICOLON l.ch) l
  else if l.ch = 40 then advance (newToken LPAREN l.ch) l
  else if l.ch = 41 then advance (newToken RPAREN l.ch) l
  else if l.ch = 123 then advance (newToken LBRACE l.ch) l
  else if l.ch = 125 then advance (newToken RBRACE l.ch) l
  else if l.ch = ASCII_NUL then advance { Typ := EOF, Literal := [] } l
  else if isLetter l.ch then
    (readIdentifier l).map fun r => ({ Typ := LookupIdent r.1, Literal := r.1 }, r.2)
  else if isDigit l.ch then
    (readNumber l).map fun r => ({ Typ := DOUBLE, Literal := r.1 }, r.2)
  else advance (newToken ILLEGAL l.ch) l

/-- The method `NextToken`: the token it returns and the lexer it leaves. -/
def NextToken (l : Lexer) : Option (Token × Lexer) :=
  (skipWhitespace l).bind dispatch

/-! ## Drivers: repeated calls of `NextToken` -/

/-- The lexer after `n` calls of `NextToken`. -/
def callN : Nat → Lexer → Option Lexer
  | 0, l => some l
  | n + 1, l => (NextToken l).bind fun r => callN n r.2

/-- The lexer after `New(s)` and `n` calls of `NextToken`. -/
def run (s : List Nat) (n : Nat) : Option Lexer := (New s).bind (callN n)

/-- The tokens returned by `n` successive calls of `NextToken`. -/
def nextTokens : Nat → Lexer → Option (List Token)
  | 0, _ => some []
  | n + 1, l => (NextToken l).bind fun r => (nextTokens n r.2).map fun ts => r.1 :: ts

/-- The tokens returned by successive calls of `NextToken` up to and including the first
`EOF` token; `none` when no `EOF` arrives within `fuel` calls. -/
def tokensToEOF : Nat → Lexer → Option (List Token)
  | 0, _ => none
  | fuel + 1, l =>
    (NextToken l).bind fun r =>
      if r.1.Typ = EOF then some [r.1] else (tokensToEOF fuel r.2).map fun ts => r.1 :: ts

/-- The token sequence of an input: `New`, then `NextToken` until the first `EOF`. -/
def tokenize (s : List Nat) : Option (List Token) :=
  (New s).bind (tokensToEOF (s.length + 1))

/-- The input of the end-to-end scenario. -/
def scenarioInput : List Nat :=
  ascii "let five = 5;\nlet add = function(x, y) \x7b return x + y; \x7d;\n!-/*5;\n5 < 10 > 5;\n10 == 10;\n10 != 9;\n42 === 42;\n42 !== 41;"

/-- A token from its type and an ASCII literal. -/
def tk (t : TokenType) (s : String) : Token := { Typ := t, Literal := ascii s }

/-- The expected (kind, literal) pairs of the end-to-end scenario. -/
def scenarioTokens : List Token :=
  [ tk LET "let", tk IDENT "five", tk ASSIGN "=", tk DOUBLE "5", tk SEMICOLON ";",
    tk LET "let", tk IDENT "add", tk ASSIGN "=", tk FUNCTION "function", tk LPAREN "(",
    tk IDENT "x", tk COMMA ",", tk IDENT "y", tk RPAREN ")", tk LBRACE "\x7b",
    tk RETURN "return", tk IDENT "x", tk PLUS "+", tk IDENT "y", tk SEMICOLON ";",
    tk RBRACE "\x7d", tk SEMICOLON ";",
    tk BANG "!", tk MINUS "-", tk SLASH "/", tk ASTERISK "*", tk DOUBLE "5", tk SEMICOLON ";",
    tk DOUBLE "5", tk LT "<", tk DOUBLE "10", tk GT ">", tk DOUBLE "5", tk SEMICOLON ";",
    tk DOUBLE "10", tk EQ "==", tk DOUBLE "10", tk SEMICOLON ";",
    tk DOUBLE "10", tk NEQ "!=", tk DOUBLE "9", tk SEMICOLON ";",
    tk DOUBLE "42", tk STR_EQ "===", tk DOUBLE "42", tk SEMICOLON ";",
    tk DOUBLE "42", tk STR_NEQ "!==", tk DOUBLE "41", tk SEMICOLON ";",
    tk EOF "" ]

/-! ## Canonical states -/

/-- The lexer over `s` whose cursor is at `p`: the loaded byte is `s[p]`, or the sentinel
when `p` is at or past the end, and `readPosition` is one ahead. -/
def stateAt (s : List Nat) (p : Nat) : Lexer :=
  { input := s, position := p, ch := (s.drop p).headD 0, readPosition := p + 1 }

/-- The length of the longest beginning of `t` whose bytes all satisfy `f`. -/
def runLen (f : Nat → Bool) (t : List Nat) : Nat := (t.takeWhile f).length

/-- A loop of the shape shared by `skipWhitespace`, `readIdentifier` and `readNumber`. -/
def whileLoop (f : Nat → Bool) : Nat → Lexer → Option Lexer
  | 0, _ => none
  | fuel + 1, l => if f l.ch then (readChar l).bind (whileLoop f fuel) else some l

/-- The cases `'='` and `'!'` read off the bytes `t` that start at the cursor: the token
and the number of bytes consumed. -/
def scanOperator (t3 t2 t1 : TokenType) (t : List Nat) : Token × Nat :=
  if (t.drop 1).headD 0 = 61 then
    if (t.drop 2).headD 0 = 61 then
      ({ Typ := t3, Literal := byteToString (t.headD 0) ++ byteToString 61 ++ byteToString 61 }, 3)
    else
      ({ Typ := t2, Literal := byteToString (t.headD 0) ++ byteToString 61 }, 2)
  else
    (newToken t1 (t.headD 0), 1)

/-- The `switch` of `NextToken` read off the bytes `t` that start at the cursor (after the
whitespace): the token and the number of bytes by which the cursor moves. -/
def scan (t : List Nat) : Token × Nat :=
  if t.headD 0 = 61 then scanOperator STR_EQ EQ ASSIGN t
  else if t.headD 0 = 43 then (newToken PLUS (t.headD 0), 1)
  else if t.headD 0 = 45 then (newToken MINUS (t.headD 0), 1)
  else if t.headD 0 = 33 then scanOperator STR_NEQ NEQ BANG t
  else if t.headD 0 = 47 then (newToken SLASH (t.headD 0), 1)
  else if t.headD 0 = 42 then (newToken ASTERISK (t.headD 0), 1)
  else if t.headD 0 = 60 then (newToken LT (t.headD 0), 1)
  else if t.headD 0 = 62 then (newToken GT (t.headD 0), 1)
  else if t.headD 0 = 44 then (newToken COMMA (t.headD 0), 1)
  else if t.headD 0 = 59 then (newToken SEMICOLON (t.headD 0), 1)
  else if t.headD 0 = 40 then (newToken LPAREN (t.headD 0), 1)
  else if t.headD 0 = 41 then (newToken RPAREN (t.headD 0), 1)
  else if t.headD 0 = 123 then (newToken LBRACE (t.headD 0), 1)
  else if t.headD 0 = 125 then (newToken RBRACE (t.headD 0), 1)
  else if t.headD 0 = ASCII_NUL then ({ Typ := EOF, Literal := [] }, 1)
  else if isLetter (t.headD 0) then
    ({ Typ := LookupIdent (t.take (runLen isLetter t)), Literal := t.take (runLen isLetter t) },
      runLen isLetter t)
  else if isDigit (t.headD 0) then
    ({ Typ := DOUBLE, Literal := t.take (runLen isDigit t) }, runLen isDigit t)
  else (newToken ILLEGAL (t.headD 0), 1)

/-- The token type that the `switch` of `NextToken` gives to a byte that is a token on
its own (not `'='`, `'!'`, the sentinel, a letter or a digit). -/
def singleType (c : Nat) : TokenType :=
  if c = 43 then PLUS
  else if c = 45 then MINUS
  else if c = 47 then SLASH
  else if c = 42 then ASTERISK
  else if c = 60 then LT
  else if c = 62 then GT
  else if c = 44 then COMMA
  else if c = 59 then SEMICOLON
  else if c = 40 then LPAREN
  else if c = 41 then RPAREN
  else if c = 123 then LBRACE
  else if c = 125 then RBRACE
  else ILLEGAL

/-- One call of `NextToken` read off the bytes `t` from the cursor on: the token and the
number of bytes by which the cursor moves, whitespace included. -/
def lexOne (t : List Nat) : Token × Nat :=
  ((scan (t.drop (runLen isWhitespace t))).1,
    runLen isWhitespace t + (scan (t.drop (runLen isWhitespace t))).2)

/-- The tokens up to and including the first `EOF`, read off the bytes `t` from the cursor
on, for at most `fuel` tokens. -/
def lexFuel : Nat → List Nat → List Token
  | 0, _ => []
  | fuel + 1, t =>
    if (lexOne t).1.Typ = EOF then [(lexOne t).1]
    else (lexOne t).1 :: lexFuel fuel (t.drop (lexOne t).2)

/-- The tokens up to and including the first `EOF`, read off the bytes `t`. -/
def lexAll (t : List Nat) : List Token := lexFuel (t.length + 1) t

/-- The cursor position after `n` calls of `NextToken` that start with the cursor on `p`. -/
def posAfter (s : List Nat) : Nat → Nat → Nat
  | 0, p => p
  | n + 1, p => posAfter s n (p + (lexOne (s.drop p)).2)

/-- The bytes `t` are empty or start with a whitespace byte. -/
def StartsBlank (t : List Nat) : Prop := ∀ y ys, t = y :: ys → isWhitespace y = true

/-- The bytes that no case of `NextToken` recognizes: not NUL, no whitespace, no letter
or underscore, no digit, and none of `= + - ! / * < > , ; ( )` and the two braces. -/
def unrecognized (c : Nat) : Bool :=
  decide (c ≠ 0) && !isWhitespace c && !isLetter c && !isDigit c &&
    decide (c ∉ [61, 43, 45, 33, 47, 42, 60, 62, 44, 59, 40, 41, 123, 125])

/-- The shape that the kind of a token gives to its literal: an operator, delimiter or
grouping kind has its own string value as literal; a keyword kind has the reserved word of
the table `keywords`, which is its name in lower case; `IDENT` has a non-empty run of
letters and underscores that is no reserved word; `DOUBLE` has a non-empty run of digits;
and the literal is empty exactly for `EOF`. -/
def LiteralShape (tok : Token) : Prop :=
  (tok.Typ ∈ [ASSIGN, PLUS, MINUS, BANG, ASTERISK, SLASH, LT, GT, EQ, NEQ, STR_EQ, STR_NEQ,
      COMMA, SEMICOLON, LPAREN, RPAREN, LBRACE, RBRACE] → tok.Literal = tok.Typ.str) ∧
  (tok.Typ ∈ [FUNCTION, LET, TRUE, FALSE, IF, ELSE, RETURN] →
    (tok.Literal, tok.Typ) ∈ keywords ∧ tok.Literal.map (fun c => c - 32) = tok.Typ.str) ∧
  (tok.Typ = IDENT → tok.Literal ≠ [] ∧ (∀ c ∈ tok.Literal, isLetter c = true) ∧
    ∀ k ∈ keywords, tok.Literal ≠ k.1) ∧
  (tok.Typ = DOUBLE → tok.Literal ≠ [] ∧ ∀ c ∈ tok.Literal, isDigit c = true) ∧
  (tok.Literal = [] ↔ tok.Typ = EOF)

instance LiteralShape.decidable (tok : Token) : Decidable (LiteralShape tok) := by
  unfold LiteralShape
  infer_instance

/-! ## lexer/lexer.go with the cursors as Go `int`s

The same functions once more, with `position` and `readPosition` as Go `int`s of half-range
`M` (`M = 2^63` where `int` has 64 bits, `M = 2^31` where it has 32): a sum wraps around
into `[-M, M)`, and a negative index or slice bound aborts like one that is too large. -/

/-- The value of a Go `int` computation whose exact result is `x`: wrap-around into
`[-M, M)`. -/
def wrapInt (M : Nat) (x : Int) : Int := (x + M) % (2 * M) - M

/-- Go's `s[i]` for an `int` index, which aborts unless `0 <= i < len(s)`. -/
def byteAtInt (s : List Nat) (i : Int) : Option Nat :=
  if 0 ≤ i then s[i.toNat]? else none

/-- Go's `s[lo:hi]` for `int` bounds, which aborts unless `0 <= lo <= hi <= len(s)`. -/
def sliceInt (s : List Nat) (lo hi : Int) : Option (List Nat) :=
  if 0 ≤ lo ∧ lo ≤ hi ∧ hi ≤ (s.length : Int) then
    some ((s.drop lo.toNat).take (hi.toNat - lo.toNat))
  else none

/-- The struct `Lexer` with `int` cursors. -/
structure IntLexer where
  input : List Nat
  position : Int
  ch : Nat
  readPosition : Int
  deriving DecidableEq, Repr

/-- The method `readChar` with `int` cursors. -/
def readCharInt (M : Nat) (l : IntLexer) : Option IntLexer :=
  if (l.input.length : Int) ≤ l.readPosition then
    some { l with ch := ASCII_NUL, position := l.readPosition,
                  readPosition := wrapInt M (l.readPosition + 1) }
  else
    (byteAtInt l.input l.readPosition).map fun c =>
      { l with ch := c, position := l.readPosition,
               readPosition := wrapInt M (l.readPosition + 1) }

/-- The loop of `skipWhitespace` with `int` cursors. -/
def skipWhitespaceLoopInt (M : Nat) : Nat → IntLexer → Option IntLexer
  | 0, _ => none
  | fuel + 1, l =>
    if isWhitespace l.ch then (readCharInt M l).bind (skipWhitespaceLoopInt M fuel) else some l

/-- The method `skipWhitespace` with `int` cursors. -/
def skipWhitespaceInt (M : Nat) (l : IntLexer) : Option IntLexer :=
  skipWhitespaceLoopInt M (l.input.length + 2) l

/-- The loop of `readIdentifier` with `int` cursors. -/
def readIdentifierLoopInt (M : Nat) : Nat → IntLexer → Option IntLexer
  | 0, _ => none
  | fuel + 1, l =>
    if isLetter l.ch then (readCharInt M l).bind (readIdentifierLoopInt M fuel) else some l

/-- The method `readIdentifier` with `int` cursors. -/
def readIdentifierInt (M : Nat) (l : IntLexer) : Option (List Nat × IntLexer) :=
  let position := l.position
  (readIdentifierLoopInt M (l.input.length + 2) l).bind fun l1 =>
    (sliceInt l1.input position l1.position).map fun s => (s, l1)

/-- The loop of `readNumber` with `int` cursors. -/
def readNumberLoopInt (M : Nat) : Nat → IntLexer → Option IntLexer
  | 0, _ => none
  | fuel + 1, l =>
    if isDigit l.ch then (readCharInt M l).bind (readNumberLoopInt M fuel) else some l

/-- The method `readNumber` with `int` cursors. -/
def readNumberInt (M : Nat) (l : IntLexer) : Option (List Nat × IntLexer) :=
  let position := l.position
  (readNumberLoopInt M (l.input.length + 2) l).bind fun l1 =>
    (sliceInt l1.input position l1.position).map fun s => (s, l1)

/-- The method `peekCharAt` with `int` cursors. -/
def peekCharAtInt (M : Nat) (l : IntLexer) (offset : Int) : Option Nat :=
  let targetPosition := wrapInt M (l.readPosition + offset)
  if (l.input.length : Int) ≤ targetPosition then some ASCII_NUL
  else byteAtInt l.input targetPosition

/-- The method `peekNextChar` with `int` cursors. -/
def peekNextCharInt (M : Nat) (l : IntLexer) : Option Nat := peekCharAtInt M l 0

/-- The method `peekNextNextChar` with `int` cursors. -/
def peekNextNextCharInt (M : Nat) (l : IntLexer) : Option Nat := peekCharAtInt M l 1

/-- The function `New` with `int` cursors. -/
def NewInt (M : Nat) (input : List Nat) : Option IntLexer :=
  readCharInt M { input := input, position := 0, ch := 0, readPosition := 0 }

/-- The end of `NextToken` after the `switch`, with `int` cursors. -/
def advanceInt (M : Nat) (tok : Token) (l : IntLexer) : Option (Token × IntLexer) :=
  (readCharInt M l).map fun l1 => (tok, l1)

/-- The cases `'='` and `'!'` of `NextToken` with `int` cursors. -/
def operatorCaseInt (M : Nat) (t3 t2 t1 : TokenType) (l : IntLexer) :
    Option (Token × IntLexer) :=
  (peekNextCharInt M l).bind fun p1 =>
    if p1 = 61 then
      (peekNextNextCharInt M l).bind fun p2 =>
        if p2 = 61 then
          let ch := l.ch
          (readCharInt M l).bind fun l1 =>
            let nch := l1.ch
            (readCharInt M l1).bind fun l2 =>
              let literal := byteToString ch ++ byteToString nch ++ byteToString l2.ch
              advanceInt M { Typ := t3, Literal := literal } l2
        else
          let ch := l.ch
          (readCharInt M l).bind fun l1 =>
            let literal := byteToString ch ++ byteToString l1.ch
            advanceInt M { Typ := t2, Literal := literal } l1
    else
      advanceInt M (newToken t1 l.ch) l

/-- The `switch` of `NextToken` with the final `readChar`, with `int` cursors. -/
def dispatchInt (M : Nat) (l : IntLexer) : Option (Token × IntLexer) :=
  if l.ch = 61 then operatorCaseInt M STR_EQ EQ ASSIGN l
  else if l.ch = 43 then advanceInt M (newToken PLUS l.ch) l
  else if l.ch = 45 then advanceInt M (newToken MINUS l.ch) l
  else if l.ch = 33 then operatorCaseInt M STR_NEQ NEQ BANG l
  else if l.ch = 47 then advanceInt M (newToken SLASH l.ch) l
  else if l.ch = 42 then advanceInt M (newToken ASTERISK l.ch) l
  else if l.ch = 60 then advanceInt M (newToken LT l.ch) l
  else if l.ch = 62 then advanceInt M (newToken GT l.ch) l
  else if l.ch = 44 then advanceInt M (newToken COMMA l.ch) l
  else if l.ch = 59 then advanceInt M (newToken SEMICOLON l.ch) l
  else if l.ch = 40 then advanceInt M (newToken LPAREN l.ch) l
  else if l.ch = 41 then advanceInt M (newToken RPAREN l.ch) l
  else if l.ch = 123 then advanceInt M (newToken LBRACE l.ch) l
  else if l.ch = 125 then advanceInt M (newToken RBRACE l.ch) l
  else if l.ch = ASCII_NUL then advanceInt M { Typ := EOF, Literal := [] } l
  else if isLetter l.ch then
    (readIdentifierInt M l).map fun r => ({ Typ := LookupIdent r.1, Literal := r.1 }, r.2)
  else if isDigit l.ch then
    (readNumberInt M l).map fun r => ({ Typ := DOUBLE, Literal := r.1 }, r.2)
  else advanceInt M (newToken ILLEGAL l.ch) l

/-- The method `NextToken` with `int` cursors. -/
def NextTokenInt (M : Nat) (l : IntLexer) : Option (Token × IntLexer) :=
  (skipWhitespaceInt M l).bind (dispatchInt M)

/-- The lexer after `n` calls of `NextToken`, with `int` cursors. -/
def callNInt (M : Nat) : Nat → IntLexer → Option IntLexer
  | 0, l => some l
  | n + 1, l => (NextTokenInt M l).bind fun r => callNInt M n r.2

/-- The lexer after `New(s)` and `n` calls of `NextToken`, with `int` cursors. -/
def runInt (M : Nat) (s : List Nat) (n : Nat) : Option IntLexer :=
  (NewInt M s).bind (callNInt M n)

/-- A lexer with natural-number cursors as a lexer with `int` cursors. -/
def Lexer.toInt (l : Lexer) : IntLexer :=
  { input := l.input, position := (l.position : Int), ch := l.ch,
    readPosition := (l.readPosition : Int) }

/-- A loop of the shape shared by the three loops, with `int` cursors. -/
def whileLoopInt (f : Nat → Bool) (M : Nat) : Nat → IntLexer → Option IntLexer
  | 0, _ => none
  | fuel + 1, l => if f l.ch then (readCharInt M l).bind (whileLoopInt f M fuel) else some l

/-! ## The lexer on canonical states -/

theorem drop_eq_cons_of_getElem? {s : List Nat} {p c : Nat} (h : s[p]? = some c) :
    s.drop p = c :: s.drop (p + 1) := by
  induction s generalizing p with
  | nil => simp at h
  | cons a t ih =>
    cases p with
    | zero => simp at h; simp [h]
    | succ q => simp at h; simp [ih h]

theorem headD_drop (s : List Nat) (p : Nat) : (s.drop p).headD 0 = (s[p]?).getD 0 := by
  induction s generalizing p with
  | nil => simp
  | cons a t ih =>
    cases p with
    | zero => simp
    | succ q => simp [ih q]

theorem readChar_stateAt (s : List Nat) (p : Nat) :
    readChar (stateAt s p) = some (stateAt s (p + 1)) := by
  unfold readChar stateAt byteAt
  by_cases h : s.length ≤ p + 1
  · simp [h, ASCII_NUL, List.drop_of_length_le h]
  · have hlt : p + 1 < s.length := by omega
    simp [h, headD_drop, List.getElem?_eq_getElem hlt]

theorem New_eq (s : List Nat) : New s = some (stateAt s 0) := by
  unfold New readChar stateAt byteAt
  cases s with
  | nil => simp [ASCII_NUL]
  | cons a t => simp

theorem readChar_isSome (l : Lexer) : (readChar l).isSome = true := by
  unfold readChar byteAt
  by_cases h : l.input.length ≤ l.readPosition
  · simp [h]
  · have hlt : l.readPosition < l.input.length := by omega
    simp [h, List.getElem?_eq_getElem hlt]

theorem runLen_le (f : Nat → Bool) (t : List Nat) : runLen f t ≤ t.length := by
  unfold runLen
  exact (List.takeWhile_sublist f).length_le

theorem whileLoop_stateAt (f : Nat → Bool) (hf : f 0 = false) (s : List Nat) :
    ∀ (fuel p : Nat), runLen f (s.drop p) < fuel →
      whileLoop f fuel (stateAt s p) = some (stateAt s (p + runLen f (s.drop p))) := by
  intro fuel
  induction fuel with
  | zero => intro p h; omega
  | succ n ih =>
    intro p h
    unfold whileLoop
    cases hd : s.drop p with
    | nil =>
      have hch : (stateAt s p).ch = 0 := by simp [stateAt, hd]
      simp [hch, hf, runLen]
    | cons c rest =>
      have hch : (stateAt s p).ch = c := by simp [stateAt, hd]
      have hrest : s.drop (p + 1) = rest := by
        have := congrArg List.tail hd
        simpa [List.tail_drop] using this
      by_cases hc : f c = true
      · have hr : runLen f (c :: rest) = runLen f rest + 1 := by
          simp [runLen, List.takeWhile_cons, hc]
        rw [hd, hr] at h
        have hlt : runLen f (s.drop (p + 1)) < n := by rw [hrest]; omega
        simp only [hch, hc, if_true, readChar_stateAt, Option.some_bind]
        rw [ih (p + 1) hlt, hrest, hr]
        congr 2
        omega
      · have hr : runLen f (c :: rest) = 0 := by
          simp [runLen, List.takeWhile_cons, hc]
        simp [hch, hc, hr]

theorem skipWhitespaceLoop_eq (fuel : Nat) (l : Lexer) :
    skipWhitespaceLoop fuel l = whileLoop isWhitespace fuel l := by
  induction fuel generalizing l with
  | zero => rfl
  | succ n ih =>
    unfold skipWhitespaceLoop whileLoop
    split
    · cases readChar l <;> simp [ih]
    · rfl

theorem readIdentifierLoop_eq (fuel : Nat) (l : Lexer) :
    readIdentifierLoop fuel l = whileLoop isLetter fuel l := by
  induction fuel generalizing l with
  | zero => rfl
  | succ n ih =>
    unfold readIdentifierLoop whileLoop
    split
    · cases readChar l <;> simp [ih]
    · rfl

theorem readNumberLoop_eq (fuel : Nat) (l : Lexer) :
    readNumberLoop fuel l = whileLoop isDigit fuel l := by
  induction fuel generalizing l with
  | zero => rfl
  | succ n ih =>
    unfold readNumberLoop whileLoop
    split
    · cases readChar l <;> simp [ih]
    · rfl

theorem advance_stateAt (tok : Token) (s : List Nat) (p : Nat) :
    advance tok (stateAt s p) = some (tok, stateAt s (p + 1)) := by
  simp [advance, readChar_stateAt]

theorem headD_drop_drop (s : List Nat) (p k : Nat) :
    ((s.drop p).drop k).headD 0 = (s.drop (p + k)).headD 0 := by
  rw [List.drop_drop, Nat.add_comm]

theorem peekCharAt_stateAt (s : List Nat) (p k : Nat) :
    peekCharAt (stateAt s p) k = some (((s.drop p).drop (1 + k)).headD 0) := by
  unfold peekCharAt byteAt
  have e : (stateAt s p).readPosition + k = p + (1 + k) := by simp [stateAt]; omega
  have hin : (stateAt s p).input = s := rfl
  simp only [e, hin, headD_drop_drop]
  rw [headD_drop]
  by_cases h : s.length ≤ p + (1 + k)
  · rw [if_pos h, List.getElem?_eq_none h]
    rfl
  · have hlt : p + (1 + k) < s.length := by omega
    rw [if_neg h, List.getElem?_eq_getElem hlt]
    rfl

theorem stateAt_ch (s : List Nat) (p : Nat) : (stateAt s p).ch = (s.drop p).headD 0 := rfl

theorem operatorCase_stateAt (t3 t2 t1 : TokenType) (s : List Nat) (p : Nat) :
    operatorCase t3 t2 t1 (stateAt s p) =
      some ((scanOperator t3 t2 t1 (s.drop p)).1,
        stateAt s (p + (scanOperator t3 t2 t1 (s.drop p)).2)) := by
  unfold operatorCase scanOperator peekNextChar peekNextNextChar
  simp only [peekCharAt_stateAt, Option.some_bind, Nat.add_zero]
  by_cases h1 : ((s.drop p).drop 1).headD 0 = 61
  · have e1 : (s.drop (p + 1)).headD 0 = 61 := by
      rw [← h1, headD_drop_drop]
    by_cases h2 : ((s.drop p).drop (1 + 1)).headD 0 = 61
    · have e2 : (s.drop (p + 1 + 1)).headD 0 = 61 := by
        rw [← h2, headD_drop_drop]
      simp only [h1, h2, if_true, readChar_stateAt, Option.some_bind, advance_stateAt,
        stateAt_ch, e1, e2]
    · simp only [h1, h2, if_true, if_false, readChar_stateAt, Option.some_bind,
        advance_stateAt, stateAt_ch, e1]
  · simp only [h1, if_false, advance_stateAt, stateAt_ch]

theorem slice_drop_take (s : List Nat) (p n : Nat) (h : p + n ≤ s.length) :
    slice s p (p + n) = some ((s.drop p).take n) := by
  unfold slice
  simp [h]

theorem headD_ne_zero_lt {s : List Nat} {p : Nat} (h : (s.drop p).headD 0 ≠ 0) :
    p < s.length := by
  by_contra hn
  have : s.drop p = [] := List.drop_of_length_le (by omega)
  simp [this] at h

theorem isLetter_zero : isLetter 0 = false := by decide

theorem isDigit_zero : isDigit 0 = false := by decide

theorem isWhitespace_zero : isWhitespace 0 = false := by decide

theorem runLen_drop_add_le (f : Nat → Bool) (s : List Nat) (p : Nat) (h : p ≤ s.length) :
    p + runLen f (s.drop p) ≤ s.length := by
  have := runLen_le f (s.drop p)
  simp only [List.length_drop] at this
  omega

theorem readIdentifier_stateAt (s : List Nat) (p : Nat) (h : p ≤ s.length) :
    readIdentifier (stateAt s p) =
      some ((s.drop p).take (runLen isLetter (s.drop p)),
        stateAt s (p + runLen isLetter (s.drop p))) := by
  unfold readIdentifier
  have hfuel : runLen isLetter (s.drop p) < (stateAt s p).input.length + 2 := by
    have := runLen_drop_add_le isLetter s p h
    show _ < s.length + 2
    omega
  simp only [readIdentifierLoop_eq, whileLoop_stateAt isLetter isLetter_zero s _ p hfuel,
    Option.some_bind]
  have hs := slice_drop_take s p _ (runLen_drop_add_le isLetter s p h)
  simp [stateAt, hs]

theorem readNumber_stateAt (s : List Nat) (p : Nat) (h : p ≤ s.length) :
    readNumber (stateAt s p) =
      some ((s.drop p).take (runLen isDigit (s.drop p)),
        stateAt s (p + runLen isDigit (s.drop p))) := by
  unfold readNumber
  have hfuel : runLen isDigit (s.drop p) < (stateAt s p).input.length + 2 := by
    have := runLen_drop_add_le isDigit s p h
    show _ < s.length + 2
    omega
  simp only [readNumberLoop_eq, whileLoop_stateAt isDigit isDigit_zero s _ p hfuel,
    Option.some_bind]
  have hs := slice_drop_take s p _ (runLen_drop_add_le isDigit s p h)
  simp [stateAt, hs]

theorem dispatch_stateAt (s : List Nat) (p : Nat) :
    dispatch (stateAt s p) =
      some ((scan (s.drop p)).1, stateAt s (p + (scan (s.drop p)).2)) := by
  unfold dispatch scan
  simp only [stateAt_ch]
  by_cases h1 : (s.drop p).headD 0 = 61
  · rw [if_pos h1, if_pos h1]; exact operatorCase_stateAt _ _ _ s p
  rw [if_neg h1, if_neg h1]
  by_cases h2 : (s.drop p).headD 0 = 43
  · rw [if_pos h2, if_pos h2]; exact advance_stateAt _ s p
  rw [if_neg h2, if_neg h2]
  by_cases h3 : (s.drop p).headD 0 = 45
  · rw [if_pos h3, if_pos h3]; exact advance_stateAt _ s p
  rw [if_neg h3, if_neg h3]
  by_cases h4 : (s.drop p).headD 0 = 33
  · rw [if_pos h4, if_pos h4]; exact operatorCase_stateAt _ _ _ s p
  rw [if_neg h4, if_neg h4]
  by_cases k0 : (s.drop p).headD 0 = 47
  · rw [if_pos k0, if_pos k0]; exact advance_stateAt _ s p
  rw [if_neg k0, if_neg k0]
  by_cases k1 : (s.drop p).headD 0 = 42
  · rw [if_pos k1, if_pos k1]; exact advance_stateAt _ s p
  rw [if_neg k1, if_neg k1]
  by_cases k2 : (s.drop p).headD 0 = 60
  · rw [if_pos k2, if_pos k2]; exact advance_stateAt _ s p
  rw [if_neg k2, if_neg k2]
  by_cases k3 : (s.drop p).headD 0 = 62
  · rw [if_pos k3, if_pos k3]; exact advance_stateAt _ s p
  rw [if_neg k3, if_neg k3]
  by_cases k4 : (s.drop p).headD 0 = 44
  · rw [if_pos k4, if_pos k4]; exact advance_stateAt _ s p
  rw [if_neg k4, if_neg k4]
  by_cases k5 : (s.drop p).headD 0 = 59
  · rw [if_pos k5, if_pos k5]; exact advance_stateAt _ s p
  rw [if_neg k5, if_neg k5]
  by_cases k6 : (s.drop p).headD 0 = 40
  · rw [if_pos k6, if_pos k6]; exact advance_stateAt _ s p
  rw [if_neg k6, if_neg k6]
  by_cases k7 : (s.drop p).headD 0 = 41
  · rw [if_pos k7, if_pos k7]; exact advance_stateAt _ s p
  rw [if_neg k7, if_neg k7]
  by_cases k8 : (s.drop p).headD 0 = 123
  · rw [if_pos k8, if_pos k8]; exact advance_stateAt _ s p
  rw [if_neg k8, if_neg k8]
  by_cases k9 : (s.drop p).headD 0 = 125
  · rw [if_pos k9, if_pos k9]; exact advance_stateAt _ s p
  rw [if_neg k9, if_neg k9]
  by_cases h15 : (s.drop p).headD 0 = ASCII_NUL
  · rw [if_pos h15, if_pos h15]; exact advance_stateAt _ s p
  rw [if_neg h15, if_neg h15]
  have hp : p ≤ s.length := Nat.le_of_lt (headD_ne_zero_lt h15)
  by_cases h16 : isLetter ((s.drop p).headD 0) = true
  · rw [if_pos h16, if_pos h16, readIdentifier_stateAt s p hp]
    rfl
  rw [if_neg h16, if_neg h16]
  by_cases h17 : isDigit ((s.drop p).headD 0) = true
  · rw [if_pos h17, if_pos h17, readNumber_stateAt s p hp]
    rfl
  rw [if_neg h17, if_neg h17]
  exact advance_stateAt _ s p

theorem skipWhitespace_stateAt (s : List Nat) (p : Nat) :
    skipWhitespace (stateAt s p) = some (stateAt s (p + runLen isWhitespace (s.drop p))) := by
  unfold skipWhitespace
  rw [skipWhitespaceLoop_eq]
  apply whileLoop_stateAt isWhitespace isWhitespace_zero
  have h1 := runLen_le isWhitespace (s.drop p)
  simp only [List.length_drop] at h1
  show _ < s.length + 2
  omega

/-- One call of `NextToken` on a canonical state: it returns, the token and the cursor
movement are those of `lexOne` on the bytes from the cursor on. -/
theorem NextToken_stateAt (s : List Nat) (p : Nat) :
    NextToken (stateAt s p) =
      some ((lexOne (s.drop p)).1, stateAt s (p + (lexOne (s.drop p)).2)) := by
  unfold NextToken lexOne
  simp only [skipWhitespace_stateAt, Option.some_bind, dispatch_stateAt, List.drop_drop]
  simp [Nat.add_assoc, Nat.add_comm]

theorem callN_stateAt (s : List Nat) (n p : Nat) :
    callN n (stateAt s p) = some (stateAt s (posAfter s n p)) := by
  induction n generalizing p with
  | zero => rfl
  | succ k ih => simp only [callN, NextToken_stateAt, Option.some_bind, ih, posAfter]

theorem run_eq (s : List Nat) (n : Nat) : run s n = some (stateAt s (posAfter s n 0)) := by
  simp only [run, New_eq, Option.some_bind, callN_stateAt]

theorem readChar_eq (l : Lexer) : readChar l = some (stateAt l.input l.readPosition) := by
  unfold readChar stateAt byteAt
  by_cases h : l.input.length ≤ l.readPosition
  · simp [h, ASCII_NUL, List.drop_of_length_le h]
  · have hlt : l.readPosition < l.input.length := by omega
    simp [h, headD_drop, List.getElem?_eq_getElem hlt]

theorem whileLoop_isSome (f : Nat → Bool) (hf : f 0 = false) (l : Lexer) (fuel : Nat)
    (h : l.input.length + 2 ≤ fuel) : (whileLoop f fuel l).isSome = true := by
  obtain ⟨k, rfl⟩ : ∃ k, fuel = k + 1 := ⟨fuel - 1, by omega⟩
  unfold whileLoop
  by_cases hc : f l.ch = true
  · have hlen := runLen_le f (l.input.drop l.readPosition)
    simp only [List.length_drop] at hlen
    rw [if_pos hc, readChar_eq, Option.some_bind, whileLoop_stateAt f hf _ _ _ (by omega)]
    rfl
  · rw [if_neg hc]
    rfl

/-! ## Facts about the scanner -/

theorem drop_runLen (f : Nat → Bool) (t : List Nat) : t.drop (runLen f t) = t.dropWhile f := by
  induction t with
  | nil => rfl
  | cons c cs ih =>
    by_cases hc : f c = true
    · simpa [runLen, List.takeWhile_cons, List.dropWhile_cons, hc] using ih
    · simp [runLen, List.takeWhile_cons, List.dropWhile_cons, hc]

theorem take_runLen (f : Nat → Bool) (t : List Nat) : t.take (runLen f t) = t.takeWhile f := by
  induction t with
  | nil => rfl
  | cons c cs ih =>
    by_cases hc : f c = true
    · simpa [runLen, List.takeWhile_cons, hc] using ih
    · simp [runLen, List.takeWhile_cons, hc]

theorem runLen_pos {f : Nat → Bool} {t : List Nat} (hf : f 0 = false)
    (h : f (t.headD 0) = true) : 1 ≤ runLen f t := by
  cases t with
  | nil => simp [hf] at h
  | cons c cs =>
    have hc : f c = true := by simpa using h
    simp [runLen, List.takeWhile_cons, hc]

theorem LookupIdent_eq (x : List Nat) :
    LookupIdent x =
      if x = ascii "function" then FUNCTION
      else if x = ascii "let" then LET
      else if x = ascii "true" then TRUE
      else if x = ascii "false" then FALSE
      else if x = ascii "if" then IF
      else if x = ascii "else" then ELSE
      else if x = ascii "return" then RETURN
      else IDENT := by
  unfold LookupIdent keywords
  simp only [List.lookup]
  by_cases h1 : x = ascii "function"
  · have : (x == ascii "function") = true := by simp [h1]
    simp only [this, if_pos h1]
  have b1 : (x == ascii "function") = false := by simp [h1]
  by_cases h2 : x = ascii "let"
  · have : (x == ascii "let") = true := by simp [h2]
    simp only [b1, this, if_neg h1, if_pos h2]
  have b2 : (x == ascii "let") = false := by simp [h2]
  by_cases h3 : x = ascii "true"
  · have : (x == ascii "true") = true := by simp [h3]
    simp only [b1, b2, this, if_neg h1, if_neg h2, if_pos h3]
  have b3 : (x == ascii "true") = false := by simp [h3]
  by_cases h4 : x = ascii "false"
  · have : (x == ascii "false") = true := by simp [h4]
    simp only [b1, b2, b3, this, if_neg h1, if_neg h2, if_neg h3, if_pos h4]
  have b4 : (x == ascii "false") = false := by simp [h4]
  by_cases h5 : x = ascii "if"
  · have : (x == ascii "if") = true := by simp [h5]
    simp only [b1, b2, b3, b4, this, if_neg h1, if_neg h2, if_neg h3, if_neg h4, if_pos h5]
  have b5 : (x == ascii "if") = false := by simp [h5]
  by_cases h6 : x = ascii "else"
  · have : (x == ascii "else") = true := by simp [h6]
    simp only [b1, b2, b3, b4, b5, this, if_neg h1, if_neg h2, if_neg h3, if_neg h4,
      if_neg h5, if_pos h6]
  have b6 : (x == ascii "else") = false := by simp [h6]
  by_cases h7 : x = ascii "return"
  · have : (x == ascii "return") = true := by simp [h7]
    simp only [b1, b2, b3, b4, b5, b6, this, if_neg h1, if_neg h2, if_neg h3, if_neg h4,
      if_neg h5, if_neg h6, if_pos h7]
  have b7 : (x == ascii "return") = false := by simp [h7]
  simp only [b1, b2, b3, b4, b5, b6, b7, if_neg h1, if_neg h2, if_neg h3, if_neg h4,
    if_neg h5, if_neg h6, if_neg h7]

theorem LookupIdent_ne_EOF (x : List Nat) : LookupIdent x ≠ EOF := by
  rw [LookupIdent_eq]
  split_ifs <;> decide

/-- The `switch` regrouped by the shape of the token. -/
theorem scan_eq (t : List Nat) :
    scan t =
      if t.headD 0 = 61 then scanOperator STR_EQ EQ ASSIGN t
      else if t.headD 0 = 33 then scanOperator STR_NEQ NEQ BANG t
      else if t.headD 0 = 0 then ({ Typ := EOF, Literal := [] }, 1)
      else if isLetter (t.headD 0) = true then
        ({ Typ := LookupIdent (t.take (runLen isLetter t)),
           Literal := t.take (runLen isLetter t) }, runLen isLetter t)
      else if isDigit (t.headD 0) = true then
        ({ Typ := DOUBLE, Literal := t.take (runLen isDigit t) }, runLen isDigit t)
      else (newToken (singleType (t.headD 0)) (t.headD 0), 1) := by
  unfold scan
  generalize t.headD 0 = c
  by_cases h1 : c = 61
  · rw [if_pos h1, if_pos h1]
  rw [if_neg h1, if_neg h1]
  by_cases h2 : c = 43
  · subst h2; rfl
  rw [if_neg h2]
  by_cases h3 : c = 45
  · subst h3; rfl
  rw [if_neg h3]
  by_cases h4 : c = 33
  · rw [if_pos h4, if_pos h4]
  rw [if_neg h4, if_neg h4]
  by_cases h5 : c = 47
  · subst h5; rfl
  rw [if_neg h5]
  by_cases h6 : c = 42
  · subst h6; rfl
  rw [if_neg h6]
  by_cases h7 : c = 60
  · subst h7; rfl
  rw [if_neg h7]
  by_cases h8 : c = 62
  · subst h8; rfl
  rw [if_neg h8]
  by_cases h9 : c = 44
  · subst h9; rfl
  rw [if_neg h9]
  by_cases h10 : c = 59
  · subst h10; rfl
  rw [if_neg h10]
  by_cases h11 : c = 40
  · subst h11; rfl
  rw [if_neg h11]
  by_cases h12 : c = 41
  · subst h12; rfl
  rw [if_neg h12]
  by_cases h13 : c = 123
  · subst h13; rfl
  rw [if_neg h13]
  by_cases h14 : c = 125
  · subst h14; rfl
  rw [if_neg h14]
  by_cases h15 : c = 0
  · rw [if_pos (show c = ASCII_NUL from h15), if_pos h15]
  rw [if_neg (show ¬ c = ASCII_NUL from h15), if_neg h15]
  by_cases h16 : isLetter c = true
  · rw [if_pos h16, if_pos h16]
  rw [if_neg h16, if_neg h16]
  by_cases h17 : isDigit c = true
  · rw [if_pos h17, if_pos h17]
  rw [if_neg h17, if_neg h17]
  simp only [singleType, if_neg h2, if_neg h3, if_neg h5, if_neg h6, if_neg h7, if_neg h8,
    if_neg h9, if_neg h10, if_neg h11, if_neg h12, if_neg h13, if_neg h14]

theorem ite_ne_of_ne {c : Prop} [Decidable c] {a b x : TokenType} (ha : a ≠ x) (hb : b ≠ x) :
    (if c then a else b) ≠ x := by
  split_ifs <;> assumption

theorem singleType_ne_EOF (c : Nat) : singleType c ≠ EOF := by
  unfold singleType
  repeat first | exact (by decide) | apply ite_ne_of_ne (by decide)

theorem scanOperator_snd_pos (t3 t2 t1 : TokenType) (t : List Nat) :
    1 ≤ (scanOperator t3 t2 t1 t).2 := by
  unfold scanOperator
  split_ifs <;> simp

theorem scanOperator_typ_ne_EOF (t3 t2 t1 : TokenType) (t : List Nat)
    (h3 : t3 ≠ EOF) (h2 : t2 ≠ EOF) (h1 : t1 ≠ EOF) :
    (scanOperator t3 t2 t1 t).1.Typ ≠ EOF := by
  unfold scanOperator
  split_ifs <;> simp [newToken, *]

theorem scan_snd_pos (t : List Nat) : 1 ≤ (scan t).2 := by
  rw [scan_eq]
  split_ifs with h1 h2 h3 h4 h5
  · exact scanOperator_snd_pos _ _ _ t
  · exact scanOperator_snd_pos _ _ _ t
  · exact Nat.le_refl 1
  · exact runLen_pos isLetter_zero h4
  · exact runLen_pos isDigit_zero h5
  · exact Nat.le_refl 1

theorem scan_eof_iff (t : List Nat) : (scan t).1.Typ = EOF ↔ t.headD 0 = 0 := by
  rw [scan_eq]
  generalize t.headD 0 = c
  split_ifs with h1 h2 h3 h4 h5
  · have := scanOperator_typ_ne_EOF STR_EQ EQ ASSIGN t (by decide) (by decide) (by decide)
    simp [this, h1]
  · have := scanOperator_typ_ne_EOF STR_NEQ NEQ BANG t (by decide) (by decide) (by decide)
    simp [this, h2]
  · simp [h3]
  · simp [h3, LookupIdent_ne_EOF]
  · simp [h3]
  · simp [h3, newToken, singleType_ne_EOF]

theorem scan_eof_literal (t : List Nat) (h : (scan t).1.Typ = EOF) :
    (scan t).1 = { Typ := EOF, Literal := [] } := by
  have h0 := (scan_eof_iff t).1 h
  rw [scan_eq, if_neg (by rw [h0]; decide), if_neg (by rw [h0]; decide), if_pos h0]

theorem lexOne_snd_pos (t : List Nat) : 1 ≤ (lexOne t).2 := by
  have := scan_snd_pos (t.drop (runLen isWhitespace t))
  simp only [lexOne]
  omega

theorem lexOne_eof_iff (t : List Nat) :
    (lexOne t).1.Typ = EOF ↔ (t.dropWhile isWhitespace).headD 0 = 0 := by
  simp only [lexOne, scan_eof_iff, drop_runLen]

theorem posAfter_ge (s : List Nat) (n p : Nat) : p + n ≤ posAfter s n p := by
  induction n generalizing p with
  | zero => simp [posAfter]
  | succ k ih =>
    have h1 := lexOne_snd_pos (s.drop p)
    have h2 := ih (p + (lexOne (s.drop p)).2)
    simp only [posAfter]
    omega

theorem posAfter_add (s : List Nat) (m n p : Nat) :
    posAfter s (m + n) p = posAfter s n (posAfter s m p) := by
  induction m generalizing p with
  | zero => simp [posAfter]
  | succ k ih => rw [Nat.succ_add]; simp only [posAfter, ih]

theorem lexOne_of_length_le (s : List Nat) (p : Nat) (h : s.length ≤ p) :
    lexOne (s.drop p) = ({ Typ := EOF, Literal := [] }, 1) := by
  rw [List.drop_of_length_le h]
  rfl

theorem lexOne_eof_literal (t : List Nat) (h : (lexOne t).1.Typ = EOF) :
    (lexOne t).1 = { Typ := EOF, Literal := [] } :=
  scan_eof_literal _ h

theorem posAfter_mono (s : List Nat) (m n : Nat) (h : m ≤ n) :
    posAfter s m 0 ≤ posAfter s n 0 := by
  obtain ⟨d, rfl⟩ : ∃ d, n = m + d := ⟨n - m, by omega⟩
  rw [posAfter_add]
  have := posAfter_ge s d (posAfter s m 0)
  omega

theorem runLen_append_stop (f : Nat → Bool) (w : List Nat) (c : Nat) (r : List Nat)
    (hw : ∀ x ∈ w, f x = true) (hc : f c = false) : runLen f (w ++ c :: r) = w.length := by
  induction w with
  | nil => simp [runLen, List.takeWhile_cons, hc]
  | cons a t ih =>
    have ha : f a = true := hw a (List.mem_cons_self a t)
    have ht : ∀ x ∈ t, f x = true := fun x hx => hw x (List.mem_cons_of_mem a hx)
    have := ih ht
    simp only [runLen] at this
    simp [runLen, List.takeWhile_cons, ha, this]

/-- Every state reached from `New(s)` is a canonical state. -/
theorem run_some {s : List Nat} {n : Nat} {l : Lexer} (h : run s n = some l) :
    l = stateAt s (posAfter s n 0) := by
  rw [run_eq] at h
  exact (Option.some.inj h).symm

theorem NextToken_some {s : List Nat} {p : Nat} {r : Token × Lexer}
    (h : NextToken (stateAt s p) = some r) :
    r = ((lexOne (s.drop p)).1, stateAt s (p + (lexOne (s.drop p)).2)) := by
  rw [NextToken_stateAt] at h
  exact (Option.some.inj h).symm

theorem scanOperator_snd_le (t3 t2 t1 : TokenType) (t : List Nat) :
    (scanOperator t3 t2 t1 t).2 ≤ max 1 t.length := by
  unfold scanOperator
  match t with
  | [] => simp
  | [_] => simp
  | [_, d] => by_cases hd : d = 61 <;> simp [hd]
  | _ :: d :: e :: es =>
    by_cases hd : d = 61 <;> by_cases he : e = 61 <;> simp [hd, he]

theorem scanOperator_literal (t3 t2 t1 : TokenType) (c : Nat) (cs : List Nat) (hc : c < 128) :
    (scanOperator t3 t2 t1 (c :: cs)).1.Literal =
      (c :: cs).take (scanOperator t3 t2 t1 (c :: cs)).2 := by
  unfold scanOperator
  match cs with
  | [] => simp [newToken, byteToString, hc]
  | [d] => by_cases hd : d = 61 <;> simp [hd, newToken, byteToString, hc]
  | d :: e :: es =>
    by_cases hd : d = 61 <;> by_cases he : e = 61 <;> simp [hd, he, newToken, byteToString, hc]

theorem scan_snd_le (t : List Nat) : (scan t).2 ≤ max 1 t.length := by
  rw [scan_eq]
  split_ifs
  · exact scanOperator_snd_le _ _ _ t
  · exact scanOperator_snd_le _ _ _ t
  · exact Nat.le_max_left _ _
  · exact Nat.le_trans (runLen_le _ t) (Nat.le_max_right _ _)
  · exact Nat.le_trans (runLen_le _ t) (Nat.le_max_right _ _)
  · exact Nat.le_max_left _ _

theorem singleType_of_ge (c : Nat) (h : 128 ≤ c) : singleType c = ILLEGAL := by
  unfold singleType
  rw [if_neg (by omega), if_neg (by omega), if_neg (by omega), if_neg (by omega),
    if_neg (by omega), if_neg (by omega), if_neg (by omega), if_neg (by omega),
    if_neg (by omega), if_neg (by omega), if_neg (by omega), if_neg (by omega)]

theorem isLetter_lt {c : Nat} (h : isLetter c = true) : c < 128 := by
  simp only [isLetter, Bool.or_eq_true, Bool.and_eq_true, decide_eq_true_eq] at h
  omega

theorem isDigit_lt {c : Nat} (h : isDigit c = true) : c < 128 := by
  simp only [isDigit, Bool.and_eq_true, decide_eq_true_eq] at h
  omega

/-- The literal of a token that starts on an ASCII byte is the bytes consumed; a token that
starts on a byte from `0x80` on is `ILLEGAL` with the two-byte encoding of that byte. -/
theorem scan_literal (c : Nat) (cs : List Nat) (h0 : c ≠ 0) :
    (c < 128 → (scan (c :: cs)).1.Literal = (c :: cs).take (scan (c :: cs)).2) ∧
    (128 ≤ c → scan (c :: cs) =
      ({ Typ := ILLEGAL, Literal := [192 + c / 64, 128 + c % 64] }, 1)) := by
  rw [scan_eq]
  simp only [List.headD_cons]
  by_cases h1 : c = 61
  · rw [if_pos h1]
    exact ⟨fun h => scanOperator_literal _ _ _ c cs h, fun h => by omega⟩
  rw [if_neg h1]
  by_cases h2 : c = 33
  · rw [if_pos h2]
    exact ⟨fun h => scanOperator_literal _ _ _ c cs h, fun h => by omega⟩
  rw [if_neg h2, if_neg h0]
  by_cases h4 : isLetter c = true
  · rw [if_pos h4]
    exact ⟨fun _ => rfl, fun h => by have := isLetter_lt h4; omega⟩
  rw [if_neg h4]
  by_cases h5 : isDigit c = true
  · rw [if_pos h5]
    exact ⟨fun _ => rfl, fun h => by have := isDigit_lt h5; omega⟩
  rw [if_neg h5]
  constructor
  · intro h
    simp [newToken, byteToString, h]
  · intro h
    have hn : ¬ c < 128 := by omega
    simp [newToken, byteToString, hn, singleType_of_ge c h]

theorem peekCharAt_isSome (l : Lexer) (k : Nat) : (peekCharAt l k).isSome = true := by
  unfold peekCharAt byteAt
  by_cases h : l.input.length ≤ l.readPosition + k
  · simp [h]
  · have hlt : l.readPosition + k < l.input.length := by omega
    simp [h, List.getElem?_eq_getElem hlt]

theorem lexOne_end_le (s : List Nat) (p : Nat) :
    p + (lexOne (s.drop p)).2 ≤ max p s.length + 1 := by
  have h1 := scan_snd_le ((s.drop p).drop (runLen isWhitespace (s.drop p)))
  have h2 := runLen_le isWhitespace (s.drop p)
  simp only [List.length_drop] at h1 h2
  simp only [lexOne]
  omega

theorem posAfter_le (s : List Nat) (n p : Nat) : posAfter s n p ≤ max p s.length + n := by
  induction n generalizing p with
  | zero => simp [posAfter]
  | succ k ih =>
    have h1 := lexOne_end_le s p
    have h2 := ih (p + (lexOne (s.drop p)).2)
    simp only [posAfter]
    omega

/-- After `n` calls the cursors are within `len(s) + n + 1` (and the next call computes
nothing above `len(s) + n + 3`): no Go `int` overflows in a run of fewer than
`2^63 - len(s) - 4` calls. -/
theorem run_readPosition_le (s : List Nat) (n : Nat) (l : Lexer) (h : run s n = some l) :
    l.readPosition = l.position + 1 ∧ l.position ≤ s.length + n := by
  rw [run_some h]
  refine ⟨rfl, ?_⟩
  have := posAfter_le s n 0
  rw [Nat.max_eq_right (Nat.zero_le _)] at this
  exact this

theorem skipWhitespace_some {s : List Nat} {p : Nat} {lw : Lexer}
    (h : skipWhitespace (stateAt s p) = some lw) :
    lw = stateAt s (p + runLen isWhitespace (s.drop p)) := by
  rw [skipWhitespace_stateAt] at h
  exact (Option.some.inj h).symm

theorem getElem?_of_drop_eq_cons {s : List Nat} {p c : Nat} {cs : List Nat}
    (h : s.drop p = c :: cs) : s[p]? = some c := by
  have := List.head?_drop s p
  rw [h] at this
  simpa using this.symm

theorem lt_length_of_drop_eq_cons {s : List Nat} {p c : Nat} {cs : List Nat}
    (h : s.drop p = c :: cs) : p < s.length := by
  by_contra hn
  rw [List.drop_of_length_le (by omega)] at h
  cases h

theorem lexOne_eq (t : List Nat) :
    lexOne t = ((scan (t.dropWhile isWhitespace)).1,
      runLen isWhitespace t + (scan (t.dropWhile isWhitespace)).2) := by
  simp only [lexOne, drop_runLen]

/-! ## The token sequence of an input -/

theorem lexOne_drop_lt (t : List Nat) (h : (lexOne t).1.Typ ≠ EOF) :
    (t.drop (lexOne t).2).length < t.length := by
  cases t with
  | nil => exact absurd rfl h
  | cons c cs =>
    have := lexOne_snd_pos (c :: cs)
    simp only [List.length_drop, List.length_cons]
    omega

theorem lexFuel_congr (f1 f2 : Nat) (t : List Nat) (h1 : t.length < f1) (h2 : t.length < f2) :
    lexFuel f1 t = lexFuel f2 t := by
  induction f1 generalizing f2 t with
  | zero => omega
  | succ k ih =>
    obtain ⟨m, rfl⟩ : ∃ m, f2 = m + 1 := ⟨f2 - 1, by omega⟩
    simp only [lexFuel]
    by_cases he : (lexOne t).1.Typ = EOF
    · rw [if_pos he, if_pos he]
    · rw [if_neg he, if_neg he]
      have := lexOne_drop_lt t he
      rw [ih m _ (by omega) (by omega)]

theorem lexAll_unfold (t : List Nat) :
    lexAll t =
      if (lexOne t).1.Typ = EOF then [(lexOne t).1]
      else (lexOne t).1 :: lexAll (t.drop (lexOne t).2) := by
  show (if (lexOne t).1.Typ = EOF then [(lexOne t).1]
    else (lexOne t).1 :: lexFuel t.length (t.drop (lexOne t).2)) = _
  by_cases he : (lexOne t).1.Typ = EOF
  · rw [if_pos he, if_pos he]
  · rw [if_neg he, if_neg he]
    have := lexOne_drop_lt t he
    congr 1
    exact lexFuel_congr _ _ _ this (Nat.lt_succ_self _)

theorem tokensToEOF_stateAt (s : List Nat) (fuel p : Nat) (h : (s.drop p).length < fuel) :
    tokensToEOF fuel (stateAt s p) = some (lexFuel fuel (s.drop p)) := by
  induction fuel generalizing p with
  | zero => omega
  | succ k ih =>
    simp only [tokensToEOF, lexFuel, NextToken_stateAt, Option.some_bind]
    by_cases he : (lexOne (s.drop p)).1.Typ = EOF
    · rw [if_pos he, if_pos he]
    · rw [if_neg he, if_neg he]
      have h1 := lexOne_drop_lt (s.drop p) he
      have h2 : (s.drop p).drop (lexOne (s.drop p)).2 = s.drop (p + (lexOne (s.drop p)).2) :=
        List.drop_drop _ _ _
      rw [h2] at h1
      rw [ih _ (by omega), h2]
      rfl

theorem tokenize_eq (s : List Nat) : tokenize s = some (lexAll s) := by
  unfold tokenize lexAll
  rw [New_eq, Option.some_bind, tokensToEOF_stateAt s _ 0 (by simp)]
  rfl

theorem runLen_append_all (f : Nat → Bool) (w t : List Nat) (hw : ∀ x ∈ w, f x = true) :
    runLen f (w ++ t) = w.length + runLen f t := by
  induction w with
  | nil => simp
  | cons a r ih =>
    have ha : f a = true := hw a (List.mem_cons_self a r)
    have hr : ∀ x ∈ r, f x = true := fun x hx => hw x (List.mem_cons_of_mem a hx)
    have := ih hr
    simp only [runLen] at this
    simp only [runLen, List.cons_append, List.takeWhile_cons, ha, if_true, List.length_cons, this]
    omega

theorem lexOne_ws_append (w t : List Nat) (hw : ∀ x ∈ w, isWhitespace x = true) :
    lexOne (w ++ t) = ((lexOne t).1, w.length + (lexOne t).2) := by
  simp only [lexOne, runLen_append_all _ w t hw, List.drop_append, Nat.add_assoc]

theorem lexAll_ws_append (w t : List Nat) (hw : ∀ x ∈ w, isWhitespace x = true) :
    lexAll (w ++ t) = lexAll t := by
  rw [lexAll_unfold (w ++ t), lexAll_unfold t, lexOne_ws_append w t hw]
  simp only [List.drop_append]

theorem runLen_append_stop_at (f : Nat → Bool) (a t : List Nat)
    (ht : ∀ y ys, t = y :: ys → f y = false) : runLen f (a ++ t) = runLen f a := by
  induction a with
  | nil =>
    cases t with
    | nil => rfl
    | cons y ys => simp [runLen, List.takeWhile_cons, ht y ys rfl]
  | cons c cs ih =>
    simp only [runLen] at ih
    by_cases hc : f c = true
    · simp [runLen, List.takeWhile_cons, hc, ih]
    · simp [runLen, List.takeWhile_cons, hc]

theorem isWhitespace_cases {y : Nat} (h : isWhitespace y = true) :
    y = 32 ∨ y = 9 ∨ y = 10 ∨ y = 13 := by
  simp only [isWhitespace, Bool.or_eq_true, decide_eq_true_eq] at h
  omega

theorem isLetter_of_isWhitespace {y : Nat} (h : isWhitespace y = true) : isLetter y = false := by
  rcases isWhitespace_cases h with h | h | h | h <;> subst h <;> rfl

theorem isDigit_of_isWhitespace {y : Nat} (h : isWhitespace y = true) : isDigit y = false := by
  rcases isWhitespace_cases h with h | h | h | h <;> subst h <;> rfl

theorem StartsBlank.headD_ne {t : List Nat} (h : StartsBlank t) : t.headD 0 ≠ 61 := by
  cases t with
  | nil => decide
  | cons y ys =>
    have := isWhitespace_cases (h y ys rfl)
    simp only [List.headD_cons]
    omega

theorem scanOperator_append_blank (t3 t2 t1 : TokenType) (c : Nat) (a1 Y : List Nat)
    (hY : StartsBlank Y) :
    scanOperator t3 t2 t1 (c :: a1 ++ Y) = scanOperator t3 t2 t1 (c :: a1) := by
  have hY0 : ¬ Y.head?.getD 0 = 61 := by simpa using hY.headD_ne
  unfold scanOperator
  match a1 with
  | [] => simp [hY0]
  | [d] => by_cases hd : d = 61 <;> simp [hd, hY0]
  | d :: e :: es => rfl

/-- The scanner does not look past bytes `a` that are followed by the end of the input or
by a whitespace byte. -/
theorem scan_append_blank (c : Nat) (a1 Y : List Nat) (hY : StartsBlank Y) :
    scan (c :: a1 ++ Y) = scan (c :: a1) := by
  rw [scan_eq, scan_eq]
  simp only [List.cons_append, List.headD_cons]
  by_cases h1 : c = 61
  · rw [if_pos h1, if_pos h1]; exact scanOperator_append_blank _ _ _ c a1 Y hY
  rw [if_neg h1, if_neg h1]
  by_cases h2 : c = 33
  · rw [if_pos h2, if_pos h2]; exact scanOperator_append_blank _ _ _ c a1 Y hY
  rw [if_neg h2, if_neg h2]
  by_cases h3 : c = 0
  · rw [if_pos h3, if_pos h3]
  rw [if_neg h3, if_neg h3]
  by_cases h4 : isLetter c = true
  · rw [if_pos h4, if_pos h4]
    have hr : runLen isLetter (c :: (a1 ++ Y)) = runLen isLetter (c :: a1) :=
      runLen_append_stop_at isLetter (c :: a1) Y
        (fun y ys h => isLetter_of_isWhitespace (hY y ys h))
    have ht : (c :: (a1 ++ Y)).take (runLen isLetter (c :: a1)) =
        (c :: a1).take (runLen isLetter (c :: a1)) :=
      @List.take_append_of_le_length _ (c :: a1) Y _ (runLen_le _ _)
    rw [hr, ht]
  rw [if_neg h4, if_neg h4]
  by_cases h5 : isDigit c = true
  · rw [if_pos h5, if_pos h5]
    have hr : runLen isDigit (c :: (a1 ++ Y)) = runLen isDigit (c :: a1) :=
      runLen_append_stop_at isDigit (c :: a1) Y
        (fun y ys h => isDigit_of_isWhitespace (hY y ys h))
    have ht : (c :: (a1 ++ Y)).take (runLen isDigit (c :: a1)) =
        (c :: a1).take (runLen isDigit (c :: a1)) :=
      @List.take_append_of_le_length _ (c :: a1) Y _ (runLen_le _ _)
    rw [hr, ht]
  rw [if_neg h5, if_neg h5]

theorem dropWhile_head_false (f : Nat → Bool) (a : List Nat) (c : Nat) (cs : List Nat)
    (h : a.dropWhile f = c :: cs) : f c = false := by
  induction a with
  | nil => simp at h
  | cons x xs ih =>
    by_cases hx : f x = true
    · rw [List.dropWhile_cons, if_pos hx] at h
      exact ih h
    · rw [List.dropWhile_cons, if_neg hx] at h
      cases h
      simpa using hx

theorem lexOne_cons_nonblank (c : Nat) (r : List Nat) (hc : isWhitespace c = false) :
    lexOne (c :: r) = scan (c :: r) := by
  have h0 : runLen isWhitespace (c :: r) = 0 := by
    simp [runLen, List.takeWhile_cons, hc]
  simp only [lexOne, h0, List.drop_zero, Nat.zero_add]

/-- Bytes `a` followed by the end of the input or by whitespace are tokenized on their own:
what follows them contributes only its own tokens. -/
theorem lexAll_append_blank (a X Y : List Nat) (hX : StartsBlank X) (hY : StartsBlank Y)
    (h : lexAll X = lexAll Y) : lexAll (a ++ X) = lexAll (a ++ Y) := by
  suffices H : ∀ (n : Nat) (a : List Nat), a.length = n → lexAll (a ++ X) = lexAll (a ++ Y) from
    H _ a rfl
  intro n
  induction n using Nat.strong_induction_on with
  | _ n ih =>
    intro a hn
    have hsplit := List.takeWhile_append_dropWhile isWhitespace a
    have hwall : ∀ x ∈ a.takeWhile isWhitespace, isWhitespace x = true :=
      fun x hx => List.mem_takeWhile_imp hx
    cases hd : a.dropWhile isWhitespace with
    | nil =>
      rw [hd, List.append_nil] at hsplit
      rw [← hsplit, lexAll_ws_append _ X hwall, lexAll_ws_append _ Y hwall, h]
    | cons c a1 =>
      have hc : isWhitespace c = false := dropWhile_head_false _ a c a1 hd
      rw [hd] at hsplit
      have hlen : (c :: a1).length ≤ a.length := by
        rw [← hsplit, List.length_append]
        omega
      rw [← hsplit, List.append_assoc, List.append_assoc,
        lexAll_ws_append _ _ hwall, lexAll_ws_append _ _ hwall,
        lexAll_unfold (c :: a1 ++ X), lexAll_unfold (c :: a1 ++ Y)]
      simp only [List.cons_append]
      rw [lexOne_cons_nonblank c (a1 ++ X) hc, lexOne_cons_nonblank c (a1 ++ Y) hc]
      have e1 : scan (c :: (a1 ++ X)) = scan (c :: a1) := scan_append_blank c a1 X hX
      have e2 : scan (c :: (a1 ++ Y)) = scan (c :: a1) := scan_append_blank c a1 Y hY
      rw [e1, e2]
      by_cases he : (scan (c :: a1)).1.Typ = EOF
      · rw [if_pos he, if_pos he]
      · rw [if_neg he, if_neg he]
        have hle := scan_snd_le (c :: a1)
        have hpos := scan_snd_pos (c :: a1)
        have hle2 : (scan (c :: a1)).2 ≤ (c :: a1).length := by
          simp only [List.length_cons] at hle ⊢
          omega
        have d1 : (c :: (a1 ++ X)).drop (scan (c :: a1)).2 =
            (c :: a1).drop (scan (c :: a1)).2 ++ X :=
          @List.drop_append_of_le_length _ (c :: a1) X _ hle2
        have d2 : (c :: (a1 ++ Y)).drop (scan (c :: a1)).2 =
            (c :: a1).drop (scan (c :: a1)).2 ++ Y :=
          @List.drop_append_of_le_length _ (c :: a1) Y _ hle2
        rw [d1, d2]
        congr 1
        apply ih ((c :: a1).drop (scan (c :: a1)).2).length _ _ rfl
        rw [List.length_drop, ← hn]
        omega

theorem lexAll_of_blank (w : List Nat) (hw : ∀ x ∈ w, isWhitespace x = true) :
    lexAll w = [{ Typ := EOF, Literal := [] }] := by
  have := lexAll_ws_append w [] hw
  rw [List.append_nil] at this
  rw [this]
  rfl

/-- No literal contains a whitespace byte. -/
theorem byteToString_not_blank (c : Nat) (hc : isWhitespace c = false) :
    ∀ x ∈ byteToString c, isWhitespace x = false := by
  intro x hx
  unfold byteToString at hx
  by_cases h : c < 128
  · rw [if_pos h] at hx
    simp only [List.mem_singleton] at hx
    rw [hx]; exact hc
  · rw [if_neg h] at hx
    simp only [List.mem_cons, List.mem_singleton, List.not_mem_nil, or_false] at hx
    simp only [isWhitespace, Bool.or_eq_false_iff, decide_eq_false_iff_not]
    omega

theorem isWhitespace_61 : isWhitespace 61 = false := by decide

theorem scanOperator_literal_not_blank (t3 t2 t1 : TokenType) (t : List Nat)
    (hc : isWhitespace (t.headD 0) = false) :
    ∀ x ∈ (scanOperator t3 t2 t1 t).1.Literal, isWhitespace x = false := by
  have h1 := byteToString_not_blank _ hc
  have h2 := byteToString_not_blank 61 isWhitespace_61
  intro x hx
  unfold scanOperator at hx
  split_ifs at hx
  · simp only [List.mem_append] at hx
    rcases hx with (hx | hx) | hx
    · exact h1 x hx
    · exact h2 x hx
    · exact h2 x hx
  · simp only [List.mem_append] at hx
    rcases hx with hx | hx
    · exact h1 x hx
    · exact h2 x hx
  · exact h1 x hx

theorem not_blank_of_mem_takeWhile {f : Nat → Bool} (hf : ∀ y, isWhitespace y = true → f y = false)
    (t : List Nat) : ∀ x ∈ t.take (runLen f t), isWhitespace x = false := by
  intro x hx
  rw [take_runLen] at hx
  have hfx : f x = true := List.mem_takeWhile_imp hx
  cases hb : isWhitespace x with
  | false => rfl
  | true => rw [hf x hb] at hfx; cases hfx

theorem scan_literal_not_blank (t : List Nat) (hc : isWhitespace (t.headD 0) = false) :
    ∀ x ∈ (scan t).1.Literal, isWhitespace x = false := by
  rw [scan_eq]
  split_ifs
  · exact scanOperator_literal_not_blank _ _ _ t hc
  · exact scanOperator_literal_not_blank _ _ _ t hc
  · intro x hx; cases hx
  · exact not_blank_of_mem_takeWhile (fun y hy => isLetter_of_isWhitespace hy) t
  · exact not_blank_of_mem_takeWhile (fun y hy => isDigit_of_isWhitespace hy) t
  · exact byteToString_not_blank _ hc

theorem lexOne_literal_not_blank (t : List Nat) :
    ∀ x ∈ (lexOne t).1.Literal, isWhitespace x = false := by
  rw [lexOne_eq]
  apply scan_literal_not_blank
  cases hd : t.dropWhile isWhitespace with
  | nil => rfl
  | cons c cs => exact dropWhile_head_false _ t c cs hd

theorem lexFuel_literal_not_blank (fuel : Nat) (t : List Nat) :
    ∀ tok ∈ lexFuel fuel t, ∀ x ∈ tok.Literal, isWhitespace x = false := by
  induction fuel generalizing t with
  | zero => intro tok h; cases h
  | succ k ih =>
    intro tok h
    simp only [lexFuel] at h
    split_ifs at h
    · rw [List.mem_singleton] at h
      rw [h]; exact lexOne_literal_not_blank t
    · rcases List.mem_cons.1 h with h | h
      · rw [h]; exact lexOne_literal_not_blank t
      · exact ih _ tok h

theorem startsBlank_nil : StartsBlank [] := by
  intro y ys h; cases h

theorem startsBlank_cons {v : Nat} (hv : isWhitespace v = true) (r : List Nat) :
    StartsBlank (v :: r) := by
  intro y ys h
  cases h
  exact hv

theorem startsBlank_append {w : List Nat} (hw : ∀ x ∈ w, isWhitespace x = true) {r : List Nat}
    (hr : StartsBlank r) : StartsBlank (w ++ r) := by
  cases w with
  | nil => exact hr
  | cons v vs => exact startsBlank_cons (hw v (List.mem_cons_self v vs)) _

/-! ## End-to-end scenario -/

/-- C1: `New` over the eight-line scenario text followed by 51 calls of `NextToken`
returns exactly the 51 expected (kind, literal) pairs, in order, ending with `EOF`. -/
theorem scenario_tokens :
    (New scenarioInput).bind (nextTokens 51) = some scenarioTokens := by
  rfl

/-! ## Termination and end of input -/

/-- C2: for every input `s`, one of the first `len(s) + 1` calls of `NextToken` on
`New(s)` returns an `EOF` token (and every call returns); every call that returns a
non-`EOF` token leaves the cursor at least one byte further; and the loops of
`skipWhitespace`, `readIdentifier` and `readNumber` terminate from every lexer state, with
any fuel of at least `len(input) + 2`. -/
theorem eof_within_length_succ (s : List Nat) :
    (∃ k l r, k ≤ s.length ∧ run s k = some l ∧ NextToken l = some r ∧ r.1.Typ = EOF) ∧
    (∀ n, ∃ l r, run s n = some l ∧ NextToken l = some r) ∧
    (∀ n l r, run s n = some l → NextToken l = some r → r.1.Typ ≠ EOF →
      l.position + 1 ≤ r.2.position) ∧
    (∀ (l : Lexer) (fuel : Nat), l.input.length + 2 ≤ fuel →
      (skipWhitespaceLoop fuel l).isSome = true ∧
      (readIdentifierLoop fuel l).isSome = true ∧
      (readNumberLoop fuel l).isSome = true) := by
  refine ⟨?_, ?_, ?_, ?_⟩
  · refine ⟨s.length, _, _, Nat.le_refl _, run_eq s s.length, NextToken_stateAt s _, ?_⟩
    have hge := posAfter_ge s s.length 0
    rw [lexOne_of_length_le s _ (by omega)]
  · intro n
    exact ⟨_, _, run_eq s n, NextToken_stateAt s _⟩
  · intro n l r hl hr _
    rw [run_some hl] at hr ⊢
    rw [NextToken_some hr]
    have := lexOne_snd_pos (s.drop (posAfter s n 0))
    show posAfter s n 0 + 1 ≤ posAfter s n 0 + _
    omega
  · intro l fuel h
    rw [skipWhitespaceLoop_eq, readIdentifierLoop_eq, readNumberLoop_eq]
    exact ⟨whileLoop_isSome _ isWhitespace_zero l fuel h,
      whileLoop_isSome _ isLetter_zero l fuel h, whileLoop_isSome _ isDigit_zero l fuel h⟩

/-- Witness of C2 on the input `a b`: the first call returns `IDENT` and moves the cursor
from 0 to 1, and the three loops return from the state with the cursor on the space, with
fuel `len(input) + 2 = 5`. -/
theorem eof_within_length_succ_witness :
    run (ascii "a b") 0 = some (stateAt (ascii "a b") 0) ∧
    NextToken (stateAt (ascii "a b") 0) = some (tk IDENT "a", stateAt (ascii "a b") 1) ∧
    (tk IDENT "a").Typ ≠ EOF ∧
    (stateAt (ascii "a b") 0).position + 1 ≤ (stateAt (ascii "a b") 1).position ∧
    (stateAt (ascii "a b") 1).input.length + 2 ≤ 5 ∧
    ((skipWhitespaceLoop 5 (stateAt (ascii "a b") 1)).isSome = true ∧
      (readIdentifierLoop 5 (stateAt (ascii "a b") 1)).isSome = true ∧
      (readNumberLoop 5 (stateAt (ascii "a b") 1)).isSome = true) :=
  ⟨rfl, rfl, by decide,
    (eof_within_length_succ (ascii "a b")).2.2.1 0 (stateAt (ascii "a b") 0)
      (tk IDENT "a", stateAt (ascii "a b") 1) rfl rfl (by decide),
    by decide,
    (eof_within_length_succ (ascii "a b")).2.2.2 (stateAt (ascii "a b") 1) 5 (by decide)⟩

/-- C3, counterexample: on the two-byte input NUL, `a` the first call returns `EOF` and
the second call returns `IDENT` with literal `a`. -/
theorem eof_not_idempotent_with_nul :
    (New [0, 97]).bind (nextTokens 2) =
      some [{ Typ := EOF, Literal := [] }, { Typ := IDENT, Literal := [97] }] := by
  rfl

/-- C3, amended: for every input with no NUL byte, once a call of `NextToken` has returned
an `EOF` token, every later call (and that call itself) returns `EOF` with the empty
literal. -/
theorem eof_idempotent_of_no_nul (s : List Nat) (hs : ∀ c ∈ s, c ≠ 0)
    (m : Nat) (l : Lexer) (r : Token × Lexer)
    (hl : run s m = some l) (hr : NextToken l = some r) (he : r.1.Typ = EOF)
    (n : Nat) (hn : m ≤ n) :
    ∃ l1 r1, run s n = some l1 ∧ NextToken l1 = some r1 ∧
      r1.1 = { Typ := EOF, Literal := [] } := by
  refine ⟨_, _, run_eq s n, NextToken_stateAt s _, ?_⟩
  rw [run_some hl] at hr
  rw [NextToken_some hr] at he
  have he0 : ((s.drop (posAfter s m 0)).dropWhile isWhitespace).headD 0 = 0 :=
    (lexOne_eof_iff _).1 he
  -- the bytes from the cursor of call `m` on are all whitespace
  have hall : ∀ x ∈ s.drop (posAfter s m 0), isWhitespace x = true := by
    apply List.dropWhile_eq_nil_iff.1
    cases hd : (s.drop (posAfter s m 0)).dropWhile isWhitespace with
    | nil => rfl
    | cons c cs =>
      rw [hd] at he0
      have hc : c ∈ s := by
        have h1 : c ∈ (s.drop (posAfter s m 0)).dropWhile isWhitespace := by
          rw [hd]; exact List.mem_cons_self c cs
        exact List.mem_of_mem_drop ((List.dropWhile_sublist _).subset h1)
      exact absurd he0 (hs c hc)
  have hmono := posAfter_mono s m n hn
  have hall2 : ∀ x ∈ s.drop (posAfter s n 0), isWhitespace x = true := by
    intro x hx
    apply hall
    obtain ⟨d, hd⟩ : ∃ d, posAfter s n 0 = posAfter s m 0 + d :=
      ⟨posAfter s n 0 - posAfter s m 0, by omega⟩
    rw [hd, ← List.drop_drop] at hx
    exact List.mem_of_mem_drop hx
  apply lexOne_eof_literal
  rw [lexOne_eof_iff, List.dropWhile_eq_nil_iff.2 hall2]
  rfl

/-- Witness of C3 (amended) on the input `a`, with the second call (which returns `EOF`)
and the fourth call. -/
theorem eof_idempotent_of_no_nul_witness :
    (∀ c ∈ ascii "a", c ≠ 0) ∧
    run (ascii "a") 1 = some (stateAt (ascii "a") 1) ∧
    NextToken (stateAt (ascii "a") 1) = some (tk EOF "", stateAt (ascii "a") 2) ∧
    ∃ l1 r1, run (ascii "a") 3 = some l1 ∧ NextToken l1 = some r1 ∧
      r1.1 = { Typ := EOF, Literal := [] } :=
  ⟨by decide, rfl, rfl,
    eof_idempotent_of_no_nul (ascii "a") (by decide) 1 (stateAt (ascii "a") 1)
      (tk EOF "", stateAt (ascii "a") 2) rfl rfl rfl 3 (by decide)⟩

/-! ## Longest match and identifiers -/

/-- C4: when the first bytes after a whitespace run `w` are `===`, the first call of
`NextToken` skips to position `len(w)`, returns `STR_EQ` with literal `===` and leaves the
cursor three bytes further; the same holds for `!==` and `STR_NEQ`; and the inputs `===`
and `!==` give that one token followed by `EOF`. -/
theorem longest_match (w rest : List Nat) (hw : ∀ c ∈ w, isWhitespace c = true) :
    ((New (w ++ ascii "===" ++ rest)).bind skipWhitespace =
        some (stateAt (w ++ ascii "===" ++ rest) w.length) ∧
      (New (w ++ ascii "===" ++ rest)).bind NextToken =
        some (tk STR_EQ "===", stateAt (w ++ ascii "===" ++ rest) (w.length + 3))) ∧
    ((New (w ++ ascii "!==" ++ rest)).bind skipWhitespace =
        some (stateAt (w ++ ascii "!==" ++ rest) w.length) ∧
      (New (w ++ ascii "!==" ++ rest)).bind NextToken =
        some (tk STR_NEQ "!==", stateAt (w ++ ascii "!==" ++ rest) (w.length + 3))) ∧
    tokenize (ascii "===") = some [tk STR_EQ "===", tk EOF ""] ∧
    tokenize (ascii "!==") = some [tk STR_NEQ "!==", tk EOF ""] := by
  have e1 : ascii "===" = [61, 61, 61] := rfl
  have e2 : ascii "!==" = [33, 61, 61] := rfl
  have r1 : runLen isWhitespace (w ++ 61 :: 61 :: 61 :: rest) = w.length :=
    runLen_append_stop _ w 61 _ hw (by decide)
  have r2 : runLen isWhitespace (w ++ 33 :: 61 :: 61 :: rest) = w.length :=
    runLen_append_stop _ w 33 _ hw (by decide)
  refine ⟨⟨?_, ?_⟩, ⟨?_, ?_⟩, rfl, rfl⟩
  · simp only [e1, New_eq, Option.some_bind, skipWhitespace_stateAt, List.drop_zero,
      List.append_assoc, List.cons_append, List.nil_append, r1, Nat.zero_add]
  · have hs : scan (61 :: 61 :: 61 :: rest) = (tk STR_EQ "===", 3) := rfl
    simp only [e1, New_eq, Option.some_bind, NextToken_stateAt, List.drop_zero,
      List.append_assoc, List.cons_append, List.nil_append, lexOne, r1,
      List.drop_left, hs, Nat.zero_add]
  · simp only [e2, New_eq, Option.some_bind, skipWhitespace_stateAt, List.drop_zero,
      List.append_assoc, List.cons_append, List.nil_append, r2, Nat.zero_add]
  · have hs : scan (33 :: 61 :: 61 :: rest) = (tk STR_NEQ "!==", 3) := rfl
    simp only [e2, New_eq, Option.some_bind, NextToken_stateAt, List.drop_zero,
      List.append_assoc, List.cons_append, List.nil_append, lexOne, r2,
      List.drop_left, hs, Nat.zero_add]

/-- Witness of C4: a space and a newline before the operator, the byte `5` after it. -/
theorem longest_match_witness :
    (∀ c ∈ [32, 10], isWhitespace c = true) ∧
    (New ([32, 10] ++ ascii "===" ++ [53])).bind NextToken =
      some (tk STR_EQ "===", stateAt ([32, 10] ++ ascii "===" ++ [53]) 5) ∧
    (New ([32, 10] ++ ascii "!==" ++ [53])).bind NextToken =
      some (tk STR_NEQ "!==", stateAt ([32, 10] ++ ascii "!==" ++ [53]) 5) :=
  ⟨by decide, (longest_match [32, 10] [53] (by decide)).1.2,
    (longest_match [32, 10] [53] (by decide)).2.1.2⟩

/-- C5, the code at the failing inputs: `function1` is split into the keyword `FUNCTION`
and the number `1`, and `gelox1` into `IDENT` `gelox` and the number `1`, because the
loop of `readIdentifier` runs on `isLetter`, which accepts no digit. -/
theorem identifier_stops_at_digit :
    tokenize (ascii "function1") =
      some [tk FUNCTION "function", tk DOUBLE "1", tk EOF ""] ∧
    tokenize (ascii "gelox1") = some [tk IDENT "gelox", tk DOUBLE "1", tk EOF ""] ∧
    isLetter 49 = false :=
  ⟨rfl, rfl, rfl⟩

/-- C6: `LookupIdent` maps each of the seven reserved words, spelled exactly, to its
keyword type and every other string to `IDENT`; among the others are the empty string,
`Let`, `FUNCTION` and `function1`. -/
theorem LookupIdent_classifies (s : List Nat) :
    (LookupIdent s =
      if s = ascii "function" then FUNCTION
      else if s = ascii "let" then LET
      else if s = ascii "true" then TRUE
      else if s = ascii "false" then FALSE
      else if s = ascii "if" then IF
      else if s = ascii "else" then ELSE
      else if s = ascii "return" then RETURN
      else IDENT) ∧
    (LookupIdent (ascii "function") = FUNCTION ∧ LookupIdent (ascii "let") = LET ∧
      LookupIdent (ascii "true") = TRUE ∧ LookupIdent (ascii "false") = FALSE ∧
      LookupIdent (ascii "if") = IF ∧ LookupIdent (ascii "else") = ELSE ∧
      LookupIdent (ascii "return") = RETURN) ∧
    (LookupIdent [] = IDENT ∧ LookupIdent (ascii "Let") = IDENT ∧
      LookupIdent (ascii "FUNCTION") = IDENT ∧ LookupIdent (ascii "function1") = IDENT) :=
  ⟨LookupIdent_eq s, by decide, by decide⟩

/-! ## Literals, end of input and safety -/

/-- C8, counterexample: on the one-byte input `0xC8` the call returns an `ILLEGAL` token
whose literal is the two bytes `0xC3 0x88`, while the call consumed `s[0:1]`, the single
byte `0xC8`. -/
theorem literal_not_slice_high_byte :
    run [200] 0 = some (stateAt [200] 0) ∧
    skipWhitespace (stateAt [200] 0) = some (stateAt [200] 0) ∧
    NextToken (stateAt [200] 0) =
      some ({ Typ := ILLEGAL, Literal := [195, 136] }, stateAt [200] 1) ∧
    slice [200] (stateAt [200] 0).position (stateAt [200] 1).position = some [200] ∧
    ([200] : List Nat) ≠ [195, 136] :=
  ⟨rfl, rfl, rfl, rfl, by decide⟩

/-- The token and the cursors of a call that returns no `EOF`, in a state reached from
`New(s)`: with `p` the cursor after the whitespace, `q` the cursor at return and `c` the
byte `s[p]`, the literal is `s[p:q]` of `q - p` bytes when `c` is below `0x80`; otherwise
the token is `ILLEGAL`, `q = p + 1` and the literal is the two-byte encoding of `c`. -/
theorem NextToken_literal (s : List Nat) (n : Nat) (l : Lexer) (r : Token × Lexer)
    (hl : run s n = some l) (hr : NextToken l = some r) (hne : r.1.Typ ≠ EOF) :
    ∃ lw c, skipWhitespace l = some lw ∧ byteAt s lw.position = some c ∧
      (c < 128 → slice s lw.position r.2.position = some r.1.Literal ∧
        r.1.Literal.length = r.2.position - lw.position) ∧
      (128 ≤ c → r.1.Typ = ILLEGAL ∧ r.2.position = lw.position + 1 ∧
        r.1.Literal = [192 + c / 64, 128 + c % 64]) := by
  rw [run_some hl] at hr ⊢
  rw [NextToken_some hr] at hne ⊢
  generalize posAfter s n 0 = p at hne ⊢
  have hd0 : ((s.drop p).drop (runLen isWhitespace (s.drop p))).headD 0 ≠ 0 := by
    intro h0
    exact hne ((scan_eof_iff _).2 h0)
  rw [List.drop_drop] at hd0
  cases hd : s.drop (p + runLen isWhitespace (s.drop p)) with
  | nil => rw [hd] at hd0; exact absurd rfl hd0
  | cons c cs =>
    rw [hd] at hd0
    have hc0 : c ≠ 0 := hd0
    have hlit := scan_literal c cs hc0
    have hle := scan_snd_le (c :: cs)
    have hlen : (c :: cs).length = s.length - (p + runLen isWhitespace (s.drop p)) := by
      rw [← hd, List.length_drop]
    have hlt := lt_length_of_drop_eq_cons hd
    simp only [List.length_cons] at hle hlen
    refine ⟨_, c, skipWhitespace_stateAt s p, getElem?_of_drop_eq_cons hd, ?_, ?_⟩
    · intro hc
      simp only [lexOne, List.drop_drop, hd]
      show slice s (p + runLen isWhitespace (s.drop p))
          (p + (runLen isWhitespace (s.drop p) + (scan (c :: cs)).2)) = _ ∧
        _ = (p + (runLen isWhitespace (s.drop p) + (scan (c :: cs)).2)) -
          (p + runLen isWhitespace (s.drop p))
      rw [← Nat.add_assoc, slice_drop_take s _ _ (by omega), hd, hlit.1 hc]
      refine ⟨rfl, ?_⟩
      rw [List.length_take, List.length_cons]
      omega
    · intro hc
      simp only [lexOne, List.drop_drop, hd, hlit.2 hc]
      refine ⟨trivial, ?_, trivial⟩
      show p + (runLen isWhitespace (s.drop p) + 1) = p + runLen isWhitespace (s.drop p) + 1
      omega

/-- C8, amended: for every input `s` (arbitrary bytes) and every call of `NextToken`, in a
state reached from `New(s)`, that returns a non-`EOF` token, let `p` be the cursor after
the whitespace and `q` the cursor at return. When the byte `s[p]` is below `0x80`, the
literal is exactly the byte range `s[p:q]` that the call consumed, and it has `q - p`
bytes. -/
theorem literal_is_slice_ascii (s : List Nat) (n : Nat) (l : Lexer) (r : Token × Lexer)
    (hl : run s n = some l) (hr : NextToken l = some r) (hne : r.1.Typ ≠ EOF) :
    ∃ lw c, skipWhitespace l = some lw ∧ byteAt s lw.position = some c ∧
      (c < 128 → slice s lw.position r.2.position = some r.1.Literal ∧
        r.1.Literal.length = r.2.position - lw.position) := by
  obtain ⟨lw, c, h1, h2, h3, _⟩ := NextToken_literal s n l r hl hr hne
  exact ⟨lw, c, h1, h2, h3⟩

/-- Witness of C8 (amended): the second call on the input `a ==`, which returns `EQ`. -/
theorem literal_is_slice_ascii_witness :
    run (ascii "a ==") 1 = some (stateAt (ascii "a ==") 1) ∧
    NextToken (stateAt (ascii "a ==") 1) = some (tk EQ "==", stateAt (ascii "a ==") 4) ∧
    (tk EQ "==").Typ ≠ EOF ∧
    ∃ lw c, skipWhitespace (stateAt (ascii "a ==") 1) = some lw ∧
      byteAt (ascii "a ==") lw.position = some c ∧
      (c < 128 → slice (ascii "a ==") lw.position (stateAt (ascii "a ==") 4).position =
          some (tk EQ "==").Literal ∧
        (tk EQ "==").Literal.length = (stateAt (ascii "a ==") 4).position - lw.position) :=
  ⟨rfl, rfl, by decide,
    literal_is_slice_ascii (ascii "a ==") 1 (stateAt (ascii "a ==") 1)
      (tk EQ "==", stateAt (ascii "a ==") 4) rfl rfl (by decide)⟩

/-- C9, counterexample: on the two-byte input NUL, `a` the first call returns `EOF`
although the byte `a`, which is no whitespace, remains from the cursor on. -/
theorem eof_before_end_with_nul :
    run [0, 97] 0 = some (stateAt [0, 97] 0) ∧
    NextToken (stateAt [0, 97] 0) = some ({ Typ := EOF, Literal := [] }, stateAt [0, 97] 1) ∧
    ¬ (∀ c ∈ ([0, 97] : List Nat).drop (stateAt [0, 97] 0).position, isWhitespace c = true) :=
  ⟨rfl, rfl, by decide⟩

/-- In every state reached from `New(s)`, the next call returns an `EOF` token if and only
if every byte from the cursor to the end is whitespace (none at all when the cursor is at
or past the end) or the first byte from the cursor on that is no whitespace is NUL. -/
theorem NextToken_eof_iff (s : List Nat) (n : Nat) (l : Lexer) (r : Token × Lexer)
    (hl : run s n = some l) (hr : NextToken l = some r) :
    r.1.Typ = EOF ↔
      ((∀ c ∈ s.drop l.position, isWhitespace c = true) ∨
        ((s.drop l.position).dropWhile isWhitespace).head? = some 0) := by
  rw [run_some hl] at hr ⊢
  rw [NextToken_some hr]
  show (lexOne (s.drop (posAfter s n 0))).1.Typ = EOF ↔
    ((∀ c ∈ s.drop (posAfter s n 0), isWhitespace c = true) ∨
      ((s.drop (posAfter s n 0)).dropWhile isWhitespace).head? = some 0)
  generalize s.drop (posAfter s n 0) = t
  rw [lexOne_eof_iff, ← List.dropWhile_eq_nil_iff]
  cases t.dropWhile isWhitespace with
  | nil => simp
  | cons c cs => simp

/-- C9, amended: for every input `s` with no NUL byte and every state reached from `New(s)`
by calls of `NextToken`, the next call returns an `EOF` token if and only if every byte
from the cursor to the end of the input is space, tab, newline or carriage return (there
is none when the cursor is at or past the end). -/
theorem eof_iff_blank_of_no_nul (s : List Nat) (hs : ∀ c ∈ s, c ≠ 0)
    (n : Nat) (l : Lexer) (r : Token × Lexer)
    (hl : run s n = some l) (hr : NextToken l = some r) :
    r.1.Typ = EOF ↔ ∀ c ∈ s.drop l.position, isWhitespace c = true := by
  rw [NextToken_eof_iff s n l r hl hr]
  constructor
  · rintro (h | h)
    · exact h
    · exfalso
      have h0 : (0 : Nat) ∈ (s.drop l.position).dropWhile isWhitespace :=
        List.mem_of_mem_head? h
      exact hs 0 (List.mem_of_mem_drop ((List.dropWhile_sublist _).subset h0)) rfl
  · intro h
    exact Or.inl h

/-- Witness of C9 (amended): the second call on the input `a`, which returns `EOF` with
no byte left. -/
theorem eof_iff_blank_of_no_nul_witness :
    (∀ c ∈ ascii "a", c ≠ 0) ∧
    run (ascii "a") 1 = some (stateAt (ascii "a") 1) ∧
    NextToken (stateAt (ascii "a") 1) = some (tk EOF "", stateAt (ascii "a") 2) ∧
    ((tk EOF "").Typ = EOF ↔
      ∀ c ∈ (ascii "a").drop (stateAt (ascii "a") 1).position, isWhitespace c = true) :=
  ⟨by decide, rfl, rfl,
    eof_iff_blank_of_no_nul (ascii "a") (by decide) 1 (stateAt (ascii "a") 1)
      (tk EOF "", stateAt (ascii "a") 2) rfl rfl⟩

/-- With natural-number cursors: `New(s)` returns, and after any number `n` of calls the
next call of `NextToken` returns as well, with the cursors within `len(s) + n + 1`. In
every reached state, after `skipWhitespace`, the reads of `readChar` and `peekCharAt`
succeed, and `readIdentifier` and `readNumber`, when the current byte is a letter or a
digit, take a slice `input[start:l.position]` with `start <= l.position <= len(input)`. -/
theorem no_abort_nat (s : List Nat) :
    (∃ l0, New s = some l0) ∧
    (∀ n, ∃ l lw r, run s n = some l ∧ skipWhitespace l = some lw ∧ NextToken l = some r ∧
      l.readPosition = l.position + 1 ∧ l.position ≤ s.length + n) ∧
    (∀ n l lw, run s n = some l → skipWhitespace l = some lw →
      (readChar lw).isSome = true ∧
      (peekCharAt lw 0).isSome = true ∧ (peekCharAt lw 1).isSome = true ∧
      (isLetter lw.ch = true → ∃ id l1, readIdentifier lw = some (id, l1) ∧
        slice s lw.position l1.position = some id ∧
        lw.position ≤ l1.position ∧ l1.position ≤ s.length) ∧
      (isDigit lw.ch = true → ∃ num l1, readNumber lw = some (num, l1) ∧
        slice s lw.position l1.position = some num ∧
        lw.position ≤ l1.position ∧ l1.position ≤ s.length)) := by
  refine ⟨⟨_, New_eq s⟩, ?_, ?_⟩
  · intro n
    have hb := run_readPosition_le s n _ (run_eq s n)
    exact ⟨_, _, _, run_eq s n, skipWhitespace_stateAt s _, NextToken_stateAt s _, hb.1, hb.2⟩
  · intro n l lw hl hw
    rw [run_some hl] at hw
    rw [skipWhitespace_some hw]
    generalize posAfter s n 0 + runLen isWhitespace (s.drop (posAfter s n 0)) = p
    refine ⟨readChar_isSome _, peekCharAt_isSome _ 0, peekCharAt_isSome _ 1, ?_, ?_⟩
    · intro hc
      have h0 : (s.drop p).headD 0 ≠ 0 := by
        intro h
        rw [stateAt_ch, h] at hc
        exact absurd hc (by decide)
      have hp : p ≤ s.length := Nat.le_of_lt (headD_ne_zero_lt h0)
      have hq := runLen_drop_add_le isLetter s p hp
      exact ⟨_, _, readIdentifier_stateAt s p hp, slice_drop_take s p _ hq,
        Nat.le_add_right _ _, hq⟩
    · intro hc
      have h0 : (s.drop p).headD 0 ≠ 0 := by
        intro h
        rw [stateAt_ch, h] at hc
        exact absurd hc (by decide)
      have hp : p ≤ s.length := Nat.le_of_lt (headD_ne_zero_lt h0)
      have hq := runLen_drop_add_le isDigit s p hp
      exact ⟨_, _, readNumber_stateAt s p hp, slice_drop_take s p _ hq,
        Nat.le_add_right _ _, hq⟩

/-! ## Whitespace transparency -/

/-- C7: let `w` consist of space, tab, newline and carriage-return bytes only, and let the
input `a ++ b` be split at its start, at its end, or next to a whitespace byte (`a` ends
with one or `b` starts with one). Then `a ++ w ++ b` and `a ++ b` have the same sequence of
(kind, literal) pairs up to and including the first `EOF`. No token stands for whitespace:
no literal of the sequence contains a whitespace byte, and the input `w` alone gives the
single token `EOF`. -/
theorem whitespace_transparent (a b w : List Nat) (hw : ∀ c ∈ w, isWhitespace c = true)
    (hsplit : a = [] ∨ b = [] ∨ (∃ a0 v, a = a0 ++ [v] ∧ isWhitespace v = true) ∨
      (∃ v b0, b = v :: b0 ∧ isWhitespace v = true)) :
    (∃ ts, tokenize (a ++ b) = some ts ∧ tokenize (a ++ w ++ b) = some ts ∧
      ∀ t ∈ ts, ∀ x ∈ t.Literal, isWhitespace x = false) ∧
    tokenize w = some [{ Typ := EOF, Literal := [] }] := by
  have key : lexAll (a ++ w ++ b) = lexAll (a ++ b) := by
    rcases hsplit with h | h | ⟨a0, v, h, hv⟩ | ⟨v, b0, h, hv⟩
    · subst h
      simpa using lexAll_ws_append w b hw
    · subst h
      rw [List.append_nil, List.append_nil]
      have hb : StartsBlank w := by
        have := startsBlank_append hw startsBlank_nil
        rwa [List.append_nil] at this
      have := lexAll_append_blank a w [] hb startsBlank_nil (lexAll_of_blank w hw)
      rwa [List.append_nil] at this
    · subst h
      have hv1 : ∀ x ∈ [v], isWhitespace x = true := by
        intro x hx
        rw [List.mem_singleton] at hx
        rw [hx]; exact hv
      have e : lexAll ([v] ++ (w ++ b)) = lexAll ([v] ++ b) := by
        rw [lexAll_ws_append [v] _ hv1, lexAll_ws_append w b hw, lexAll_ws_append [v] b hv1]
      have := lexAll_append_blank a0 ([v] ++ (w ++ b)) ([v] ++ b)
        (startsBlank_cons hv _) (startsBlank_cons hv _) e
      simpa [List.append_assoc] using this
    · subst h
      have e : lexAll (w ++ v :: b0) = lexAll (v :: b0) := lexAll_ws_append w _ hw
      have := lexAll_append_blank a (w ++ v :: b0) (v :: b0)
        (startsBlank_append hw (startsBlank_cons hv _)) (startsBlank_cons hv _) e
      simpa [List.append_assoc] using this
  refine ⟨⟨lexAll (a ++ b), tokenize_eq _, ?_, ?_⟩, ?_⟩
  · rw [tokenize_eq, key]
  · exact lexFuel_literal_not_blank _ _
  · rw [tokenize_eq, lexAll_of_blank w hw]

/-- Witness of C7: a newline and a tab inserted after the space of `let x`. -/
theorem whitespace_transparent_witness :
    (∀ c ∈ [10, 9], isWhitespace c = true) ∧
    (∃ ts, tokenize (ascii "let " ++ ascii "x") = some ts ∧
      tokenize (ascii "let " ++ [10, 9] ++ ascii "x") = some ts ∧
      ∀ t ∈ ts, ∀ x ∈ t.Literal, isWhitespace x = false) ∧
    tokenize (ascii "let " ++ ascii "x") = some [tk LET "let", tk IDENT "x", tk EOF ""] :=
  ⟨by decide,
    (whitespace_transparent (ascii "let ") (ascii "x") [10, 9] (by decide)
      (Or.inr (Or.inr (Or.inl ⟨ascii "let", 32, rfl, rfl⟩)))).1,
    rfl⟩

/-! ## One call, by the byte under the cursor -/

/-- A call in a state reached from `New(s)`, split at the end of the whitespace: the lexer
left by `skipWhitespace` is the canonical state on its cursor, its byte is no whitespace,
and the call returns what `scan` reads off the bytes from that cursor on. -/
theorem NextToken_reached {s : List Nat} {n : Nat} {l lw : Lexer}
    (hl : run s n = some l) (hw : skipWhitespace l = some lw) :
    lw = stateAt s lw.position ∧ l.position ≤ lw.position ∧ isWhitespace lw.ch = false ∧
      NextToken l = some ((scan (s.drop lw.position)).1,
        stateAt s (lw.position + (scan (s.drop lw.position)).2)) := by
  rw [run_some hl] at hw ⊢
  rw [skipWhitespace_some hw]
  generalize posAfter s n 0 = p
  refine ⟨rfl, Nat.le_add_right _ _, ?_, ?_⟩
  · show isWhitespace ((s.drop (p + runLen isWhitespace (s.drop p))).headD 0) = false
    rw [← List.drop_drop, drop_runLen]
    cases hd : (s.drop p).dropWhile isWhitespace with
    | nil => rfl
    | cons c cs => exact dropWhile_head_false _ _ c cs hd
  · rw [NextToken_stateAt]
    show some ((lexOne (s.drop p)).1, stateAt s (p + (lexOne (s.drop p)).2)) =
      some ((scan (s.drop (p + runLen isWhitespace (s.drop p)))).1,
        stateAt s (p + runLen isWhitespace (s.drop p) +
          (scan (s.drop (p + runLen isWhitespace (s.drop p)))).2))
    simp only [lexOne, List.drop_drop, Nat.add_assoc]

theorem scan_of_isLetter (t : List Nat) (h : isLetter (t.headD 0) = true) :
    scan t = ({ Typ := LookupIdent (t.takeWhile isLetter), Literal := t.takeWhile isLetter },
      (t.takeWhile isLetter).length) := by
  have h61 : t.headD 0 ≠ 61 := by intro e; rw [e] at h; exact absurd h (by decide)
  have h33 : t.headD 0 ≠ 33 := by intro e; rw [e] at h; exact absurd h (by decide)
  have h0 : t.headD 0 ≠ 0 := by intro e; rw [e] at h; exact absurd h (by decide)
  rw [scan_eq, if_neg h61, if_neg h33, if_neg h0, if_pos h, take_runLen]
  rfl

theorem isDigit_not_isLetter {c : Nat} (h : isDigit c = true) : isLetter c = false := by
  simp only [isDigit, Bool.and_eq_true, decide_eq_true_eq] at h
  simp only [isLetter, Bool.or_eq_false_iff, Bool.and_eq_false_iff, decide_eq_false_iff_not]
  omega

theorem scan_of_isDigit (t : List Nat) (h : isDigit (t.headD 0) = true) :
    scan t = ({ Typ := DOUBLE, Literal := t.takeWhile isDigit },
      (t.takeWhile isDigit).length) := by
  have h61 : t.headD 0 ≠ 61 := by intro e; rw [e] at h; exact absurd h (by decide)
  have h33 : t.headD 0 ≠ 33 := by intro e; rw [e] at h; exact absurd h (by decide)
  have h0 : t.headD 0 ≠ 0 := by intro e; rw [e] at h; exact absurd h (by decide)
  have hl : ¬ isLetter (t.headD 0) = true := by
    rw [isDigit_not_isLetter h]; decide
  rw [scan_eq, if_neg h61, if_neg h33, if_neg h0, if_neg hl, if_pos h, take_runLen]
  rfl

/-- The run of bytes satisfying `f` that starts at `p`, when `s[p]` satisfies `f`: it is
not empty, it is the slice of `s` from `p`, and the byte after it, if any, fails `f`. -/
theorem run_at (f : Nat → Bool) (hf : f 0 = false) (s : List Nat) (p : Nat)
    (h : f ((s.drop p).headD 0) = true) :
    (s.drop p).takeWhile f ≠ [] ∧ (∀ c ∈ (s.drop p).takeWhile f, f c = true) ∧
      slice s p (p + ((s.drop p).takeWhile f).length) = some ((s.drop p).takeWhile f) ∧
      (∀ c, byteAt s (p + ((s.drop p).takeWhile f).length) = some c → f c = false) := by
  have h0 : (s.drop p).headD 0 ≠ 0 := by intro e; rw [e, hf] at h; cases h
  have hp : p ≤ s.length := Nat.le_of_lt (headD_ne_zero_lt h0)
  have hpos := runLen_pos hf h
  refine ⟨?_, fun c hc => List.mem_takeWhile_imp hc, ?_, ?_⟩
  · intro e
    simp only [runLen, e, List.length_nil] at hpos
    omega
  · have := slice_drop_take s p _ (runLen_drop_add_le f s p hp)
    rw [take_runLen] at this
    exact this
  · intro c hc
    have e : s.drop (p + ((s.drop p).takeWhile f).length) = (s.drop p).dropWhile f := by
      rw [← List.drop_drop]
      exact drop_runLen f (s.drop p)
    have hh : (s.drop (p + ((s.drop p).takeWhile f).length)).head? = some c := by
      rw [List.head?_drop]; exact hc
    rw [e] at hh
    cases hd : (s.drop p).dropWhile f with
    | nil => rw [hd] at hh; cases hh
    | cons d ds =>
      rw [hd] at hh
      have hdc : d = c := Option.some.inj hh
      rw [← hdc]
      exact dropWhile_head_false f _ d ds hd

theorem isLetter_iff (c : Nat) :
    isLetter c = true ↔ (97 ≤ c ∧ c ≤ 122) ∨ (65 ≤ c ∧ c ≤ 90) ∨ c = 95 := by
  simp only [isLetter, Bool.or_eq_true, Bool.and_eq_true, decide_eq_true_eq, or_assoc]

theorem isDigit_iff (c : Nat) : isDigit c = true ↔ 48 ≤ c ∧ c ≤ 57 := by
  simp only [isDigit, Bool.and_eq_true, decide_eq_true_eq]

/-! ## Identifiers and numbers -/

/-- C12: when the byte under the cursor after the whitespace is a letter (`a`-`z`, `A`-`Z`)
or an underscore, `NextToken` returns the token whose literal is the maximal run of
letter/underscore bytes from that position (not empty, the slice of the input from that
position, followed by a byte that is no letter or underscore or by the end of the input)
and whose kind is `LookupIdent` of the literal; the cursor is left on the first byte after
the run. The input `function` gives `FUNCTION`. -/
theorem identifier_scanning (s : List Nat) (n : Nat) (l lw : Lexer)
    (hl : run s n = some l) (hw : skipWhitespace l = some lw)
    (hc : (97 ≤ lw.ch ∧ lw.ch ≤ 122) ∨ (65 ≤ lw.ch ∧ lw.ch ≤ 90) ∨ lw.ch = 95) :
    (∃ lit, NextToken l = some ({ Typ := LookupIdent lit, Literal := lit },
        stateAt s (lw.position + lit.length)) ∧
      lit ≠ [] ∧ (∀ c ∈ lit, (97 ≤ c ∧ c ≤ 122) ∨ (65 ≤ c ∧ c ≤ 90) ∨ c = 95) ∧
      slice s lw.position (lw.position + lit.length) = some lit ∧
      (∀ c, byteAt s (lw.position + lit.length) = some c →
        ¬ ((97 ≤ c ∧ c ≤ 122) ∨ (65 ≤ c ∧ c ≤ 90) ∨ c = 95))) ∧
    tokenize (ascii "function") = some [tk FUNCTION "function", tk EOF ""] := by
  refine ⟨?_, rfl⟩
  obtain ⟨hlw, _, _, hnt⟩ := NextToken_reached hl hw
  have hch : isLetter ((s.drop lw.position).headD 0) = true := by
    rw [← stateAt_ch, ← hlw]; exact (isLetter_iff _).2 hc
  obtain ⟨h1, h2, h3, h4⟩ := run_at isLetter isLetter_zero s lw.position hch
  rw [scan_of_isLetter _ hch] at hnt
  refine ⟨_, hnt, h1, fun c hcm => (isLetter_iff c).1 (h2 c hcm), h3, ?_⟩
  intro c hcb hcl
  have := h4 c hcb
  rw [(isLetter_iff c).2 hcl] at this
  cases this

/-- Witness of C12: the second call on the input `x _ab+`, with the cursor on the
underscore after the whitespace. -/
theorem identifier_scanning_witness :
    run (ascii "x _ab+") 1 = some (stateAt (ascii "x _ab+") 1) ∧
    skipWhitespace (stateAt (ascii "x _ab+") 1) = some (stateAt (ascii "x _ab+") 2) ∧
    (stateAt (ascii "x _ab+") 2).ch = 95 ∧
    ∃ lit, NextToken (stateAt (ascii "x _ab+") 1) =
        some ({ Typ := LookupIdent lit, Literal := lit },
          stateAt (ascii "x _ab+") ((stateAt (ascii "x _ab+") 2).position + lit.length)) ∧
      lit ≠ [] ∧ (∀ c ∈ lit, (97 ≤ c ∧ c ≤ 122) ∨ (65 ≤ c ∧ c ≤ 90) ∨ c = 95) ∧
      slice (ascii "x _ab+") (stateAt (ascii "x _ab+") 2).position
        ((stateAt (ascii "x _ab+") 2).position + lit.length) = some lit ∧
      (∀ c, byteAt (ascii "x _ab+") ((stateAt (ascii "x _ab+") 2).position + lit.length) =
          some c → ¬ ((97 ≤ c ∧ c ≤ 122) ∨ (65 ≤ c ∧ c ≤ 90) ∨ c = 95)) :=
  ⟨rfl, rfl, rfl,
    (identifier_scanning (ascii "x _ab+") 1 (stateAt (ascii "x _ab+") 1)
      (stateAt (ascii "x _ab+") 2) rfl rfl (Or.inr (Or.inr rfl))).1⟩

/-- C13: when the byte under the cursor after the whitespace is a digit `0`-`9`,
`NextToken` returns a `DOUBLE` token whose literal is the maximal run of digit bytes from
that position, and the cursor is left on the first byte after the run; a decimal point is
not part of the run: the first token of `1.5` is `DOUBLE` `1`. -/
theorem number_scanning (s : List Nat) (n : Nat) (l lw : Lexer)
    (hl : run s n = some l) (hw : skipWhitespace l = some lw)
    (hc : 48 ≤ lw.ch ∧ lw.ch ≤ 57) :
    (∃ lit, NextToken l = some ({ Typ := DOUBLE, Literal := lit },
        stateAt s (lw.position + lit.length)) ∧
      lit ≠ [] ∧ (∀ c ∈ lit, 48 ≤ c ∧ c ≤ 57) ∧
      slice s lw.position (lw.position + lit.length) = some lit ∧
      (∀ c, byteAt s (lw.position + lit.length) = some c → ¬ (48 ≤ c ∧ c ≤ 57))) ∧
    (New (ascii "1.5")).bind NextToken = some (tk DOUBLE "1", stateAt (ascii "1.5") 1) ∧
    tokenize (ascii "1.5") = some [tk DOUBLE "1", tk ILLEGAL ".", tk DOUBLE "5", tk EOF ""] := by
  refine ⟨?_, rfl, rfl⟩
  obtain ⟨hlw, _, _, hnt⟩ := NextToken_reached hl hw
  have hch : isDigit ((s.drop lw.position).headD 0) = true := by
    rw [← stateAt_ch, ← hlw]; exact (isDigit_iff _).2 hc
  obtain ⟨h1, h2, h3, h4⟩ := run_at isDigit isDigit_zero s lw.position hch
  rw [scan_of_isDigit _ hch] at hnt
  refine ⟨_, hnt, h1, fun c hcm => (isDigit_iff c).1 (h2 c hcm), h3, ?_⟩
  intro c hcb hcl
  have := h4 c hcb
  rw [(isDigit_iff c).2 hcl] at this
  cases this

/-- Witness of C13: the second call on the input `a 42n`, with the cursor on the digit `4`
after the whitespace. -/
theorem number_scanning_witness :
    run (ascii "a 42n") 1 = some (stateAt (ascii "a 42n") 1) ∧
    skipWhitespace (stateAt (ascii "a 42n") 1) = some (stateAt (ascii "a 42n") 2) ∧
    (stateAt (ascii "a 42n") 2).ch = 52 ∧
    ∃ lit, NextToken (stateAt (ascii "a 42n") 1) =
        some ({ Typ := DOUBLE, Literal := lit },
          stateAt (ascii "a 42n") ((stateAt (ascii "a 42n") 2).position + lit.length)) ∧
      lit ≠ [] ∧ (∀ c ∈ lit, 48 ≤ c ∧ c ≤ 57) ∧
      slice (ascii "a 42n") (stateAt (ascii "a 42n") 2).position
        ((stateAt (ascii "a 42n") 2).position + lit.length) = some lit ∧
      (∀ c, byteAt (ascii "a 42n") ((stateAt (ascii "a 42n") 2).position + lit.length) =
          some c → ¬ (48 ≤ c ∧ c ≤ 57)) :=
  ⟨rfl, rfl, rfl,
    (number_scanning (ascii "a 42n") 1 (stateAt (ascii "a 42n") 1)
      (stateAt (ascii "a 42n") 2) rfl rfl (by decide)).1⟩

/-! ## Operators, punctuation and unrecognized bytes -/

theorem peek_eq (s : List Nat) (p k : Nat) :
    ((s.drop p).drop k).headD 0 = (byteAt s (p + k)).getD 0 := by
  rw [headD_drop_drop, headD_drop]
  rfl

theorem scanOperator_two (t3 t2 t1 : TokenType) (t : List Nat)
    (h1 : (t.drop 1).headD 0 = 61) (h2 : (t.drop 2).headD 0 ≠ 61) :
    scanOperator t3 t2 t1 t =
      ({ Typ := t2, Literal := byteToString (t.headD 0) ++ byteToString 61 }, 2) := by
  unfold scanOperator
  rw [if_pos h1, if_neg h2]

theorem scanOperator_one (t3 t2 t1 : TokenType) (t : List Nat)
    (h1 : (t.drop 1).headD 0 ≠ 61) :
    scanOperator t3 t2 t1 t = (newToken t1 (t.headD 0), 1) := by
  unfold scanOperator
  rw [if_neg h1]

theorem scanOperator_typ_mem (t3 t2 t1 : TokenType) (t : List Nat) :
    (scanOperator t3 t2 t1 t).1.Typ ∈ [t3, t2, t1] := by
  unfold scanOperator
  split_ifs <;> simp [newToken]

theorem scan_single (t : List Nat) (c : Nat) (hc : t.headD 0 = c) (h61 : c ≠ 61)
    (h33 : c ≠ 33) (h0 : c ≠ 0) (hl : isLetter c = false) (hd : isDigit c = false) :
    scan t = (newToken (singleType c) c, 1) := by
  rw [scan_eq, hc, if_neg h61, if_neg h33, if_neg h0, if_neg (by rw [hl]; decide),
    if_neg (by rw [hd]; decide)]

theorem getD_of_eq_some {o : Option Nat} {c : Nat} (h : o = some c) : o.getD 0 = c := by
  rw [h]; rfl

theorem getD_ne_of_ne_some {o : Option Nat} (h : o ≠ some 61) : o.getD 0 ≠ 61 := by
  cases o with
  | none => decide
  | some x =>
    intro e
    exact h (congrArg some e)

theorem singleType_eq_ILLEGAL_iff (c : Nat) :
    singleType c = ILLEGAL ↔ c ∉ [43, 45, 47, 42, 60, 62, 44, 59, 40, 41, 123, 125] := by
  unfold singleType
  by_cases h43 : c = 43
  · subst h43; decide
  rw [if_neg h43]
  by_cases h45 : c = 45
  · subst h45; decide
  rw [if_neg h45]
  by_cases h47 : c = 47
  · subst h47; decide
  rw [if_neg h47]
  by_cases h42 : c = 42
  · subst h42; decide
  rw [if_neg h42]
  by_cases h60 : c = 60
  · subst h60; decide
  rw [if_neg h60]
  by_cases h62 : c = 62
  · subst h62; decide
  rw [if_neg h62]
  by_cases h44 : c = 44
  · subst h44; decide
  rw [if_neg h44]
  by_cases h59 : c = 59
  · subst h59; decide
  rw [if_neg h59]
  by_cases h40 : c = 40
  · subst h40; decide
  rw [if_neg h40]
  by_cases h41 : c = 41
  · subst h41; decide
  rw [if_neg h41]
  by_cases h123 : c = 123
  · subst h123; decide
  rw [if_neg h123]
  by_cases h125 : c = 125
  · subst h125; decide
  rw [if_neg h125]
  simp only [List.mem_cons, List.mem_singleton, List.not_mem_nil, or_false, not_or, true_iff]
  exact ⟨h43, h45, h47, h42, h60, h62, h44, h59, h40, h41, h123, h125⟩

theorem ite_mem_of_mem {c : Prop} [Decidable c] {a b : TokenType} {L : List TokenType}
    (ha : a ∈ L) (hb : b ∈ L) : (if c then a else b) ∈ L := by
  split_ifs <;> assumption

theorem singleType_mem (c : Nat) :
    singleType c ∈ [PLUS, MINUS, SLASH, ASTERISK, LT, GT, COMMA, SEMICOLON, LPAREN, RPAREN,
      LBRACE, RBRACE, ILLEGAL] := by
  unfold singleType
  repeat first | exact (by decide) | apply ite_mem_of_mem (by decide)

theorem LookupIdent_mem (x : List Nat) :
    LookupIdent x ∈ [FUNCTION, LET, TRUE, FALSE, IF, ELSE, RETURN, IDENT] := by
  rw [LookupIdent_eq]
  repeat first | exact (by decide) | apply ite_mem_of_mem (by decide)

/-- The call on the byte `c` under the cursor when `c` is a token on its own. -/
theorem NextToken_single {s : List Nat} {n : Nat} {l lw : Lexer}
    (hl : run s n = some l) (hw : skipWhitespace l = some lw) (c : Nat) (hc : lw.ch = c)
    (h61 : c ≠ 61) (h33 : c ≠ 33) (h0 : c ≠ 0) (hlt : isLetter c = false)
    (hd : isDigit c = false) :
    NextToken l = some (newToken (singleType c) c, stateAt s (lw.position + 1)) := by
  obtain ⟨hlw, _, _, hnt⟩ := NextToken_reached hl hw
  have hch : (s.drop lw.position).headD 0 = c := by
    rw [← stateAt_ch, ← hlw]; exact hc
  rw [scan_single _ c hch h61 h33 h0 hlt hd] at hnt
  exact hnt

/-- The call on `=` or `!` under the cursor, by the two bytes that follow. -/
theorem NextToken_operator {s : List Nat} {n : Nat} {l lw : Lexer}
    (hl : run s n = some l) (hw : skipWhitespace l = some lw) :
    (lw.ch = 61 → NextToken l = some ((scanOperator STR_EQ EQ ASSIGN (s.drop lw.position)).1,
      stateAt s (lw.position + (scanOperator STR_EQ EQ ASSIGN (s.drop lw.position)).2))) ∧
    (lw.ch = 33 → NextToken l = some ((scanOperator STR_NEQ NEQ BANG (s.drop lw.position)).1,
      stateAt s (lw.position + (scanOperator STR_NEQ NEQ BANG (s.drop lw.position)).2))) := by
  obtain ⟨hlw, _, _, hnt⟩ := NextToken_reached hl hw
  constructor
  · intro hc
    have hch : (s.drop lw.position).headD 0 = 61 := by
      rw [← stateAt_ch, ← hlw]; exact hc
    rw [scan_eq, if_pos hch] at hnt
    exact hnt
  · intro hc
    have hch : (s.drop lw.position).headD 0 = 33 := by
      rw [← stateAt_ch, ← hlw]; exact hc
    rw [scan_eq, if_neg (by rw [hch]; decide), if_pos hch] at hnt
    exact hnt

/-- C14: when the byte under the cursor after the whitespace is `=`, the next byte is `=`
and the byte after that is not `=` (or the input ends there), `NextToken` returns `EQ` with
literal `==` and leaves the cursor two bytes further; with `!` under the cursor it returns
`NEQ` with literal `!=` and leaves the cursor two bytes further. -/
theorem two_byte_operators (s : List Nat) (n : Nat) (l lw : Lexer)
    (hl : run s n = some l) (hw : skipWhitespace l = some lw)
    (h1 : byteAt s (lw.position + 1) = some 61) (h2 : byteAt s (lw.position + 2) ≠ some 61) :
    (lw.ch = 61 → NextToken l = some (tk EQ "==", stateAt s (lw.position + 2))) ∧
    (lw.ch = 33 → NextToken l = some (tk NEQ "!=", stateAt s (lw.position + 2))) := by
  obtain ⟨hlw, _, _, _⟩ := NextToken_reached hl hw
  have e1 : ((s.drop lw.position).drop 1).headD 0 = 61 := by
    rw [peek_eq]; exact getD_of_eq_some h1
  have e2 : ((s.drop lw.position).drop 2).headD 0 ≠ 61 := by
    rw [peek_eq]; exact getD_ne_of_ne_some h2
  have hop := NextToken_operator hl hw
  constructor
  · intro hc
    have hch : (s.drop lw.position).headD 0 = 61 := by
      rw [← stateAt_ch, ← hlw]; exact hc
    have := hop.1 hc
    rw [scanOperator_two _ _ _ _ e1 e2, hch] at this
    exact this
  · intro hc
    have hch : (s.drop lw.position).headD 0 = 33 := by
      rw [← stateAt_ch, ← hlw]; exact hc
    have := hop.2 hc
    rw [scanOperator_two _ _ _ _ e1 e2, hch] at this
    exact this

/-- Witness of C14: the inputs `a ==b` and `a !=`, second call, with the cursor on the
operator after the whitespace (followed by `b` in the first input and by the end of the
input in the second). -/
theorem two_byte_operators_witness :
    (run (ascii "a ==b") 1 = some (stateAt (ascii "a ==b") 1) ∧
      skipWhitespace (stateAt (ascii "a ==b") 1) = some (stateAt (ascii "a ==b") 2) ∧
      (stateAt (ascii "a ==b") 2).ch = 61 ∧
      NextToken (stateAt (ascii "a ==b") 1) =
        some (tk EQ "==", stateAt (ascii "a ==b") ((stateAt (ascii "a ==b") 2).position + 2))) ∧
    (run (ascii "a !=") 1 = some (stateAt (ascii "a !=") 1) ∧
      skipWhitespace (stateAt (ascii "a !=") 1) = some (stateAt (ascii "a !=") 2) ∧
      (stateAt (ascii "a !=") 2).ch = 33 ∧
      NextToken (stateAt (ascii "a !=") 1) =
        some (tk NEQ "!=", stateAt (ascii "a !=") ((stateAt (ascii "a !=") 2).position + 2))) :=
  ⟨⟨rfl, rfl, rfl,
      (two_byte_operators (ascii "a ==b") 1 (stateAt (ascii "a ==b") 1)
        (stateAt (ascii "a ==b") 2) rfl rfl rfl (by decide)).1 rfl⟩,
    ⟨rfl, rfl, rfl,
      (two_byte_operators (ascii "a !=") 1 (stateAt (ascii "a !=") 1)
        (stateAt (ascii "a !=") 2) rfl rfl rfl (by decide)).2 rfl⟩⟩

/-- C15: when the byte under the cursor after the whitespace is one of
`+ - / * < > , ; ( )` or a brace, `NextToken` returns the kind of that byte (`PLUS`,
`MINUS`, `SLASH`, `ASTERISK`, `LT`, `GT`, `COMMA`, `SEMICOLON`, `LPAREN`, `RPAREN`,
`LBRACE`, `RBRACE`) with that one byte as literal; when it is `=` (or `!`) and the next
byte is not `=` (or the input ends), it returns `ASSIGN` with literal `=` (or `BANG` with
literal `!`); in each case the cursor is left exactly one byte further. -/
theorem single_byte_tokens (s : List Nat) (n : Nat) (l lw : Lexer)
    (hl : run s n = some l) (hw : skipWhitespace l = some lw) :
    (lw.ch = 43 → NextToken l = some (tk PLUS "+", stateAt s (lw.position + 1))) ∧
    (lw.ch = 45 → NextToken l = some (tk MINUS "-", stateAt s (lw.position + 1))) ∧
    (lw.ch = 47 → NextToken l = some (tk SLASH "/", stateAt s (lw.position + 1))) ∧
    (lw.ch = 42 → NextToken l = some (tk ASTERISK "*", stateAt s (lw.position + 1))) ∧
    (lw.ch = 60 → NextToken l = some (tk LT "<", stateAt s (lw.position + 1))) ∧
    (lw.ch = 62 → NextToken l = some (tk GT ">", stateAt s (lw.position + 1))) ∧
    (lw.ch = 44 → NextToken l = some (tk COMMA ",", stateAt s (lw.position + 1))) ∧
    (lw.ch = 59 → NextToken l = some (tk SEMICOLON ";", stateAt s (lw.position + 1))) ∧
    (lw.ch = 40 → NextToken l = some (tk LPAREN "(", stateAt s (lw.position + 1))) ∧
    (lw.ch = 41 → NextToken l = some (tk RPAREN ")", stateAt s (lw.position + 1))) ∧
    (lw.ch = 123 → NextToken l = some (tk LBRACE "\x7b", stateAt s (lw.position + 1))) ∧
    (lw.ch = 125 → NextToken l = some (tk RBRACE "\x7d", stateAt s (lw.position + 1))) ∧
    (lw.ch = 61 → byteAt s (lw.position + 1) ≠ some 61 →
      NextToken l = some (tk ASSIGN "=", stateAt s (lw.position + 1))) ∧
    (lw.ch = 33 → byteAt s (lw.position + 1) ≠ some 61 →
      NextToken l = some (tk BANG "!", stateAt s (lw.position + 1))) := by
  obtain ⟨hlw, _, _, _⟩ := NextToken_reached hl hw
  have hop := NextToken_operator hl hw
  refine ⟨?_, ?_, ?_, ?_, ?_, ?_, ?_, ?_, ?_, ?_, ?_, ?_, ?_, ?_⟩
  · exact fun h => NextToken_single hl hw 43 h (by decide) (by decide) (by decide) rfl rfl
  · exact fun h => NextToken_single hl hw 45 h (by decide) (by decide) (by decide) rfl rfl
  · exact fun h => NextToken_single hl hw 47 h (by decide) (by decide) (by decide) rfl rfl
  · exact fun h => NextToken_single hl hw 42 h (by decide) (by decide) (by decide) rfl rfl
  · exact fun h => NextToken_single hl hw 60 h (by decide) (by decide) (by decide) rfl rfl
  · exact fun h => NextToken_single hl hw 62 h (by decide) (by decide) (by decide) rfl rfl
  · exact fun h => NextToken_single hl hw 44 h (by decide) (by decide) (by decide) rfl rfl
  · exact fun h => NextToken_single hl hw 59 h (by decide) (by decide) (by decide) rfl rfl
  · exact fun h => NextToken_single hl hw 40 h (by decide) (by decide) (by decide) rfl rfl
  · exact fun h => NextToken_single hl hw 41 h (by decide) (by decide) (by decide) rfl rfl
  · exact fun h => NextToken_single hl hw 123 h (by decide) (by decide) (by decide) rfl rfl
  · exact fun h => NextToken_single hl hw 125 h (by decide) (by decide) (by decide) rfl rfl
  · intro hc h1
    have e1 : ((s.drop lw.position).drop 1).headD 0 ≠ 61 := by
      rw [peek_eq]; exact getD_ne_of_ne_some h1
    have hch : (s.drop lw.position).headD 0 = 61 := by
      rw [← stateAt_ch, ← hlw]; exact hc
    have := hop.1 hc
    rw [scanOperator_one _ _ _ _ e1, hch] at this
    exact this
  · intro hc h1
    have e1 : ((s.drop lw.position).drop 1).headD 0 ≠ 61 := by
      rw [peek_eq]; exact getD_ne_of_ne_some h1
    have hch : (s.drop lw.position).headD 0 = 33 := by
      rw [← stateAt_ch, ← hlw]; exact hc
    have := hop.2 hc
    rw [scanOperator_one _ _ _ _ e1, hch] at this
    exact this

/-- Witness of C15: the second call on the inputs `a ;`, `a =b` and `a !`, with the
cursor on `;`, on `=` followed by `b`, and on `!` followed by the end of the input. -/
theorem single_byte_tokens_witness :
    (run (ascii "a ;") 1 = some (stateAt (ascii "a ;") 1) ∧
      skipWhitespace (stateAt (ascii "a ;") 1) = some (stateAt (ascii "a ;") 2) ∧
      NextToken (stateAt (ascii "a ;") 1) =
        some (tk SEMICOLON ";", stateAt (ascii "a ;") ((stateAt (ascii "a ;") 2).position + 1))) ∧
    (run (ascii "a =b") 1 = some (stateAt (ascii "a =b") 1) ∧
      skipWhitespace (stateAt (ascii "a =b") 1) = some (stateAt (ascii "a =b") 2) ∧
      NextToken (stateAt (ascii "a =b") 1) =
        some (tk ASSIGN "=", stateAt (ascii "a =b") ((stateAt (ascii "a =b") 2).position + 1))) ∧
    (run (ascii "a !") 1 = some (stateAt (ascii "a !") 1) ∧
      skipWhitespace (stateAt (ascii "a !") 1) = some (stateAt (ascii "a !") 2) ∧
      NextToken (stateAt (ascii "a !") 1) =
        some (tk BANG "!", stateAt (ascii "a !") ((stateAt (ascii "a !") 2).position + 1))) :=
  ⟨⟨rfl, rfl,
      (single_byte_tokens (ascii "a ;") 1 (stateAt (ascii "a ;") 1)
        (stateAt (ascii "a ;") 2) rfl rfl).2.2.2.2.2.2.2.1 rfl⟩,
    ⟨rfl, rfl,
      (single_byte_tokens (ascii "a =b") 1 (stateAt (ascii "a =b") 1)
        (stateAt (ascii "a =b") 2) rfl rfl).2.2.2.2.2.2.2.2.2.2.2.2.1 rfl (by decide)⟩,
    ⟨rfl, rfl,
      (single_byte_tokens (ascii "a !") 1 (stateAt (ascii "a !") 1)
        (stateAt (ascii "a !") 2) rfl rfl).2.2.2.2.2.2.2.2.2.2.2.2.2 rfl (by decide)⟩⟩

theorem unrecognized_iff (c : Nat) :
    unrecognized c = true ↔
      c ≠ 0 ∧ isWhitespace c = false ∧ isLetter c = false ∧ isDigit c = false ∧
        c ∉ [61, 43, 45, 33, 47, 42, 60, 62, 44, 59, 40, 41, 123, 125] := by
  simp only [unrecognized, Bool.and_eq_true, Bool.not_eq_true', decide_eq_true_eq, and_assoc]

theorem not_mem_singles {c : Nat}
    (h : c ∉ [61, 43, 45, 33, 47, 42, 60, 62, 44, 59, 40, 41, 123, 125]) :
    c ≠ 61 ∧ c ≠ 33 ∧ c ∉ [43, 45, 47, 42, 60, 62, 44, 59, 40, 41, 123, 125] := by
  simp only [List.mem_cons, List.mem_singleton, List.not_mem_nil, or_false, not_or] at h ⊢
  omega

theorem not_mem_all_of_singles {c : Nat} (h61 : c ≠ 61) (h33 : c ≠ 33)
    (h : c ∉ [43, 45, 47, 42, 60, 62, 44, 59, 40, 41, 123, 125]) :
    c ∉ [61, 43, 45, 33, 47, 42, 60, 62, 44, 59, 40, 41, 123, 125] := by
  simp only [List.mem_cons, List.mem_singleton, List.not_mem_nil, or_false, not_or] at h ⊢
  omega

/-- The scanner gives `ILLEGAL` only on a byte that no case recognizes. -/
theorem scan_illegal (t : List Nat) (h : (scan t).1.Typ = ILLEGAL) :
    t.headD 0 ≠ 0 ∧ isLetter (t.headD 0) = false ∧ isDigit (t.headD 0) = false ∧
      t.headD 0 ∉ [61, 43, 45, 33, 47, 42, 60, 62, 44, 59, 40, 41, 123, 125] := by
  rw [scan_eq] at h
  by_cases h1 : t.headD 0 = 61
  · rw [if_pos h1] at h
    have := scanOperator_typ_mem STR_EQ EQ ASSIGN t
    rw [h] at this
    exact absurd this (by decide)
  rw [if_neg h1] at h
  by_cases h2 : t.headD 0 = 33
  · rw [if_pos h2] at h
    have := scanOperator_typ_mem STR_NEQ NEQ BANG t
    rw [h] at this
    exact absurd this (by decide)
  rw [if_neg h2] at h
  by_cases h3 : t.headD 0 = 0
  · rw [if_pos h3] at h
    cases h
  rw [if_neg h3] at h
  by_cases h4 : isLetter (t.headD 0) = true
  · rw [if_pos h4] at h
    have := LookupIdent_mem (t.take (runLen isLetter t))
    rw [show LookupIdent (t.take (runLen isLetter t)) = ILLEGAL from h] at this
    exact absurd this (by decide)
  rw [if_neg h4] at h
  by_cases h5 : isDigit (t.headD 0) = true
  · rw [if_pos h5] at h
    cases h
  rw [if_neg h5] at h
  have h6 : singleType (t.headD 0) = ILLEGAL := h
  refine ⟨h3, by simpa using h4, by simpa using h5, ?_⟩
  exact not_mem_all_of_singles h1 h2 ((singleType_eq_ILLEGAL_iff _).1 h6)

/-- C11, counterexample: on the one-byte input `0xE9`, which no case recognizes, the call
returns an `ILLEGAL` token whose literal is the two bytes `0xC3 0xA9`, not the one-byte
string `0xE9`. -/
theorem illegal_literal_high_byte :
    unrecognized 233 = true ∧
    run [233] 0 = some (stateAt [233] 0) ∧
    skipWhitespace (stateAt [233] 0) = some (stateAt [233] 0) ∧
    (stateAt [233] 0).ch = 233 ∧
    NextToken (stateAt [233] 0) =
      some ({ Typ := ILLEGAL, Literal := [195, 169] }, stateAt [233] 1) ∧
    ([195, 169] : List Nat) ≠ [233] :=
  ⟨rfl, rfl, rfl, rfl, rfl, by decide⟩

/-- C11, amended: when the byte `c` under the cursor after the whitespace is one that no
case recognizes (not NUL, no whitespace, no letter or underscore, no digit, none of the
fourteen operator and punctuation bytes), `NextToken` returns an `ILLEGAL` token and leaves
the cursor exactly one byte further, and when `c` is below `0x80` the literal is the
one-byte string `c`; and `ILLEGAL` is returned for no other byte under the cursor. -/
theorem unrecognized_is_illegal (s : List Nat) (n : Nat) (l lw : Lexer)
    (hl : run s n = some l) (hw : skipWhitespace l = some lw) :
    (unrecognized lw.ch = true →
      ∃ lit, NextToken l = some ({ Typ := ILLEGAL, Literal := lit }, stateAt s (lw.position + 1)) ∧
        (lw.ch < 128 → lit = [lw.ch])) ∧
    (∀ r, NextToken l = some r → r.1.Typ = ILLEGAL → unrecognized lw.ch = true) := by
  obtain ⟨hlw, _, hws, hnt⟩ := NextToken_reached hl hw
  constructor
  · intro hu
    obtain ⟨h0, _, hlt, hd, hm⟩ := (unrecognized_iff _).1 hu
    obtain ⟨h61, h33, hs⟩ := not_mem_singles hm
    have := NextToken_single hl hw lw.ch rfl h61 h33 h0 hlt hd
    rw [(singleType_eq_ILLEGAL_iff _).2 hs] at this
    refine ⟨_, this, ?_⟩
    intro hc
    simp [byteToString, hc]
  · intro r hr hi
    rw [hnt] at hr
    have hr2 := (Option.some.inj hr).symm
    rw [hr2] at hi
    have hch : (s.drop lw.position).headD 0 = lw.ch := by
      rw [← stateAt_ch, ← hlw]
    obtain ⟨h0, hlt, hd, hm⟩ := scan_illegal _ hi
    rw [hch] at h0 hlt hd hm
    exact (unrecognized_iff _).2 ⟨h0, hws, hlt, hd, hm⟩

/-- Witness of C11 (amended): the second call on the input `a @`, with the cursor on `@`,
which returns `ILLEGAL` with literal `@`. -/
theorem unrecognized_is_illegal_witness :
    run (ascii "a @") 1 = some (stateAt (ascii "a @") 1) ∧
    skipWhitespace (stateAt (ascii "a @") 1) = some (stateAt (ascii "a @") 2) ∧
    unrecognized (stateAt (ascii "a @") 2).ch = true ∧
    (∃ lit, NextToken (stateAt (ascii "a @") 1) =
        some ({ Typ := ILLEGAL, Literal := lit },
          stateAt (ascii "a @") ((stateAt (ascii "a @") 2).position + 1)) ∧
      ((stateAt (ascii "a @") 2).ch < 128 → lit = [(stateAt (ascii "a @") 2).ch])) ∧
    NextToken (stateAt (ascii "a @") 1) = some (tk ILLEGAL "@", stateAt (ascii "a @") 3) ∧
    (tk ILLEGAL "@").Typ = ILLEGAL ∧
    unrecognized (stateAt (ascii "a @") 2).ch = true :=
  ⟨rfl, rfl, rfl,
    (unrecognized_is_illegal (ascii "a @") 1 (stateAt (ascii "a @") 1)
      (stateAt (ascii "a @") 2) rfl rfl).1 rfl,
    rfl, rfl,
    (unrecognized_is_illegal (ascii "a @") 1 (stateAt (ascii "a @") 1)
      (stateAt (ascii "a @") 2) rfl rfl).2 (tk ILLEGAL "@", stateAt (ascii "a @") 3) rfl rfl⟩

/-! ## Reserved kinds, end of buffer and the cursors -/

/-- Every kind the scanner produces is one of twenty-nine kinds, `BIGINT` and `REMAINDER`
not among them. -/
theorem scan_typ_mem (t : List Nat) :
    (scan t).1.Typ ∈ [STR_EQ, EQ, ASSIGN, STR_NEQ, NEQ, BANG, EOF, FUNCTION, LET, TRUE, FALSE,
      IF, ELSE, RETURN, IDENT, DOUBLE, PLUS, MINUS, SLASH, ASTERISK, LT, GT, COMMA, SEMICOLON,
      LPAREN, RPAREN, LBRACE, RBRACE, ILLEGAL] := by
  rw [scan_eq]
  split_ifs
  · have h := scanOperator_typ_mem STR_EQ EQ ASSIGN t
    revert h
    generalize (scanOperator STR_EQ EQ ASSIGN t).1.Typ = k
    revert k
    decide
  · have h := scanOperator_typ_mem STR_NEQ NEQ BANG t
    revert h
    generalize (scanOperator STR_NEQ NEQ BANG t).1.Typ = k
    revert k
    decide
  · decide
  · have h := LookupIdent_mem (t.take (runLen isLetter t))
    revert h
    show LookupIdent (t.take (runLen isLetter t)) ∈ _ →
      LookupIdent (t.take (runLen isLetter t)) ∈ _
    generalize LookupIdent (t.take (runLen isLetter t)) = k
    revert k
    decide
  · show DOUBLE ∈ _
    decide
  · have h := singleType_mem (t.headD 0)
    revert h
    show singleType (t.headD 0) ∈ _ → singleType (t.headD 0) ∈ _
    generalize singleType (t.headD 0) = k
    revert k
    decide

/-- C17: no call of `NextToken`, in any state reached from `New(s)`, returns a token of
kind `BIGINT` or `REMAINDER`; the byte `%` under the cursor gives `ILLEGAL` with literal
`%`, and the input `42n` gives `DOUBLE` `42` followed by `IDENT` `n`. -/
theorem reserved_kinds_unreachable (s : List Nat) (n : Nat) (l : Lexer) (r : Token × Lexer)
    (hl : run s n = some l) (hr : NextToken l = some r) :
    (r.1.Typ ≠ BIGINT ∧ r.1.Typ ≠ REMAINDER) ∧
    (∀ lw, skipWhitespace l = some lw → lw.ch = 37 →
      r = (tk ILLEGAL "%", stateAt s (lw.position + 1))) ∧
    tokenize (ascii "%") = some [tk ILLEGAL "%", tk EOF ""] ∧
    tokenize (ascii "42n") = some [tk DOUBLE "42", tk IDENT "n", tk EOF ""] := by
  refine ⟨?_, ?_, rfl, rfl⟩
  · have hr0 := hr
    rw [run_some hl] at hr0
    rw [NextToken_some hr0]
    have h := scan_typ_mem ((s.drop (posAfter s n 0)).drop
      (runLen isWhitespace (s.drop (posAfter s n 0))))
    revert h
    show (scan _).1.Typ ∈ _ → (scan _).1.Typ ≠ BIGINT ∧ (scan _).1.Typ ≠ REMAINDER
    generalize (scan ((s.drop (posAfter s n 0)).drop
      (runLen isWhitespace (s.drop (posAfter s n 0))))).1.Typ = k
    revert k
    decide
  · intro lw hw hc
    have := NextToken_single hl hw 37 hc (by decide) (by decide) (by decide) rfl rfl
    rw [hr] at this
    exact Option.some.inj this

/-- Witness of C17: the second call on the input `4 %`, with the cursor on `%`. -/
theorem reserved_kinds_unreachable_witness :
    run (ascii "4 %") 1 = some (stateAt (ascii "4 %") 1) ∧
    NextToken (stateAt (ascii "4 %") 1) = some (tk ILLEGAL "%", stateAt (ascii "4 %") 3) ∧
    skipWhitespace (stateAt (ascii "4 %") 1) = some (stateAt (ascii "4 %") 2) ∧
    (stateAt (ascii "4 %") 2).ch = 37 ∧
    ((tk ILLEGAL "%").Typ ≠ BIGINT ∧ (tk ILLEGAL "%").Typ ≠ REMAINDER) ∧
    (tk ILLEGAL "%", stateAt (ascii "4 %") 3) =
      (tk ILLEGAL "%", stateAt (ascii "4 %") ((stateAt (ascii "4 %") 2).position + 1)) :=
  ⟨rfl, rfl, rfl, rfl,
    (reserved_kinds_unreachable (ascii "4 %") 1 (stateAt (ascii "4 %") 1)
      (tk ILLEGAL "%", stateAt (ascii "4 %") 3) rfl rfl).1,
    (reserved_kinds_unreachable (ascii "4 %") 1 (stateAt (ascii "4 %") 1)
      (tk ILLEGAL "%", stateAt (ascii "4 %") 3) rfl rfl).2.1 (stateAt (ascii "4 %") 2) rfl rfl⟩

/-- C16, counterexample: on the empty input the cursor of `New` is at the end (position 0,
`readPosition` 1); the call returns `EOF` and leaves position 1 and `readPosition` 2, so
the position exceeds the length 0 of the input. -/
theorem cursor_advances_at_end :
    run [] 0 = some (stateAt [] 0) ∧
    ([] : List Nat).length ≤ (stateAt [] 0).position ∧
    NextToken (stateAt [] 0) = some ({ Typ := EOF, Literal := [] }, stateAt [] 1) ∧
    ((stateAt [] 0).position = 0 ∧ (stateAt [] 0).readPosition = 1) ∧
    ((stateAt [] 1).position = 1 ∧ (stateAt [] 1).readPosition = 2) ∧
    ([] : List Nat).length < (stateAt [] 1).position :=
  ⟨rfl, by decide, rfl, ⟨rfl, rfl⟩, ⟨rfl, rfl⟩, by decide⟩

/-- C16, amended: when `NextToken` is called in a state reached from `New(s)` whose cursor
is at or past the end of the input, it returns `EOF` with the empty literal, the loaded
byte stays the sentinel, and `position` and `readPosition` each advance by exactly one;
after `n` calls `position` is at most `len(s) + n`. -/
theorem eof_at_end_advances (s : List Nat) (n : Nat) (l : Lexer)
    (hl : run s n = some l) (hend : s.length ≤ l.position) :
    ∃ l1, NextToken l = some ({ Typ := EOF, Literal := [] }, l1) ∧
      l1.input = s ∧ l1.ch = 0 ∧
      l1.position = l.position + 1 ∧ l1.readPosition = l.readPosition + 1 ∧
      l.position ≤ s.length + n := by
  have hb := (run_readPosition_le s n l hl).2
  rw [run_some hl] at hend hb ⊢
  have hend2 : s.length ≤ posAfter s n 0 := hend
  refine ⟨stateAt s (posAfter s n 0 + 1), ?_, rfl, ?_, rfl, rfl, hb⟩
  · rw [NextToken_stateAt, lexOne_of_length_le s _ hend2]
  · show (s.drop (posAfter s n 0 + 1)).headD 0 = 0
    rw [List.drop_of_length_le (by omega)]
    rfl

/-- Witness of C16 (amended): the third call on the input `ab`, with the cursor at the
end. -/
theorem eof_at_end_advances_witness :
    run (ascii "ab") 1 = some (stateAt (ascii "ab") 2) ∧
    (ascii "ab").length ≤ (stateAt (ascii "ab") 2).position ∧
    ∃ l1, NextToken (stateAt (ascii "ab") 2) = some ({ Typ := EOF, Literal := [] }, l1) ∧
      l1.input = ascii "ab" ∧ l1.ch = 0 ∧
      l1.position = (stateAt (ascii "ab") 2).position + 1 ∧
      l1.readPosition = (stateAt (ascii "ab") 2).readPosition + 1 ∧
      (stateAt (ascii "ab") 2).position ≤ (ascii "ab").length + 1 :=
  ⟨rfl, by decide,
    eof_at_end_advances (ascii "ab") 1 (stateAt (ascii "ab") 2) rfl (by decide)⟩

/-- C18: in the state produced by `New(s)` (the state after 0 calls) and in every state
reached from it by calls of `NextToken`, the field `input` is `s`, `readPosition` is
`position + 1`, and the loaded byte `ch` is `s[position]` when `position < len(s)` and the
sentinel 0 when `position >= len(s)`; a call never decreases `position`. -/
theorem cursor_invariant (s : List Nat) (n : Nat) (l : Lexer) (hl : run s n = some l) :
    run s 0 = New s ∧
    l.input = s ∧ l.readPosition = l.position + 1 ∧
    (l.position < s.length → byteAt s l.position = some l.ch) ∧
    (s.length ≤ l.position → l.ch = 0) ∧
    (∃ r, NextToken l = some r) ∧
    (∀ r, NextToken l = some r → l.position ≤ r.2.position) := by
  rw [run_some hl]
  refine ⟨?_, rfl, rfl, ?_, ?_, ⟨_, NextToken_stateAt s _⟩, ?_⟩
  · show (New s).bind (callN 0) = New s
    cases New s <;> rfl
  · intro h
    have h1 : (posAfter s n 0) < s.length := h
    show s[posAfter s n 0]? = some ((s.drop (posAfter s n 0)).headD 0)
    rw [headD_drop, List.getElem?_eq_getElem h1]
    rfl
  · intro h
    have h1 : s.length ≤ posAfter s n 0 := h
    show (s.drop (posAfter s n 0)).headD 0 = 0
    rw [List.drop_of_length_le h1]
    rfl
  · intro r hr
    rw [NextToken_some hr]
    exact Nat.le_add_right _ _

/-- Witness of C18: the state after one call on the input `ab c`, with the cursor on the
space at position 2, and the next call, which leaves the cursor on position 4. -/
theorem cursor_invariant_witness :
    run (ascii "ab c") 1 = some (stateAt (ascii "ab c") 2) ∧
    (stateAt (ascii "ab c") 2).input = ascii "ab c" ∧
    (stateAt (ascii "ab c") 2).readPosition = (stateAt (ascii "ab c") 2).position + 1 ∧
    ((stateAt (ascii "ab c") 2).position < (ascii "ab c").length →
      byteAt (ascii "ab c") (stateAt (ascii "ab c") 2).position =
        some (stateAt (ascii "ab c") 2).ch) ∧
    (stateAt (ascii "ab c") 2).ch = 32 ∧
    NextToken (stateAt (ascii "ab c") 2) = some (tk IDENT "c", stateAt (ascii "ab c") 4) ∧
    (stateAt (ascii "ab c") 2).position ≤ (stateAt (ascii "ab c") 4).position :=
  ⟨rfl,
    (cursor_invariant (ascii "ab c") 1 (stateAt (ascii "ab c") 2) rfl).2.1,
    (cursor_invariant (ascii "ab c") 1 (stateAt (ascii "ab c") 2) rfl).2.2.1,
    (cursor_invariant (ascii "ab c") 1 (stateAt (ascii "ab c") 2) rfl).2.2.2.1,
    rfl, rfl,
    (cursor_invariant (ascii "ab c") 1 (stateAt (ascii "ab c") 2) rfl).2.2.2.2.2.2
      (tk IDENT "c", stateAt (ascii "ab c") 4) rfl⟩

/-! ## Lossless up to whitespace -/

theorem filter_not_blank_takeWhile (t : List Nat) :
    (t.takeWhile isWhitespace).filter (fun c => !isWhitespace c) = [] := by
  rw [List.filter_eq_nil_iff]
  intro a ha
  have : isWhitespace a = true := List.mem_takeWhile_imp ha
  simp [this]

theorem filter_not_blank_dropWhile (t : List Nat) :
    t.filter (fun c => !isWhitespace c) =
      (t.dropWhile isWhitespace).filter (fun c => !isWhitespace c) := by
  conv_lhs => rw [← List.takeWhile_append_dropWhile isWhitespace t]
  rw [List.filter_append, filter_not_blank_takeWhile, List.nil_append]

/-- On bytes from `0x01` to `0x7F` the literals of the tokens before the `EOF` token,
joined in order, are the bytes that are no whitespace. -/
theorem lexAll_lossless (t : List Nat) (ht : ∀ c ∈ t, c ≠ 0 ∧ c < 128) :
    ∃ pre, lexAll t = pre ++ [{ Typ := EOF, Literal := [] }] ∧ (∀ k ∈ pre, k.Typ ≠ EOF) ∧
      (pre.map Token.Literal).flatten = t.filter (fun c => !isWhitespace c) := by
  suffices H : ∀ (n : Nat) (t : List Nat), t.length = n → (∀ c ∈ t, c ≠ 0 ∧ c < 128) →
      ∃ pre, lexAll t = pre ++ [{ Typ := EOF, Literal := [] }] ∧ (∀ k ∈ pre, k.Typ ≠ EOF) ∧
        (pre.map Token.Literal).flatten = t.filter (fun c => !isWhitespace c) from
    H _ t rfl ht
  intro n
  induction n using Nat.strong_induction_on with
  | _ n ih =>
    intro t hn ht
    rw [lexAll_unfold, filter_not_blank_dropWhile]
    have hone := lexOne_eq t
    cases hd : t.dropWhile isWhitespace with
    | nil =>
      rw [hd] at hone
      have he : (lexOne t).1 = { Typ := EOF, Literal := [] } := by rw [hone]; rfl
      rw [he, if_pos rfl]
      exact ⟨[], rfl, fun k hk => absurd hk (List.not_mem_nil k), rfl⟩
    | cons c cs =>
      rw [hd] at hone
      have hcm : c ∈ t := by
        have h1 : c ∈ t.dropWhile isWhitespace := by rw [hd]; exact List.mem_cons_self c cs
        exact (List.dropWhile_sublist _).subset h1
      obtain ⟨hc0, hc128⟩ := ht c hcm
      have hcw : isWhitespace c = false := dropWhile_head_false _ t c cs hd
      have hne : (lexOne t).1.Typ ≠ EOF := by
        rw [hone]
        intro h
        exact hc0 ((scan_eof_iff (c :: cs)).1 h)
      rw [if_neg hne]
      have hlt := lexOne_drop_lt t hne
      have hrest : t.drop (lexOne t).2 = (c :: cs).drop (scan (c :: cs)).2 := by
        rw [hone, ← hd, ← drop_runLen, List.drop_drop]
      have hsub : ∀ x ∈ t.drop (lexOne t).2, x ≠ 0 ∧ x < 128 :=
        fun x hx => ht x (List.mem_of_mem_drop hx)
      obtain ⟨pre, hpre, hpe, hjoin⟩ := ih _ (by rw [← hn]; exact hlt) _ rfl hsub
      refine ⟨(lexOne t).1 :: pre, ?_, ?_, ?_⟩
      · rw [hpre]; rfl
      · intro k hk
        rcases List.mem_cons.1 hk with h | h
        · rw [h]; exact hne
        · exact hpe k h
      · rw [List.map_cons, List.flatten_cons, hjoin, hrest]
        have hlit : (lexOne t).1.Literal = (c :: cs).take (scan (c :: cs)).2 := by
          rw [hone]; exact (scan_literal c cs hc0).1 hc128
        have hnb : ∀ x ∈ (c :: cs).take (scan (c :: cs)).2, (!isWhitespace x) = true := by
          intro x hx
          have := scan_literal_not_blank (c :: cs) hcw x
            (by rw [(scan_literal c cs hc0).1 hc128]; exact hx)
          simp [this]
        rw [hlit]
        conv_rhs => rw [← List.take_append_drop (scan (c :: cs)).2 (c :: cs)]
        rw [List.filter_append, List.filter_eq_self.2 hnb]

/-- C19: for every input whose bytes are all in the range `0x01..0x7F`, the literals of the
tokens that `NextToken` returns before the first `EOF`, joined in order, are exactly the
input with every space, tab, newline and carriage-return byte removed. -/
theorem lossless_up_to_whitespace (s : List Nat) (hs : ∀ c ∈ s, 1 ≤ c ∧ c ≤ 127) :
    ∃ pre, tokenize s = some (pre ++ [{ Typ := EOF, Literal := [] }]) ∧
      (∀ k ∈ pre, k.Typ ≠ EOF) ∧
      (pre.map Token.Literal).flatten = s.filter (fun c => !isWhitespace c) := by
  have ht : ∀ c ∈ s, c ≠ 0 ∧ c < 128 := by
    intro c hc
    have := hs c hc
    omega
  obtain ⟨pre, h1, h2, h3⟩ := lexAll_lossless s ht
  exact ⟨pre, by rw [tokenize_eq, h1], h2, h3⟩

/-- Witness of C19: the input `a = 1;` with a tab inside gives the four literals `a`, `=`,
`1`, `;`. -/
theorem lossless_up_to_whitespace_witness :
    (∀ c ∈ ascii "a =\t1;", 1 ≤ c ∧ c ≤ 127) ∧
    tokenize (ascii "a =\t1;") =
      some ([tk IDENT "a", tk ASSIGN "=", tk DOUBLE "1", tk SEMICOLON ";"] ++ [tk EOF ""]) ∧
    (ascii "a =\t1;").filter (fun c => !isWhitespace c) = ascii "a=1;" ∧
    ∃ pre, tokenize (ascii "a =\t1;") = some (pre ++ [{ Typ := EOF, Literal := [] }]) ∧
      (∀ k ∈ pre, k.Typ ≠ EOF) ∧
      (pre.map Token.Literal).flatten = (ascii "a =\t1;").filter (fun c => !isWhitespace c) :=
  ⟨by decide, rfl, rfl, lossless_up_to_whitespace (ascii "a =\t1;") (by decide)⟩

/-! ## The literal by the kind of the token -/

theorem shape_intro (ty : TokenType) (lit : List Nat)
    (h1 : ty ∈ [ASSIGN, PLUS, MINUS, BANG, ASTERISK, SLASH, LT, GT, EQ, NEQ, STR_EQ, STR_NEQ,
      COMMA, SEMICOLON, LPAREN, RPAREN, LBRACE, RBRACE] → lit = ty.str)
    (h2 : ty ∈ [FUNCTION, LET, TRUE, FALSE, IF, ELSE, RETURN] →
      (lit, ty) ∈ keywords ∧ lit.map (fun c => c - 32) = ty.str)
    (h3 : ty = IDENT → lit ≠ [] ∧ (∀ c ∈ lit, isLetter c = true) ∧ ∀ k ∈ keywords, lit ≠ k.1)
    (h4 : ty = DOUBLE → lit ≠ [] ∧ ∀ c ∈ lit, isDigit c = true)
    (h5 : lit = [] ↔ ty = EOF) : LiteralShape { Typ := ty, Literal := lit } :=
  ⟨h1, h2, h3, h4, h5⟩

theorem shape_ident (lit : List Nat) (hne : lit ≠ []) (hall : ∀ c ∈ lit, isLetter c = true) :
    LiteralShape { Typ := LookupIdent lit, Literal := lit } := by
  rw [LookupIdent_eq]
  by_cases h0 : lit = ascii "function"
  · subst h0; decide
  rw [if_neg h0]
  by_cases h1 : lit = ascii "let"
  · subst h1; decide
  rw [if_neg h1]
  by_cases h2 : lit = ascii "true"
  · subst h2; decide
  rw [if_neg h2]
  by_cases h3 : lit = ascii "false"
  · subst h3; decide
  rw [if_neg h3]
  by_cases h4 : lit = ascii "if"
  · subst h4; decide
  rw [if_neg h4]
  by_cases h5 : lit = ascii "else"
  · subst h5; decide
  rw [if_neg h5]
  by_cases h6 : lit = ascii "return"
  · subst h6; decide
  rw [if_neg h6]
  refine shape_intro IDENT lit (fun h => absurd h (by decide)) (fun h => absurd h (by decide))
    (fun _ => ⟨hne, hall, ?_⟩) (fun h => absurd h (by decide)) ?_
  · intro k hk
    simp only [keywords, List.mem_cons, List.mem_singleton, List.not_mem_nil, or_false] at hk
    rcases hk with h | h | h | h | h | h | h <;> rw [h] <;> assumption
  · constructor
    · intro h; exact absurd h hne
    · intro h; exact absurd h (by decide)

theorem shape_double (lit : List Nat) (hne : lit ≠ []) (hall : ∀ c ∈ lit, isDigit c = true) :
    LiteralShape { Typ := DOUBLE, Literal := lit } := by
  refine shape_intro DOUBLE lit (fun h => absurd h (by decide)) (fun h => absurd h (by decide))
    (fun h => absurd h (by decide)) (fun _ => ⟨hne, hall⟩) ?_
  constructor
  · intro h; exact absurd h hne
  · intro h; exact absurd h (by decide)

theorem byteToString_ne_nil (c : Nat) : byteToString c ≠ [] := by
  unfold byteToString
  split_ifs <;> simp

theorem shape_single (c : Nat) : LiteralShape (newToken (singleType c) c) := by
  by_cases h43 : c = 43
  · subst h43; decide
  by_cases h45 : c = 45
  · subst h45; decide
  by_cases h47 : c = 47
  · subst h47; decide
  by_cases h42 : c = 42
  · subst h42; decide
  by_cases h60 : c = 60
  · subst h60; decide
  by_cases h62 : c = 62
  · subst h62; decide
  by_cases h44 : c = 44
  · subst h44; decide
  by_cases h59 : c = 59
  · subst h59; decide
  by_cases h40 : c = 40
  · subst h40; decide
  by_cases h41 : c = 41
  · subst h41; decide
  by_cases h123 : c = 123
  · subst h123; decide
  by_cases h125 : c = 125
  · subst h125; decide
  have hi : singleType c = ILLEGAL := by
    rw [singleType_eq_ILLEGAL_iff]
    simp only [List.mem_cons, List.mem_singleton, List.not_mem_nil, or_false, not_or]
    exact ⟨h43, h45, h47, h42, h60, h62, h44, h59, h40, h41, h123, h125⟩
  rw [hi]
  refine shape_intro ILLEGAL (byteToString c) (fun h => absurd h (by decide))
    (fun h => absurd h (by decide)) (fun h => absurd h (by decide))
    (fun h => absurd h (by decide)) ?_
  constructor
  · intro h; exact absurd h (byteToString_ne_nil c)
  · intro h; exact absurd h (by decide)

theorem shape_operator_eq (t : List Nat) (h : t.headD 0 = 61) :
    LiteralShape (scanOperator STR_EQ EQ ASSIGN t).1 := by
  unfold scanOperator
  rw [h]
  split_ifs <;> decide

theorem shape_operator_bang (t : List Nat) (h : t.headD 0 = 33) :
    LiteralShape (scanOperator STR_NEQ NEQ BANG t).1 := by
  unfold scanOperator
  rw [h]
  split_ifs <;> decide

/-- Every token the scanner produces has the literal that its kind prescribes. -/
theorem scan_shape (t : List Nat) : LiteralShape (scan t).1 := by
  rw [scan_eq]
  by_cases h1 : t.headD 0 = 61
  · rw [if_pos h1]; exact shape_operator_eq t h1
  rw [if_neg h1]
  by_cases h2 : t.headD 0 = 33
  · rw [if_pos h2]; exact shape_operator_bang t h2
  rw [if_neg h2]
  by_cases h3 : t.headD 0 = 0
  · rw [if_pos h3]; decide
  rw [if_neg h3]
  by_cases h4 : isLetter (t.headD 0) = true
  · rw [if_pos h4, take_runLen]
    refine shape_ident _ ?_ (fun c hc => List.mem_takeWhile_imp hc)
    intro e
    have := runLen_pos isLetter_zero h4
    simp only [runLen, e, List.length_nil] at this
    omega
  rw [if_neg h4]
  by_cases h5 : isDigit (t.headD 0) = true
  · rw [if_pos h5, take_runLen]
    refine shape_double _ ?_ (fun c hc => List.mem_takeWhile_imp hc)
    intro e
    have := runLen_pos isDigit_zero h5
    simp only [runLen, e, List.length_nil] at this
    omega
  rw [if_neg h5]
  exact shape_single _

/-- C20: for every input and every token returned by `NextToken` in a state reached from
`New(s)`: (i) an operator, delimiter or grouping kind has the string value of the kind as
literal; (ii) a keyword kind has the reserved word that `keywords` maps to it, which is the
name of the kind in lower case; (iii) `IDENT` has a non-empty literal of letters and
underscores that is no key of `keywords`; (iv) `DOUBLE` has a non-empty literal of digits;
(v) the literal is empty if and only if the kind is `EOF`. -/
theorem kind_determines_literal (s : List Nat) (n : Nat) (l : Lexer) (r : Token × Lexer)
    (hl : run s n = some l) (hr : NextToken l = some r) :
    (r.1.Typ ∈ [ASSIGN, PLUS, MINUS, BANG, ASTERISK, SLASH, LT, GT, EQ, NEQ, STR_EQ, STR_NEQ,
        COMMA, SEMICOLON, LPAREN, RPAREN, LBRACE, RBRACE] → r.1.Literal = r.1.Typ.str) ∧
    (r.1.Typ ∈ [FUNCTION, LET, TRUE, FALSE, IF, ELSE, RETURN] →
      (r.1.Literal, r.1.Typ) ∈ keywords ∧
        r.1.Literal.map (fun c => c - 32) = r.1.Typ.str) ∧
    (r.1.Typ = IDENT → r.1.Literal ≠ [] ∧ (∀ c ∈ r.1.Literal, isLetter c = true) ∧
      ∀ k ∈ keywords, r.1.Literal ≠ k.1) ∧
    (r.1.Typ = DOUBLE → r.1.Literal ≠ [] ∧ ∀ c ∈ r.1.Literal, isDigit c = true) ∧
    (r.1.Literal = [] ↔ r.1.Typ = EOF) := by
  rw [run_some hl] at hr
  rw [NextToken_some hr]
  exact scan_shape _

/-- Witness of C20: the first call on the input `let x`, which returns `LET` with the
literal `let`. -/
theorem kind_determines_literal_witness :
    run (ascii "let x") 0 = some (stateAt (ascii "let x") 0) ∧
    NextToken (stateAt (ascii "let x") 0) = some (tk LET "let", stateAt (ascii "let x") 3) ∧
    ((tk LET "let").Typ ∈ [ASSIGN, PLUS, MINUS, BANG, ASTERISK, SLASH, LT, GT, EQ, NEQ, STR_EQ, STR_NEQ,
        COMMA, SEMICOLON, LPAREN, RPAREN, LBRACE, RBRACE] → (tk LET "let").Literal = (tk LET "let").Typ.str) ∧
    ((tk LET "let").Typ ∈ [FUNCTION, LET, TRUE, FALSE, IF, ELSE, RETURN] →
      ((tk LET "let").Literal, (tk LET "let").Typ) ∈ keywords ∧
        (tk LET "let").Literal.map (fun c => c - 32) = (tk LET "let").Typ.str) ∧
    ((tk LET "let").Typ = IDENT → (tk LET "let").Literal ≠ [] ∧ (∀ c ∈ (tk LET "let").Literal, isLetter c = true) ∧
      ∀ k ∈ keywords, (tk LET "let").Literal ≠ k.1) ∧
    ((tk LET "let").Typ = DOUBLE → (tk LET "let").Literal ≠ [] ∧ ∀ c ∈ (tk LET "let").Literal, isDigit c = true) ∧
    ((tk LET "let").Literal = [] ↔ (tk LET "let").Typ = EOF) :=
  ⟨rfl, rfl,
    kind_determines_literal (ascii "let x") 0 (stateAt (ascii "let x") 0)
      (tk LET "let", stateAt (ascii "let x") 3) rfl rfl⟩

/-! ## The cursors as Go `int`s: agreement below the overflow -/

theorem wrapInt_of_lt (M x : Nat) (h : x < M) : wrapInt M (x : Int) = (x : Int) := by
  unfold wrapInt
  have h1 : (0 : Int) ≤ (x : Int) + (M : Int) := by omega
  have h2 : (x : Int) + (M : Int) < 2 * (M : Int) := by omega
  rw [Int.emod_eq_of_lt h1 h2]
  omega

theorem wrapInt_self (M : Nat) : wrapInt M (M : Int) = -(M : Int) := by
  unfold wrapInt
  have h : (M : Int) + (M : Int) = 2 * (M : Int) := by omega
  rw [h, Int.emod_self]
  omega

theorem byteAtInt_cast (s : List Nat) (i : Nat) : byteAtInt s (i : Int) = byteAt s i := by
  unfold byteAtInt byteAt
  rw [if_pos (Int.ofNat_nonneg i)]
  rfl

theorem sliceInt_cast (s : List Nat) (lo hi : Nat) :
    sliceInt s (lo : Int) (hi : Int) = slice s lo hi := by
  unfold sliceInt slice
  by_cases h : lo ≤ hi ∧ hi ≤ s.length
  · have h1 : (0 : Int) ≤ (lo : Int) ∧ (lo : Int) ≤ (hi : Int) ∧ (hi : Int) ≤ (s.length : Int) := by
      omega
    rw [if_pos h, if_pos h1]
    rfl
  · have h1 : ¬ ((0 : Int) ≤ (lo : Int) ∧ (lo : Int) ≤ (hi : Int) ∧
        (hi : Int) ≤ (s.length : Int)) := by
      omega
    rw [if_neg h, if_neg h1]

theorem toInt_ch (l : Lexer) : l.toInt.ch = l.ch := rfl

theorem toInt_input (l : Lexer) : l.toInt.input = l.input := rfl

theorem toInt_position (l : Lexer) : l.toInt.position = (l.position : Int) := rfl

theorem toInt_readPosition (l : Lexer) : l.toInt.readPosition = (l.readPosition : Int) := rfl

/-- Below the overflow `readChar` with `int` cursors does what `readChar` does. -/
theorem readCharInt_toInt (M : Nat) (l : Lexer) (h : l.readPosition + 1 < M) :
    readCharInt M l.toInt = some (stateAt l.input l.readPosition).toInt := by
  have hs := readChar_eq l
  unfold readChar at hs
  unfold readCharInt
  have hw : wrapInt M ((l.readPosition : Int) + 1) = ((l.readPosition + 1 : Nat) : Int) := by
    have := wrapInt_of_lt M (l.readPosition + 1) h
    rw [← this]
    congr 1
  simp only [toInt_input, toInt_readPosition, byteAtInt_cast, hw]
  by_cases hc : l.input.length ≤ l.readPosition
  · have hc1 : (l.input.length : Int) ≤ (l.readPosition : Int) := by omega
    rw [if_pos hc] at hs
    rw [if_pos hc1, ← Option.some.inj hs]
    rfl
  · have hc1 : ¬ (l.input.length : Int) ≤ (l.readPosition : Int) := by omega
    rw [if_neg hc] at hs
    rw [if_neg hc1]
    cases hb : byteAt l.input l.readPosition with
    | none => rw [hb] at hs; cases hs
    | some c =>
      rw [hb] at hs
      rw [Option.map_some', ← Option.some.inj hs]
      rfl

theorem whileLoop_readPosition_le (f : Nat → Bool) (fuel : Nat) (l r : Lexer)
    (h : whileLoop f fuel l = some r) : l.readPosition ≤ r.readPosition := by
  induction fuel generalizing l with
  | zero => cases h
  | succ k ih =>
    unfold whileLoop at h
    by_cases hc : f l.ch = true
    · rw [if_pos hc, readChar_eq, Option.some_bind] at h
      have := ih _ h
      have e : (stateAt l.input l.readPosition).readPosition = l.readPosition + 1 := rfl
      omega
    · rw [if_neg hc] at h
      rw [← Option.some.inj h]

/-- Below the overflow a loop with `int` cursors returns what the loop returns. -/
theorem whileLoopInt_toInt (f : Nat → Bool) (M fuel : Nat) (l r : Lexer)
    (h : whileLoop f fuel l = some r) (hb : r.readPosition < M) :
    whileLoopInt f M fuel l.toInt = some r.toInt := by
  induction fuel generalizing l with
  | zero => cases h
  | succ k ih =>
    unfold whileLoop at h
    unfold whileLoopInt
    rw [toInt_ch]
    by_cases hc : f l.ch = true
    · rw [if_pos hc, readChar_eq, Option.some_bind] at h
      have hle := whileLoop_readPosition_le f k _ r h
      have e : (stateAt l.input l.readPosition).readPosition = l.readPosition + 1 := rfl
      rw [if_pos hc, readCharInt_toInt M l (by omega), Option.some_bind]
      exact ih _ h
    · rw [if_neg hc] at h
      rw [if_neg hc, ← Option.some.inj h]

theorem skipWhitespaceLoopInt_eq (M fuel : Nat) (l : IntLexer) :
    skipWhitespaceLoopInt M fuel l = whileLoopInt isWhitespace M fuel l := by
  induction fuel generalizing l with
  | zero => rfl
  | succ n ih =>
    unfold skipWhitespaceLoopInt whileLoopInt
    split
    · cases readCharInt M l <;> simp [ih]
    · rfl

theorem readIdentifierLoopInt_eq (M fuel : Nat) (l : IntLexer) :
    readIdentifierLoopInt M fuel l = whileLoopInt isLetter M fuel l := by
  induction fuel generalizing l with
  | zero => rfl
  | succ n ih =>
    unfold readIdentifierLoopInt whileLoopInt
    split
    · cases readCharInt M l <;> simp [ih]
    · rfl

theorem readNumberLoopInt_eq (M fuel : Nat) (l : IntLexer) :
    readNumberLoopInt M fuel l = whileLoopInt isDigit M fuel l := by
  induction fuel generalizing l with
  | zero => rfl
  | succ n ih =>
    unfold readNumberLoopInt whileLoopInt
    split
    · cases readCharInt M l <;> simp [ih]
    · rfl

theorem stateAt_input (s : List Nat) (p : Nat) : (stateAt s p).input = s := rfl

theorem stateAt_readPosition (s : List Nat) (p : Nat) : (stateAt s p).readPosition = p + 1 := rfl

theorem stateAt_position (s : List Nat) (p : Nat) : (stateAt s p).position = p := rfl

theorem readCharInt_stateAt (M : Nat) (s : List Nat) (p : Nat) (h : p + 2 < M) :
    readCharInt M (stateAt s p).toInt = some (stateAt s (p + 1)).toInt :=
  readCharInt_toInt M (stateAt s p) h

theorem peekCharAtInt_toInt (M : Nat) (l : Lexer) (k : Nat) (h : l.readPosition + k < M) :
    peekCharAtInt M l.toInt (k : Int) = peekCharAt l k := by
  unfold peekCharAtInt peekCharAt
  have hw : wrapInt M ((l.readPosition : Int) + (k : Int)) = ((l.readPosition + k : Nat) : Int) := by
    have := wrapInt_of_lt M (l.readPosition + k) h
    rw [← this]
    congr 1
  simp only [toInt_input, toInt_readPosition, hw, byteAtInt_cast]
  by_cases hc : l.input.length ≤ l.readPosition + k
  · have hc1 : (l.input.length : Int) ≤ ((l.readPosition + k : Nat) : Int) := by omega
    rw [if_pos hc, if_pos hc1]
  · have hc1 : ¬ (l.input.length : Int) ≤ ((l.readPosition + k : Nat) : Int) := by omega
    rw [if_neg hc, if_neg hc1]

theorem peekNextCharInt_toInt (M : Nat) (l : Lexer) (h : l.readPosition < M) :
    peekNextCharInt M l.toInt = peekCharAt l 0 :=
  peekCharAtInt_toInt M l 0 h

theorem peekNextNextCharInt_toInt (M : Nat) (l : Lexer) (h : l.readPosition + 1 < M) :
    peekNextNextCharInt M l.toInt = peekCharAt l 1 :=
  peekCharAtInt_toInt M l 1 h

theorem advance_eq (tok : Token) (l : Lexer) :
    advance tok l = some (tok, stateAt l.input l.readPosition) := by
  unfold advance
  rw [readChar_eq]
  rfl

theorem advanceInt_toInt (M : Nat) (tok : Token) (l : Lexer) (r : Token × Lexer)
    (h : advance tok l = some r) (hb : r.2.readPosition < M) :
    advanceInt M tok l.toInt = some (r.1, r.2.toInt) := by
  rw [advance_eq] at h
  have hr := Option.some.inj h
  rw [← hr] at hb ⊢
  have hb1 : l.readPosition + 1 < M := hb
  unfold advanceInt
  rw [readCharInt_toInt M l hb1]
  rfl

theorem operatorCaseInt_toInt (M : Nat) (t3 t2 t1 : TokenType) (l : Lexer) (r : Token × Lexer)
    (h : operatorCase t3 t2 t1 l = some r) (hb : r.2.readPosition < M) :
    operatorCaseInt M t3 t2 t1 l.toInt = some (r.1, r.2.toInt) := by
  obtain ⟨p1, hp1⟩ : ∃ p1, peekCharAt l 0 = some p1 :=
    Option.isSome_iff_exists.1 (peekCharAt_isSome l 0)
  obtain ⟨p2, hp2⟩ : ∃ p2, peekCharAt l 1 = some p2 :=
    Option.isSome_iff_exists.1 (peekCharAt_isSome l 1)
  unfold operatorCase peekNextChar peekNextNextChar at h
  unfold operatorCaseInt
  rw [hp1, Option.some_bind] at h
  by_cases e1 : p1 = 61
  · rw [if_pos e1, hp2, Option.some_bind] at h
    by_cases e2 : p2 = 61
    · rw [if_pos e2] at h
      simp only [readChar_eq, Option.some_bind, advance_eq, stateAt_input,
        stateAt_readPosition] at h
      have hr := Option.some.inj h
      rw [← hr] at hb ⊢
      have hb1 : l.readPosition + 1 + 1 + 1 < M := hb
      rw [peekNextCharInt_toInt M l (by omega), hp1, Option.some_bind, if_pos e1,
        peekNextNextCharInt_toInt M l (by omega), hp2, Option.some_bind, if_pos e2]
      simp only [readCharInt_toInt M l (by omega), Option.some_bind,
        readCharInt_stateAt M l.input l.readPosition (by omega), toInt_ch, advanceInt,
        readCharInt_stateAt M l.input (l.readPosition + 1) (by omega), Option.map_some']
    · rw [if_neg e2] at h
      simp only [readChar_eq, Option.some_bind, advance_eq, stateAt_input,
        stateAt_readPosition] at h
      have hr := Option.some.inj h
      rw [← hr] at hb ⊢
      have hb1 : l.readPosition + 1 + 1 < M := hb
      rw [peekNextCharInt_toInt M l (by omega), hp1, Option.some_bind, if_pos e1,
        peekNextNextCharInt_toInt M l (by omega), hp2, Option.some_bind, if_neg e2]
      simp only [readCharInt_toInt M l (by omega), Option.some_bind, toInt_ch, advanceInt,
        readCharInt_stateAt M l.input l.readPosition (by omega), Option.map_some']
  · rw [if_neg e1] at h
    have hb1 : l.readPosition < M := by
      rw [advance_eq] at h
      have hr := Option.some.inj h
      rw [← hr] at hb
      have hb2 : l.readPosition + 1 < M := hb
      omega
    rw [peekNextCharInt_toInt M l hb1, hp1, Option.some_bind, if_neg e1, toInt_ch]
    exact advanceInt_toInt M _ l r h hb

theorem readIdentifierInt_toInt (M : Nat) (l : Lexer) (r : List Nat × Lexer)
    (h : readIdentifier l = some r) (hb : r.2.readPosition < M) :
    readIdentifierInt M l.toInt = some (r.1, r.2.toInt) := by
  unfold readIdentifier at h
  unfold readIdentifierInt
  cases hloop : readIdentifierLoop (l.input.length + 2) l with
  | none => rw [hloop] at h; cases h
  | some l1 =>
    rw [hloop, Option.some_bind] at h
    cases hsl : slice l1.input l.position l1.position with
    | none => rw [hsl] at h; cases h
    | some x =>
      rw [hsl, Option.map_some'] at h
      have hr := Option.some.inj h
      rw [← hr] at hb ⊢
      rw [readIdentifierLoop_eq] at hloop
      rw [toInt_input, readIdentifierLoopInt_eq, whileLoopInt_toInt _ M _ l l1 hloop hb,
        Option.some_bind, toInt_input, toInt_position, toInt_position, sliceInt_cast, hsl]
      rfl

theorem readNumberInt_toInt (M : Nat) (l : Lexer) (r : List Nat × Lexer)
    (h : readNumber l = some r) (hb : r.2.readPosition < M) :
    readNumberInt M l.toInt = some (r.1, r.2.toInt) := by
  unfold readNumber at h
  unfold readNumberInt
  cases hloop : readNumberLoop (l.input.length + 2) l with
  | none => rw [hloop] at h; cases h
  | some l1 =>
    rw [hloop, Option.some_bind] at h
    cases hsl : slice l1.input l.position l1.position with
    | none => rw [hsl] at h; cases h
    | some x =>
      rw [hsl, Option.map_some'] at h
      have hr := Option.some.inj h
      rw [← hr] at hb ⊢
      rw [readNumberLoop_eq] at hloop
      rw [toInt_input, readNumberLoopInt_eq, whileLoopInt_toInt _ M _ l l1 hloop hb,
        Option.some_bind, toInt_input, toInt_position, toInt_position, sliceInt_cast, hsl]
      rfl

/-- Below the overflow the `switch` with `int` cursors returns what the `switch` returns. -/
theorem dispatchInt_toInt (M : Nat) (l : Lexer) (r : Token × Lexer)
    (h : dispatch l = some r) (hb : r.2.readPosition < M) :
    dispatchInt M l.toInt = some (r.1, r.2.toInt) := by
  unfold dispatch at h
  unfold dispatchInt
  simp only [toInt_ch]
  by_cases k0 : l.ch = 61
  · rw [if_pos k0] at h ⊢; exact operatorCaseInt_toInt M _ _ _ l r h hb
  rw [if_neg k0] at h ⊢
  by_cases k1 : l.ch = 43
  · rw [if_pos k1] at h ⊢; exact advanceInt_toInt M _ l r h hb
  rw [if_neg k1] at h ⊢
  by_cases k2 : l.ch = 45
  · rw [if_pos k2] at h ⊢; exact advanceInt_toInt M _ l r h hb
  rw [if_neg k2] at h ⊢
  by_cases k3 : l.ch = 33
  · rw [if_pos k3] at h ⊢; exact operatorCaseInt_toInt M _ _ _ l r h hb
  rw [if_neg k3] at h ⊢
  by_cases k4 : l.ch = 47
  · rw [if_pos k4] at h ⊢; exact advanceInt_toInt M _ l r h hb
  rw [if_neg k4] at h ⊢
  by_cases k5 : l.ch = 42
  · rw [if_pos k5] at h ⊢; exact advanceInt_toInt M _ l r h hb
  rw [if_neg k5] at h ⊢
  by_cases k6 : l.ch = 60
  · rw [if_pos k6] at h ⊢; exact advanceInt_toInt M _ l r h hb
  rw [if_neg k6] at h ⊢
  by_cases k7 : l.ch = 62
  · rw [if_pos k7] at h ⊢; exact advanceInt_toInt M _ l r h hb
  rw [if_neg k7] at h ⊢
  by_cases k8 : l.ch = 44
  · rw [if_pos k8] at h ⊢; exact advanceInt_toInt M _ l r h hb
  rw [if_neg k8] at h ⊢
  by_cases k9 : l.ch = 59
  · rw [if_pos k9] at h ⊢; exact advanceInt_toInt M _ l r h hb
  rw [if_neg k9] at h ⊢
  by_cases k10 : l.ch = 40
  · rw [if_pos k10] at h ⊢; exact advanceInt_toInt M _ l r h hb
  rw [if_neg k10] at h ⊢
  by_cases k11 : l.ch = 41
  · rw [if_pos k11] at h ⊢; exact advanceInt_toInt M _ l r h hb
  rw [if_neg k11] at h ⊢
  by_cases k12 : l.ch = 123
  · rw [if_pos k12] at h ⊢; exact advanceInt_toInt M _ l r h hb
  rw [if_neg k12] at h ⊢
  by_cases k13 : l.ch = 125
  · rw [if_pos k13] at h ⊢; exact advanceInt_toInt M _ l r h hb
  rw [if_neg k13] at h ⊢
  by_cases h15 : l.ch = ASCII_NUL
  · rw [if_pos h15] at h ⊢; exact advanceInt_toInt M _ l r h hb
  rw [if_neg h15] at h ⊢
  by_cases h16 : isLetter l.ch = true
  · rw [if_pos h16] at h ⊢
    cases hri : readIdentifier l with
    | none => rw [hri] at h; cases h
    | some x =>
      rw [hri, Option.map_some'] at h
      have hr := Option.some.inj h
      rw [← hr] at hb ⊢
      rw [readIdentifierInt_toInt M l x hri hb]
      rfl
  rw [if_neg h16] at h ⊢
  by_cases h17 : isDigit l.ch = true
  · rw [if_pos h17] at h ⊢
    cases hri : readNumber l with
    | none => rw [hri] at h; cases h
    | some x =>
      rw [hri, Option.map_some'] at h
      have hr := Option.some.inj h
      rw [← hr] at hb ⊢
      rw [readNumberInt_toInt M l x hri hb]
      rfl
  rw [if_neg h17] at h ⊢
  exact advanceInt_toInt M _ l r h hb

theorem skipWhitespaceInt_toInt (M : Nat) (l r : Lexer)
    (h : skipWhitespace l = some r) (hb : r.readPosition < M) :
    skipWhitespaceInt M l.toInt = some r.toInt := by
  unfold skipWhitespace at h
  unfold skipWhitespaceInt
  rw [skipWhitespaceLoop_eq] at h
  rw [toInt_input, skipWhitespaceLoopInt_eq]
  exact whileLoopInt_toInt _ M _ l r h hb

/-- One call with `int` cursors on a canonical state, when the cursor it leaves is below
the overflow: it returns what the call with natural-number cursors returns. -/
theorem NextTokenInt_stateAt (M : Nat) (s : List Nat) (p : Nat)
    (hb : p + (lexOne (s.drop p)).2 + 1 < M) :
    NextTokenInt M (stateAt s p).toInt =
      some ((lexOne (s.drop p)).1, (stateAt s (p + (lexOne (s.drop p)).2)).toInt) := by
  have hpos := scan_snd_pos ((s.drop p).drop (runLen isWhitespace (s.drop p)))
  have hb1 : p + (runLen isWhitespace (s.drop p) +
      (scan ((s.drop p).drop (runLen isWhitespace (s.drop p)))).2) + 1 < M := hb
  have hsk := skipWhitespace_stateAt s p
  have hd := dispatch_stateAt s (p + runLen isWhitespace (s.drop p))
  unfold NextTokenInt
  rw [skipWhitespaceInt_toInt M _ _ hsk (by rw [stateAt_readPosition]; omega), Option.some_bind,
    dispatchInt_toInt M _ _ hd (by
      show p + runLen isWhitespace (s.drop p) +
        (scan (s.drop (p + runLen isWhitespace (s.drop p)))).2 + 1 < M
      rw [← List.drop_drop]
      omega)]
  simp only [lexOne, List.drop_drop, Nat.add_assoc]

theorem callNInt_stateAt (M : Nat) (s : List Nat) (n p : Nat) (hb : posAfter s n p + 1 < M) :
    callNInt M n (stateAt s p).toInt = some (stateAt s (posAfter s n p)).toInt := by
  induction n generalizing p with
  | zero => rfl
  | succ k ih =>
    have hge := posAfter_ge s k (p + (lexOne (s.drop p)).2)
    have hb1 : posAfter s k (p + (lexOne (s.drop p)).2) + 1 < M := hb
    unfold callNInt
    rw [NextTokenInt_stateAt M s p (by omega), Option.some_bind]
    exact ih _ hb1

theorem NewInt_eq (M : Nat) (s : List Nat) (h : 1 < M) : NewInt M s = some (stateAt s 0).toInt := by
  have := readCharInt_toInt M { input := s, position := 0, ch := 0, readPosition := 0 } h
  exact this

/-- The run with `int` cursors, while the cursor is below the overflow. -/
theorem runInt_eq (M : Nat) (s : List Nat) (n : Nat) (hb : posAfter s n 0 + 1 < M) :
    runInt M s n = some (stateAt s (posAfter s n 0)).toInt := by
  unfold runInt
  rw [NewInt_eq M s (by omega), Option.some_bind]
  exact callNInt_stateAt M s n 0 hb

/-! ## The cursors as Go `int`s: the overflow -/

theorem posAfter_nil (n p : Nat) : posAfter [] n p = p + n := by
  induction n generalizing p with
  | zero => rfl
  | succ k ih =>
    have h1 : lexOne (([] : List Nat).drop p) = ({ Typ := EOF, Literal := [] }, 1) :=
      lexOne_of_length_le [] p (Nat.zero_le _)
    simp only [posAfter, h1, ih]
    omega

theorem callNInt_succ (M n : Nat) (l : IntLexer) :
    callNInt M (n + 1) l =
      (callNInt M n l).bind fun l1 => (NextTokenInt M l1).bind fun r => some r.2 := by
  induction n generalizing l with
  | zero =>
    show (NextTokenInt M l).bind (fun r => callNInt M 0 r.2) = _
    rfl
  | succ k ih =>
    show (NextTokenInt M l).bind (fun r => callNInt M (k + 1) r.2) =
      ((NextTokenInt M l).bind fun r => callNInt M k r.2).bind _
    cases NextTokenInt M l with
    | none => rfl
    | some r => exact ih r.2

theorem runInt_succ (M : Nat) (s : List Nat) (n : Nat) :
    runInt M s (n + 1) =
      (runInt M s n).bind fun l1 => (NextTokenInt M l1).bind fun r => some r.2 := by
  unfold runInt
  cases NewInt M s with
  | none => rfl
  | some l => exact callNInt_succ M n l

/-- A call with the sentinel as loaded byte goes to the case `ASCII_NUL` and the final
`readChar`. -/
theorem NextTokenInt_sentinel (M : Nat) (l : IntLexer) (h : l.ch = 0) :
    NextTokenInt M l = advanceInt M { Typ := EOF, Literal := [] } l := by
  have hsk : skipWhitespaceInt M l = some l := by
    show skipWhitespaceLoopInt M (l.input.length + 1 + 1) l = some l
    unfold skipWhitespaceLoopInt
    rw [h, isWhitespace_zero]
    rfl
  unfold NextTokenInt
  rw [hsk, Option.some_bind]
  unfold dispatchInt
  rw [h]
  rfl

/-- On the empty input with `int` cursors of half-range `M`: `New` and `M - 1` calls
return, the last of them leaving `position = M - 1` (the largest `int`) and
`readPosition = -M` (the smallest); the next call aborts in `readChar`, on the index
`input[readPosition]` with a negative `readPosition`. -/
theorem overflow_on_empty (M : Nat) (hM : 2 ≤ M) :
    runInt M [] (M - 1) =
      some { input := [], position := (M : Int) - 1, ch := 0, readPosition := -(M : Int) } ∧
    runInt M [] M = none := by
  obtain ⟨k, rfl⟩ : ∃ k, M = k + 2 := ⟨M - 2, by omega⟩
  have h0 : (stateAt [] k).toInt.ch = 0 := by
    show (([] : List Nat).drop k).headD 0 = 0
    rw [List.drop_nil]
    rfl
  have hA : runInt (k + 2) [] k = some (stateAt [] k).toInt := by
    have := runInt_eq (k + 2) [] k (by rw [posAfter_nil]; omega)
    rw [posAfter_nil, Nat.zero_add] at this
    exact this
  have hB : runInt (k + 2) [] (k + 1) =
      some { input := [], position := ((k + 2 : Nat) : Int) - 1, ch := 0,
             readPosition := -((k + 2 : Nat) : Int) } := by
    rw [runInt_succ, hA, Option.some_bind, NextTokenInt_sentinel _ _ h0]
    unfold advanceInt readCharInt
    have hc : ((stateAt [] k).toInt.input.length : Int) ≤ (stateAt [] k).toInt.readPosition := by
      show (0 : Int) ≤ ((k + 1 : Nat) : Int)
      omega
    rw [if_pos hc]
    have hw : wrapInt (k + 2) ((stateAt [] k).toInt.readPosition + 1) = -((k + 2 : Nat) : Int) := by
      have e : (stateAt [] k).toInt.readPosition + 1 = ((k + 2 : Nat) : Int) := by
        show ((k + 1 : Nat) : Int) + 1 = ((k + 2 : Nat) : Int)
        omega
      rw [e, wrapInt_self]
    have hp : (stateAt [] k).toInt.readPosition = ((k + 2 : Nat) : Int) - 1 := by
      show ((k + 1 : Nat) : Int) = ((k + 2 : Nat) : Int) - 1
      omega
    have hw2 : wrapInt (k + 2) (((k + 2 : Nat) : Int) - 1 + 1) = -((k + 2 : Nat) : Int) := by
      rw [← hp]; exact hw
    simp only [Option.map_some', Option.some_bind, hp, hw2]
    rfl
  refine ⟨hB, ?_⟩
  rw [runInt_succ, hB, Option.some_bind, NextTokenInt_sentinel _ _ rfl]
  unfold advanceInt readCharInt byteAtInt
  have hc : ¬ ((([] : List Nat).length : Int) ≤ -((k + 2 : Nat) : Int)) := by
    show ¬ ((0 : Int) ≤ -((k + 2 : Nat) : Int))
    omega
  have hc2 : ¬ ((0 : Int) ≤ -((k + 2 : Nat) : Int)) := by omega
  simp only [if_neg hc, if_neg hc2, Option.map_none', Option.none_bind]

theorem NewInt_isSome (M : Nat) (s : List Nat) : ∃ l0, NewInt M s = some l0 := by
  unfold NewInt readCharInt byteAtInt
  cases s with
  | nil => exact ⟨_, rfl⟩
  | cons a t =>
    have hc : ¬ (((a :: t).length : Int) ≤ (0 : Int)) := by
      simp only [List.length_cons]
      omega
    refine ⟨{ input := a :: t, position := 0, ch := a, readPosition := wrapInt M (0 + 1) }, ?_⟩
    rw [if_neg hc]
    simp

/-! ## No abort below the overflow -/

/-- C10, counterexample: with the cursors as Go `int`s of 64 bits, on the empty input,
`New` and the first `2^63 - 1` calls of `NextToken` return, the last one leaving
`position = 2^63 - 1` and `readPosition = -2^63`; call number `2^63` aborts in `readChar`
on the index `input[readPosition]`. The same happens with 32 bits at call number
`2^31`. -/
theorem abort_after_int_overflow :
    (runInt (2 ^ 63) [] (2 ^ 63 - 1) =
        some { input := [], position := ((2 ^ 63 : Nat) : Int) - 1, ch := 0,
               readPosition := -((2 ^ 63 : Nat) : Int) } ∧
      runInt (2 ^ 63) [] (2 ^ 63) = none) ∧
    (runInt (2 ^ 31) [] (2 ^ 31 - 1) =
        some { input := [], position := ((2 ^ 31 : Nat) : Int) - 1, ch := 0,
               readPosition := -((2 ^ 31 : Nat) : Int) } ∧
      runInt (2 ^ 31) [] (2 ^ 31) = none) :=
  ⟨overflow_on_empty (2 ^ 63) (by norm_num), overflow_on_empty (2 ^ 31) (by norm_num)⟩

/-- C10, amended: with the cursors as Go `int`s of half-range `M` (`2^63`, or `2^31`), for
every input `s`, `New(s)` returns, and for every number `n` of calls with
`len(s) + n + 2 < M` the first `n` calls and the next call of `NextToken` return (no index
and no slice is out of range, no loop runs out of fuel, no cursor has wrapped around). In
every state reached within that bound, after `skipWhitespace`, the reads of `readChar` and
`peekCharAt` succeed, and `readIdentifier` and `readNumber`, when the current byte is a
letter or a digit, take a slice `input[start:l.position]` with
`0 <= start <= l.position <= len(input)`. -/
theorem no_abort_below_overflow (M : Nat) (s : List Nat) :
    (∃ l0, NewInt M s = some l0) ∧
    (∀ n, s.length + n + 2 < M →
      ∃ l lw r, runInt M s n = some l ∧ skipWhitespaceInt M l = some lw ∧
        NextTokenInt M l = some r ∧
        0 ≤ l.position ∧ l.readPosition = l.position + 1 ∧ l.readPosition < (M : Int)) ∧
    (∀ n l lw, s.length + n + 2 < M → runInt M s n = some l →
      skipWhitespaceInt M l = some lw →
      (readCharInt M lw).isSome = true ∧
      (peekCharAtInt M lw 0).isSome = true ∧ (peekCharAtInt M lw 1).isSome = true ∧
      (isLetter lw.ch = true → ∃ id l1, readIdentifierInt M lw = some (id, l1) ∧
        sliceInt s lw.position l1.position = some id ∧
        0 ≤ lw.position ∧ lw.position ≤ l1.position ∧ l1.position ≤ (s.length : Int)) ∧
      (isDigit lw.ch = true → ∃ num l1, readNumberInt M lw = some (num, l1) ∧
        sliceInt s lw.position l1.position = some num ∧
        0 ≤ lw.position ∧ lw.position ≤ l1.position ∧ l1.position ≤ (s.length : Int))) := by
  have key : ∀ n, s.length + n + 2 < M →
      posAfter s n 0 ≤ s.length + n ∧
      runInt M s n = some (stateAt s (posAfter s n 0)).toInt ∧
      posAfter s n 0 + runLen isWhitespace (s.drop (posAfter s n 0)) ≤ s.length + n ∧
      skipWhitespaceInt M (stateAt s (posAfter s n 0)).toInt =
        some (stateAt s (posAfter s n 0 +
          runLen isWhitespace (s.drop (posAfter s n 0)))).toInt := by
    intro n hn
    have hP : posAfter s n 0 ≤ s.length + n := by
      have := posAfter_le s n 0
      rw [Nat.max_eq_right (Nat.zero_le _)] at this
      exact this
    have hk := runLen_le isWhitespace (s.drop (posAfter s n 0))
    rw [List.length_drop] at hk
    have hq : posAfter s n 0 + runLen isWhitespace (s.drop (posAfter s n 0)) ≤ s.length + n := by
      omega
    refine ⟨hP, runInt_eq M s n (by omega), hq, ?_⟩
    exact skipWhitespaceInt_toInt M _ _ (skipWhitespace_stateAt s _)
      (by rw [stateAt_readPosition]; omega)
  refine ⟨NewInt_isSome M s, ?_, ?_⟩
  · intro n hn
    obtain ⟨hP, hrun, _, hskip⟩ := key n hn
    have hend := lexOne_end_le s (posAfter s n 0)
    refine ⟨_, _, _, hrun, hskip, NextTokenInt_stateAt M s _ (by omega), Int.ofNat_nonneg _,
      ?_, ?_⟩
    · show ((posAfter s n 0 + 1 : Nat) : Int) = ((posAfter s n 0 : Nat) : Int) + 1
      omega
    · show ((posAfter s n 0 + 1 : Nat) : Int) < (M : Int)
      omega
  · intro n l lw hn hl hw
    obtain ⟨hP, hrun, hq, hskip⟩ := key n hn
    rw [hrun] at hl
    rw [← Option.some.inj hl, hskip] at hw
    rw [← Option.some.inj hw]
    generalize posAfter s n 0 + runLen isWhitespace (s.drop (posAfter s n 0)) = q at hq
    refine ⟨?_, ?_, ?_, ?_, ?_⟩
    · rw [readCharInt_stateAt M s q (by omega)]
      rfl
    · show (peekNextCharInt M (stateAt s q).toInt).isSome = true
      rw [peekNextCharInt_toInt M _ (by rw [stateAt_readPosition]; omega)]
      exact peekCharAt_isSome _ 0
    · show (peekNextNextCharInt M (stateAt s q).toInt).isSome = true
      rw [peekNextNextCharInt_toInt M _ (by rw [stateAt_readPosition]; omega)]
      exact peekCharAt_isSome _ 1
    · intro hc
      have hc1 : isLetter (stateAt s q).ch = true := hc
      have h0 : (s.drop q).headD 0 ≠ 0 := by
        intro h
        rw [stateAt_ch, h] at hc1
        exact absurd hc1 (by decide)
      have hq : q ≤ s.length := Nat.le_of_lt (headD_ne_zero_lt h0)
      have hr := runLen_drop_add_le isLetter s q hq
      have hsim := readIdentifierInt_toInt M (stateAt s q) _ (readIdentifier_stateAt s q hq)
        (by rw [stateAt_readPosition]; omega)
      refine ⟨_, _, hsim, ?_, Int.ofNat_nonneg q, ?_, ?_⟩
      · show sliceInt s ((q : Nat) : Int) ((q + runLen isLetter (s.drop q) : Nat) : Int) = _
        rw [sliceInt_cast]
        exact slice_drop_take s q _ hr
      · show ((q : Nat) : Int) ≤ ((q + runLen isLetter (s.drop q) : Nat) : Int)
        omega
      · show ((q + runLen isLetter (s.drop q) : Nat) : Int) ≤ (s.length : Int)
        omega
    · intro hc
      have hc1 : isDigit (stateAt s q).ch = true := hc
      have h0 : (s.drop q).headD 0 ≠ 0 := by
        intro h
        rw [stateAt_ch, h] at hc1
        exact absurd hc1 (by decide)
      have hq : q ≤ s.length := Nat.le_of_lt (headD_ne_zero_lt h0)
      have hr := runLen_drop_add_le isDigit s q hq
      have hsim := readNumberInt_toInt M (stateAt s q) _ (readNumber_stateAt s q hq)
        (by rw [stateAt_readPosition]; omega)
      refine ⟨_, _, hsim, ?_, Int.ofNat_nonneg q, ?_, ?_⟩
      · show sliceInt s ((q : Nat) : Int) ((q + runLen isDigit (s.drop q) : Nat) : Int) = _
        rw [sliceInt_cast]
        exact slice_drop_take s q _ hr
      · show ((q : Nat) : Int) ≤ ((q + runLen isDigit (s.drop q) : Nat) : Int)
        omega
      · show ((q + runLen isDigit (s.drop q) : Nat) : Int) ≤ (s.length : Int)
        omega

/-- Witness of C10 (amended), with 64-bit cursors: the first call on the input `ab 12` (a
letter under the cursor) and the second call (a digit under the cursor after the space). -/
theorem no_abort_below_overflow_witness :
    ((ascii "ab 12").length + 0 + 2 < 2 ^ 63 ∧
      runInt (2 ^ 63) (ascii "ab 12") 0 = some (stateAt (ascii "ab 12") 0).toInt ∧
      skipWhitespaceInt (2 ^ 63) (stateAt (ascii "ab 12") 0).toInt =
        some (stateAt (ascii "ab 12") 0).toInt ∧
      isLetter (stateAt (ascii "ab 12") 0).toInt.ch = true ∧
      ∃ id l1, readIdentifierInt (2 ^ 63) (stateAt (ascii "ab 12") 0).toInt = some (id, l1) ∧
        sliceInt (ascii "ab 12") (stateAt (ascii "ab 12") 0).toInt.position l1.position =
          some id ∧
        0 ≤ (stateAt (ascii "ab 12") 0).toInt.position ∧
        (stateAt (ascii "ab 12") 0).toInt.position ≤ l1.position ∧
        l1.position ≤ ((ascii "ab 12").length : Int)) ∧
    ((ascii "ab 12").length + 1 + 2 < 2 ^ 63 ∧
      runInt (2 ^ 63) (ascii "ab 12") 1 = some (stateAt (ascii "ab 12") 2).toInt ∧
      skipWhitespaceInt (2 ^ 63) (stateAt (ascii "ab 12") 2).toInt =
        some (stateAt (ascii "ab 12") 3).toInt ∧
      isDigit (stateAt (ascii "ab 12") 3).toInt.ch = true ∧
      ∃ num l1, readNumberInt (2 ^ 63) (stateAt (ascii "ab 12") 3).toInt = some (num, l1) ∧
        sliceInt (ascii "ab 12") (stateAt (ascii "ab 12") 3).toInt.position l1.position =
          some num ∧
        0 ≤ (stateAt (ascii "ab 12") 3).toInt.position ∧
        (stateAt (ascii "ab 12") 3).toInt.position ≤ l1.position ∧
        l1.position ≤ ((ascii "ab 12").length : Int)) :=
  ⟨⟨by decide, rfl, rfl, rfl,
      ((no_abort_below_overflow (2 ^ 63) (ascii "ab 12")).2.2 0
        (stateAt (ascii "ab 12") 0).toInt (stateAt (ascii "ab 12") 0).toInt
        (by decide) (by rfl) (by rfl)).2.2.2.1 (by rfl)⟩,
    ⟨by decide, rfl, rfl, rfl,
      ((no_abort_below_overflow (2 ^ 63) (ascii "ab 12")).2.2 1
        (stateAt (ascii "ab 12") 2).toInt (stateAt (ascii "ab 12") 3).toInt
        (by decide) (by rfl) (by rfl)).2.2.2.2 (by rfl)⟩⟩

end Gelox
